import Mathlib

/-!
Verification of the sysrepo module-info engine (modinfo.c, common.c, shm.h)
against its natural-language specification.

The C sources are shallowly embedded: pure computations become Lean
functions, stateful loops become explicit state passing, machine integers
become `Nat` (no overflow is relevant at the modelled ranges), fallible
calls return `Option`/`Except`, and calls into the external schema/data
library (libyang) or into sysrepo translation units that are not part of
the provided sources are abstracted as oracle parameters (documented at
each definition).
-/

namespace Sysrepo

/-- Error taxonomy surfaced to callers (spec section 6; `sr_error_t` of the
public header, which is not among the provided sources - only the codes
used by the embedded functions are modelled). -/
inductive sr_error_t where
  | ok
  | invalArg
  | notFound
  | exists_
  | unauthorized
  | validationFailed
  | timeout
  | callbackFailed
  | sys
  | internalErr
  | unsupported
  deriving DecidableEq

/-- The four datastores (spec section 3). -/
inductive Ds where
  | startup
  | running
  | candidate
  | operational
  deriving DecidableEq

/-- errno value EACCES on Linux. -/
def EACCES : Nat := 13

/-- errno value EPERM on Linux. -/
def EPERM : Nat := 1

/-- Embeds the error-classification step of `sr_chmodown`
(src/src/common.c:1935-1953), executed when `chown`/`chmod` fails.
The C condition is `(errno == EACCES) || (errno = EPERM)`: the second
disjunct is an assignment, so when `errno` is not `EACCES` the code sets
`errno` to `EPERM` and the disjunct evaluates to the assigned value
`EPERM`, which is nonzero.  Returns the chosen error code together with
the value of `errno` after the condition was evaluated. -/
def sr_chmodown_classify (errno : Nat) : sr_error_t × Nat :=
  if errno = EACCES then
    (sr_error_t.unauthorized, errno)
  else if EPERM ≠ 0 then
    (sr_error_t.unauthorized, EPERM)
  else
    (sr_error_t.internalErr, EPERM)

/-! ## Module-info state bits

The numeric values come from modinfo.h, which is not among the provided
sources; they are modelled from the spec (section 4.3): the kind order is
REQ > INV_DEP > DEP and the kinds live below `MOD_INFO_TYPE_MASK`, with
CHANGED and DATA as further independent bits (spec section 2 item 4). -/

/-- Module pulled in as a data dependency. -/
def MOD_INFO_DEP : Nat := 1

/-- Module whose data must be revalidated (inverse dependency). -/
def MOD_INFO_INV_DEP : Nat := 2

/-- Directly requested module. -/
def MOD_INFO_REQ : Nat := 4

/-- Mask selecting the kind bits of a state. -/
def MOD_INFO_TYPE_MASK : Nat := 7

/-- Module with a non-empty diff. -/
def MOD_INFO_CHANGED : Nat := 8

/-- Module whose data were loaded. -/
def MOD_INFO_DATA : Nat := 16

/-- One entry of the module-info working set (`struct sr_mod_info_mod_s`):
the libyang module (identified by its address, a `Nat`), the SHM
descriptor (identified by its address/offset in Main SHM, a `Nat`), and
the state bits. -/
structure ModInfoMod where
  lyMod : Nat
  shmMod : Nat
  state : Nat
  deriving DecidableEq

/-- Embeds `sr_perm_check` (src/src/common.c:1959-1988).  `access m wr`
is the oracle for `eaccess` on the module's startup file with `W_OK`
(`wr = true`) or `R_OK` (`wr = false`); `false` stands for a denial with
`errno == EACCES`.  `strict = true` corresponds to passing a null
`has_access` pointer: a denial then produces an UNAUTHORIZED error,
otherwise the access outcome is reported back. -/
def sr_perm_check (access : Nat → Bool → Bool) (modName : Nat) (wr : Bool) (strict : Bool) :
    Except sr_error_t Bool :=
  if access modName wr then
    Except.ok true
  else if strict then
    Except.error sr_error_t.unauthorized
  else
    Except.ok false

/-- Whether a module-info entry is subject to the permission gate:
its state includes REQ or CHANGED (src/unnamed/part_000:50). -/
def permRelevant (m : ModInfoMod) : Bool :=
  m.state &&& (MOD_INFO_REQ ||| MOD_INFO_CHANGED) ≠ 0

/-- The loop of `sr_modinfo_perm_check` (src/unnamed/part_000:45-71):
walks the entries; a REQ/CHANGED entry is permission-checked; in strict
mode a denial aborts with the error, in non-strict mode the denied entry
is removed (the C `memmove` compacts the array) and the walk continues.
Returns the list of performed checks (module, write-mode) together with
the surviving entries or the error. -/
def sr_modinfo_perm_check_go (access : Nat → Bool → Bool) (wr strict : Bool) :
    List ModInfoMod → List (Nat × Bool) × Except sr_error_t (List ModInfoMod)
  | [] => ([], Except.ok [])
  | m :: rest =>
    if permRelevant m then
      match sr_perm_check access m.lyMod wr strict with
      | Except.error e => ([(m.lyMod, wr)], Except.error e)
      | Except.ok hasAccess =>
        if hasAccess then
          let (cs, r) := sr_modinfo_perm_check_go access wr strict rest
          ((m.lyMod, wr) :: cs, r.map (m :: ·))
        else
          let (cs, r) := sr_modinfo_perm_check_go access wr strict rest
          ((m.lyMod, wr) :: cs, r)
    else
      let (cs, r) := sr_modinfo_perm_check_go access wr strict rest
      (cs, r.map (m :: ·))

/-- Embeds `sr_modinfo_perm_check` (src/unnamed/part_000:34-74).
`mData` is the modinfo's loaded data (`mod_info->data`); the function
asserts `!mod_info->data || strict` (line 43), so the behaviour is
undefined (`none`) when data are present in non-strict mode. -/
def sr_modinfo_perm_check (access : Nat → Bool → Bool) (wr strict : Bool)
    (mData : Option Nat) (mods : List ModInfoMod) :
    Option (List (Nat × Bool) × Except sr_error_t (List ModInfoMod)) :=
  if mData ≠ none ∧ strict = false then
    none
  else
    some (sr_modinfo_perm_check_go access wr strict mods)

/-! ## Dependency resolver (`sr_modinfo_add_mod`, `sr_modinfo_add_modules`) -/

/-- The SHM environment seen by the resolver: `shmOf` is
`sr_shmmain_find_module` (libyang module address to Main-SHM descriptor
address), `dataDeps m` lists the data dependencies of `m` as pairs
(is-INSTID?, target module) and `invDeps m` its inverse data
dependencies, both resolved to libyang module addresses the way the C
resolves dependency name offsets through `ly_ctx_get_module_implemented`. -/
structure DepEnv where
  shmOf : Nat → Nat
  dataDeps : Nat → List (Bool × Nat)
  invDeps : Nat → List Nat

/-- State of the first entry for module `ly`, if present
(the search loop src/unnamed/part_000:1370-1381). -/
def findState (mods : List ModInfoMod) (ly : Nat) : Option Nat :=
  (mods.find? (fun m => m.lyMod = ly)).map (·.state)

/-- State of the entry for `ly`, as read by `mod_info->mods[cur_i].state`. -/
def stateOf (mods : List ModInfoMod) (ly : Nat) : Nat :=
  (findState mods ly).getD 0

/-- Overwrite the state of the entry for `ly`
(`mod_info->mods[i].state = mod_type`, src/unnamed/part_000:1376). -/
def upsertState : List ModInfoMod → Nat → Nat → List ModInfoMod
  | [], _, _ => []
  | m :: rest, ly, st =>
    if m.lyMod = ly then { m with state := st } :: upsertState rest ly st
    else m :: upsertState rest ly st

/-- The dependency-following phases of `sr_modinfo_add_mod`
(src/unnamed/part_000:1401-1446), abstracted over the recursive call
`go ly' modType' acc`: the early return when DEP-following is not
requested or the entry state is below INV_DEP; the recursive walk of the
data dependencies with kind DEP, skipping INSTID entries, guarded by the
previous state being below INV_DEP; the early return when INV_DEP
following is not requested or the (re-read) entry state is below REQ;
the recursive walk of the inverse dependencies with kind INV_DEP,
guarded by the previous state being below REQ. -/
def addModInvPhase (go : Nat → Nat → List ModInfoMod → List ModInfoMod)
    (invs : List Nat) (reqDeps prevType ly : Nat)
    (mods1 : List ModInfoMod) : List ModInfoMod :=
  if reqDeps &&& MOD_INFO_INV_DEP = 0 ∨ stateOf mods1 ly < MOD_INFO_REQ then mods1
  else if prevType < MOD_INFO_REQ then
    invs.foldl (fun acc d => go d MOD_INFO_INV_DEP acc) mods1
  else mods1

def addModPhases (go : Nat → Nat → List ModInfoMod → List ModInfoMod)
    (deps : List (Bool × Nat)) (invs : List Nat) (reqDeps prevType ly : Nat)
    (mods0 : List ModInfoMod) : List ModInfoMod :=
  if reqDeps &&& MOD_INFO_DEP = 0 ∨ stateOf mods0 ly < MOD_INFO_INV_DEP then mods0
  else
    addModInvPhase go invs reqDeps prevType ly
      (if prevType < MOD_INFO_INV_DEP then
        deps.foldl (fun acc d => if d.1 then acc else go d.2 MOD_INFO_DEP acc) mods0
      else mods0)

/-- Embeds `sr_modinfo_add_mod` (src/unnamed/part_000:1356-1447).  The C
recursion terminates because every recursive call follows a strict state
upgrade; the embedding makes this explicit with a fuel parameter (all
theorems hold for every fuel value).  Control flow mirrors the C:
already present with `(state & MOD_INFO_TYPE_MASK) >= mod_type` returns
unchanged (line 1379); present weaker overwrites the state with
`mod_type`, remembering the previous state (lines 1373-1377); absent
appends a fresh entry with the descriptor found by
`sr_shmmain_find_module` (lines 1384-1399); then the dependency phases
of `addModPhases` run. -/
def sr_modinfo_add_mod (env : DepEnv) : Nat → Nat → Nat → Nat → List ModInfoMod → List ModInfoMod
  | 0, _, _, _, mods => mods
  | fuel + 1, ly, modType, reqDeps, mods =>
    match findState mods ly with
    | some st =>
      if st &&& MOD_INFO_TYPE_MASK < modType then
        addModPhases (fun l mt acc => sr_modinfo_add_mod env fuel l mt reqDeps acc)
          (env.dataDeps ly) (env.invDeps ly) reqDeps st ly (upsertState mods ly modType)
      else mods
    | none =>
      addModPhases (fun l mt acc => sr_modinfo_add_mod env fuel l mt reqDeps acc)
        (env.dataDeps ly) (env.invDeps ly) reqDeps 0 ly
        (mods ++ [{ lyMod := ly, shmMod := env.shmOf ly, state := modType }])

/-- The comparison key of `sr_modinfo_qsort_cmp`
(src/unnamed/part_000:1457-1472): the SHM descriptor address. -/
def shmLe (a b : ModInfoMod) : Prop :=
  a.shmMod ≤ b.shmMod

instance : DecidableRel shmLe := fun a b => Nat.decLe a.shmMod b.shmMod

instance : IsTotal ModInfoMod shmLe := ⟨fun a b => Nat.le_total a.shmMod b.shmMod⟩

instance : IsTrans ModInfoMod shmLe := ⟨fun _ _ _ => Nat.le_trans⟩

/-- The `qsort(mod_info->mods, ..., sr_modinfo_qsort_cmp)` call
(src/unnamed/part_000:1579).  `qsort`'s algorithm is unspecified, but the
comparator is a total order on descriptor addresses and the addresses of
the entries are pairwise distinct, so every comparison-correct sort
produces the same ascending arrangement; embedded as insertion sort. -/
def sr_modinfo_qsort (mods : List ModInfoMod) : List ModInfoMod :=
  List.insertionSort shmLe mods

/-- The `mi_opts` option bits of `sr_modinfo_add_modules` (the numeric
values live in modinfo.h, which is not among the provided sources; only
which bits are set matters, so they are modelled as a record). -/
structure MiOpts where
  permNo : Bool
  permWrite : Bool
  permStrict : Bool
  modDeps : Bool
  dataNo : Bool

/-- The data-load phase (`sr_modinfo_data_load`,
src/unnamed/part_000:1507-1519) marks every entry with `MOD_INFO_DATA`;
the loading itself (cache, files, operational composition) is embedded
separately and does not alter the membership or order of the array. -/
def markDataLoaded (mods : List ModInfoMod) : List ModInfoMod :=
  mods.map (fun m => { m with state := m.state ||| MOD_INFO_DATA })

/-- Embeds `sr_modinfo_add_modules` (src/unnamed/part_000:1524-1609) up to
and including the data-load marking: seed insertion (with the
all-implemented-modules fallback where `mod_deps` is cleared, lines
1543-1565), the no-new-modules early return (1566-1569), the permission
gate (1571-1576), the canonical qsort (1578-1579) and the data marking
(1595-1606).  Module locking (1581-1593) does not modify the array and is
elided.  `none` models the assert-protected undefined behaviour of the
permission gate. -/
def sr_modinfo_add_modules (env : DepEnv) (fuel : Nat) (modSet : List Nat) (allMods : List Nat)
    (modDeps : Nat) (opts : MiOpts) (access : Nat → Bool → Bool) (mData : Option Nat)
    (mods : List ModInfoMod) : Option (Except sr_error_t (List ModInfoMod)) :=
  let modType := if opts.modDeps then MOD_INFO_DEP else MOD_INFO_REQ
  let mods1 :=
    if modSet.isEmpty then
      allMods.foldl (fun acc ly => sr_modinfo_add_mod env fuel ly modType 0 acc) mods
    else
      modSet.foldl (fun acc ly => sr_modinfo_add_mod env fuel ly modType modDeps acc) mods
  if mods1.length = mods.length then
    some (Except.ok mods1)
  else
    match (if opts.permNo then some ([], Except.ok mods1)
           else sr_modinfo_perm_check access opts.permWrite opts.permStrict mData mods1) with
    | none => none
    | some (_, Except.error e) => some (Except.error e)
    | some (_, Except.ok mods2) =>
      let mods3 := sr_modinfo_qsort mods2
      some (Except.ok (if opts.dataNo then mods3 else markDataLoaded mods3))

/-- The dependency-following phases of the claim's wording: the guards
use the module's new kind `modType` directly, INSTID entries are removed
by a filter before the walk. -/
def addModInvPhaseSpec (go : Nat → Nat → List ModInfoMod → List ModInfoMod)
    (invs : List Nat) (reqDeps prevType modType : Nat)
    (mods1 : List ModInfoMod) : List ModInfoMod :=
  if reqDeps &&& MOD_INFO_INV_DEP ≠ 0 ∧ modType = MOD_INFO_REQ ∧ prevType < MOD_INFO_REQ then
    invs.foldl (fun acc d => go d MOD_INFO_INV_DEP acc) mods1
  else mods1

def addModPhasesSpec (go : Nat → Nat → List ModInfoMod → List ModInfoMod)
    (deps : List (Bool × Nat)) (invs : List Nat) (reqDeps prevType modType : Nat)
    (mods0 : List ModInfoMod) : List ModInfoMod :=
  addModInvPhaseSpec go invs reqDeps prevType modType
    (if reqDeps &&& MOD_INFO_DEP ≠ 0 ∧ MOD_INFO_INV_DEP ≤ modType ∧ prevType < MOD_INFO_INV_DEP then
      (deps.filter (fun d => !d.1)).foldl (fun acc d => go d.2 MOD_INFO_DEP acc) mods0
    else mods0)

/-- The closure rules of `sr_modinfo_add_mod` as worded by the spec
(section 4.3): equal-or-stronger kind is a no-op, weaker kind is upgraded
to the stronger one of {REQ > INV_DEP > DEP}, data dependencies are
followed (INSTID entries skipped) only when DEP-following is requested
and the new kind is at least INV_DEP, inverse dependencies only when
requested and the kind is REQ - with the kind of the processed entry
fixed at `mod_type` throughout (instead of being re-read from the array
as the C does). -/
def sr_modinfo_add_mod_spec (env : DepEnv) : Nat → Nat → Nat → Nat → List ModInfoMod → List ModInfoMod
  | 0, _, _, _, mods => mods
  | fuel + 1, ly, modType, reqDeps, mods =>
    match findState mods ly with
    | some st =>
      if st &&& MOD_INFO_TYPE_MASK < modType then
        addModPhasesSpec (fun l mt acc => sr_modinfo_add_mod_spec env fuel l mt reqDeps acc)
          (env.dataDeps ly) (env.invDeps ly) reqDeps st modType (upsertState mods ly modType)
      else mods
    | none =>
      addModPhasesSpec (fun l mt acc => sr_modinfo_add_mod_spec env fuel l mt reqDeps acc)
        (env.dataDeps ly) (env.invDeps ly) reqDeps 0 modType
        (mods ++ [{ lyMod := ly, shmMod := env.shmOf ly, state := modType }])

/-- Well-formedness of a module-info array: no libyang module appears
twice, every entry's descriptor is the one `sr_shmmain_find_module`
yields for its module, and every entry carries a nonzero state (every
entry has a kind). -/
def AddInv (env : DepEnv) (mods : List ModInfoMod) : Prop :=
  (mods.map (·.lyMod)).Nodup ∧
    ∀ m ∈ mods, m.shmMod = env.shmOf m.lyMod ∧ m.state ≠ 0

/-! ## Datastore writer (`sr_modinfo_data_store`) -/

/-- Success oracles for the fallible file and cache operations invoked by
`sr_modinfo_data_store`; the data trees themselves are owned by the
schema/data library and are irrelevant to the version accounting. -/
structure StoreEnv where
  setOk : Nat → Ds → Bool
  appendOk : Nat → Bool
  operDiffPresent : Nat → Bool
  mergeOk : Nat → Bool
  implOk : Nat → Bool
  diffUpdOk : Nat → Bool
  cacheOk : Nat → Bool

/-- Observable events of one `sr_modinfo_data_store` run. -/
inductive StoreEv where
  | fileWrite (m : Nat) (ds : Ds) (ok : Bool)
  | verBump (m : Nat)
  | cacheUpd (m : Nat) (ok : Bool)
  deriving DecidableEq

/-- One iteration of the `sr_modinfo_data_store` loop for a module in
state CHANGED (src/unnamed/part_000:2105-2172): the operational branch
merges the new diff into the stored one and rewrites the file; the
conventional branch writes the datastore file, and - only for running -
increments `shm_mod->ver` (line 2134), refreshes the running cache when
enabled (a failure there is merged into the error info and the loop goes
on, lines 2136-2144), and updates the stored operational diff (lines
2150-2171).  Any failed file operation is the C `goto cleanup`: the
third component `false` stops the loop. -/
def storeModStep (env : StoreEnv) (ds : Ds) (cacheRunning : Bool) (vers : Nat → Nat)
    (m : Nat) : List StoreEv × (Nat → Nat) × Bool :=
  if ds = Ds.operational then
    if !env.appendOk m then ([], vers, false)
    else if !env.mergeOk m then ([], vers, false)
    else if env.setOk m Ds.operational then
      ([StoreEv.fileWrite m Ds.operational true], vers, true)
    else
      ([StoreEv.fileWrite m Ds.operational false], vers, false)
  else
    if !env.setOk m ds then ([StoreEv.fileWrite m ds false], vers, false)
    else if ds = Ds.running then
      let vers1 := fun x => if x = m then vers x + 1 else vers x
      let ev1 := StoreEv.fileWrite m ds true :: StoreEv.verBump m ::
        (if cacheRunning then [StoreEv.cacheUpd m (env.cacheOk m)] else [])
      if !env.appendOk m then (ev1, vers1, false)
      else if env.operDiffPresent m then
        if !env.implOk m then (ev1, vers1, false)
        else if !env.diffUpdOk m then (ev1, vers1, false)
        else if env.setOk m Ds.operational then
          (ev1 ++ [StoreEv.fileWrite m Ds.operational true], vers1, true)
        else (ev1 ++ [StoreEv.fileWrite m Ds.operational false], vers1, false)
      else (ev1, vers1, true)
    else ([StoreEv.fileWrite m ds true], vers, true)

/-- Embeds `sr_modinfo_data_store` (src/unnamed/part_000:2085-2183): the
loop over the modinfo processes every entry whose state includes
MOD_INFO_CHANGED, in array order, halting at the first failed file
operation.  Returns the event trace, the final `ver` map, and whether
the loop ran to completion. -/
def sr_modinfo_data_store (env : StoreEnv) (ds : Ds) (cacheRunning : Bool) :
    List ModInfoMod → (Nat → Nat) → List StoreEv × (Nat → Nat) × Bool
  | [], vers => ([], vers, true)
  | m :: rest, vers =>
    if m.state &&& MOD_INFO_CHANGED ≠ 0 then
      match storeModStep env ds cacheRunning vers m.lyMod with
      | (evs, vers1, cont) =>
        if cont then
          match sr_modinfo_data_store env ds cacheRunning rest vers1 with
          | (evs2, vers2, ok) => (evs ++ evs2, vers2, ok)
        else (evs, vers1, false)
    else sr_modinfo_data_store env ds cacheRunning rest vers

/-- Number of `ver` increments for module `x` in a trace. -/
def countBump (x : Nat) (tr : List StoreEv) : Nat :=
  (tr.filter (fun e => e = StoreEv.verBump x)).length

/-- Number of successful running-datastore file writes for module `x`. -/
def countRunWrite (x : Nat) (tr : List StoreEv) : Nat :=
  (tr.filter (fun e => e = StoreEv.fileWrite x Ds.running true)).length

/-- Scan of a trace checking that every `ver` increment of a module is
preceded by a successful running-file write of that module; `ws`
accumulates the modules written so far. -/
def writeThenBump : List StoreEv → List Nat → Bool
  | [], _ => true
  | StoreEv.verBump m :: rest, ws => ws.contains m && writeThenBump rest ws
  | StoreEv.fileWrite m Ds.running true :: rest, ws => writeThenBump rest (m :: ws)
  | _ :: rest, ws => writeThenBump rest ws

/-! ## Running-data cache (`sr_modcache_module_running_update`) -/

/-- One cached module (`mod_cache->mods[i]`): libyang module and cached
version. -/
structure CacheMod where
  lyMod : Nat
  ver : Nat
  deriving DecidableEq

/-- The per-connection running-data cache (`struct sr_mod_cache_s`):
the entry array and the cached data forest, modelled as a list of
(owning module, payload) pairs; the payload is an opaque identifier of
the tree content. -/
structure ModCache where
  mods : List CacheMod
  data : List (Nat × Nat)
  deriving DecidableEq

/-- Lock and data events of one cache update. -/
inductive CacheEv where
  | rdUnlock
  | wrLock
  | wrUnlock
  | rdLock
  | drop (m : Nat)
  | install (m : Nat) (payload : Nat)
  deriving DecidableEq

/-- Find the cache entry of module `m` (the loop
src/unnamed/part_000:762-766). -/
def cacheFind (cache : ModCache) (m : Nat) : Option CacheMod :=
  cache.mods.find? (fun e => e.lyMod = m)

/-- Set the version of the first entry of module `m`
(`mod_cache->mods[i].ver = ...`). -/
def cacheSetVerFirst : List CacheMod → Nat → Nat → List CacheMod
  | [], _, _ => []
  | e :: rest, m, v =>
    if e.lyMod = m then { e with ver := v } :: rest
    else e :: cacheSetVerFirst rest m v

/-- Remove module `m`'s trees from the cached forest
(`lyd_free_all(sr_module_data_unlink(&mod_cache->data, ...))`). -/
def cacheDropData (cache : ModCache) (m : Nat) : ModCache :=
  { cache with data := cache.data.filter (fun p => p.1 ≠ m) }

/-- Module `m`'s trees in the cached forest. -/
def cacheDataOf (cache : ModCache) (m : Nat) : List (Nat × Nat) :=
  cache.data.filter (fun p => p.1 = m)

/-- The install block of `sr_modcache_module_running_update`
(src/unnamed/part_000:807-835), entered with the entry of `m` at
version 0: append either the caller-supplied updated data or the data
read from the running file (`fileOk` = success of
`sr_module_file_data_append`, whose failure jumps to `error_wrunlock`),
set the entry version to `shm_mod->ver`, release the WRITE lock and
re-acquire the READ lock when the caller held one. -/
def cacheInstall (fileData : Nat → Nat) (fileOk rdLockOk : Bool) (evs : List CacheEv)
    (snaps : List ModCache) (c1 : ModCache) (m shmVer : Nat) (updData : Option Nat)
    (readLocked : Bool) : List CacheEv × List ModCache × ModCache × Bool :=
  match updData with
  | some d =>
    let c2 : ModCache := { c1 with data := c1.data ++ [(m, d)] }
    let c3 : ModCache := { c2 with mods := cacheSetVerFirst c2.mods m shmVer }
    (evs ++ [CacheEv.install m d, CacheEv.wrUnlock] ++
        (if readLocked then [CacheEv.rdLock] else []),
      snaps ++ [c2, c3], c3, !readLocked || rdLockOk)
  | none =>
    if !fileOk then
      (evs ++ [CacheEv.wrUnlock] ++ (if readLocked then [CacheEv.rdLock] else []),
        snaps, c1, false)
    else
      let c2 : ModCache := { c1 with data := c1.data ++ [(m, fileData m)] }
      let c3 : ModCache := { c2 with mods := cacheSetVerFirst c2.mods m shmVer }
      (evs ++ [CacheEv.install m (fileData m), CacheEv.wrUnlock] ++
          (if readLocked then [CacheEv.rdLock] else []),
        snaps ++ [c2, c3], c3, !readLocked || rdLockOk)

/-- Embeds `sr_modcache_module_running_update`
(src/unnamed/part_000:752-838).  `shmVer` is `mod->shm_mod->ver`;
`updData` is `upd_mod_data`; `readLocked` is the `read_locked` argument;
`wrLockOk`/`rdLockOk` model the fallible lock acquisitions.  Returns the
event trace, the list of cache states passed through (starting with the
input), the final cache, and success.  Control flow: a found entry with
a strictly older version is dropped under the WRITE lock and its version
reset to 0 (lines 768-785); a missing entry is appended with version 0
(lines 786-805); afterwards any entry at version 0 gets fresh data
installed and its version set to `shm_mod->ver` (lines 807-835). -/
def sr_modcache_module_running_update (fileData : Nat → Nat)
    (fileOk wrLockOk rdLockOk : Bool) (cache : ModCache) (m shmVer : Nat)
    (updData : Option Nat) (readLocked : Bool) :
    List CacheEv × List ModCache × ModCache × Bool :=
  match cacheFind cache m with
  | some e =>
    if shmVer > e.ver then
      if !wrLockOk then
        ((if readLocked then [CacheEv.rdUnlock] else []) ++ [CacheEv.wrLock] ++
            (if readLocked then [CacheEv.rdLock] else []),
          [cache], cache, false)
      else
        cacheInstall fileData fileOk rdLockOk
          ((if readLocked then [CacheEv.rdUnlock] else []) ++
            [CacheEv.wrLock, CacheEv.drop m])
          [cache, { mods := cacheSetVerFirst (cacheDropData cache m).mods m 0,
                    data := (cacheDropData cache m).data }]
          { mods := cacheSetVerFirst (cacheDropData cache m).mods m 0,
            data := (cacheDropData cache m).data }
          m shmVer updData readLocked
    else if e.ver = 0 then
      cacheInstall fileData fileOk rdLockOk [] [cache] cache m shmVer updData readLocked
    else
      ([], [cache], cache, true)
  | none =>
    if !wrLockOk then
      ((if readLocked then [CacheEv.rdUnlock] else []) ++ [CacheEv.wrLock] ++
          (if readLocked then [CacheEv.rdLock] else []),
        [cache], cache, false)
    else
      cacheInstall fileData fileOk rdLockOk
        ((if readLocked then [CacheEv.rdUnlock] else []) ++ [CacheEv.wrLock])
        [cache, { mods := cache.mods ++ [{ lyMod := m, ver := 0 }], data := cache.data }]
        { mods := cache.mods ++ [{ lyMod := m, ver := 0 }], data := cache.data }
        m shmVer updData readLocked

/-- All-success store environment for witnesses, with no stored
operational diff. -/
def envS : StoreEnv where
  setOk := fun _ _ => true
  appendOk := fun _ => true
  operDiffPresent := fun _ => false
  mergeOk := fun _ => true
  implOk := fun _ => true
  diffUpdOk := fun _ => true
  cacheOk := fun _ => true

/-- A small concrete dependency environment for witnesses: module 1 has
a REF data dependency on module 2, an INSTID data dependency on module 3
and an inverse data dependency from module 4. -/
def envW : DepEnv where
  shmOf := fun ly => 10 * ly
  dataDeps := fun ly => if ly = 1 then [(false, 2), (true, 3)] else []
  invDeps := fun ly => if ly = 1 then [4] else []

/-! ## Character-level XPath helpers (src/src/common.c)

C strings are modelled as `List Char`; a pointer into a string is the
suffix starting at it, `NUL` reads past the end are modelled by
`List.getD` with the `NUL` character.  Special characters are named to
keep the embedding readable. -/

/-- NUL. -/
def chNul : Char := Char.ofNat 0

/-- Slash. -/
def chSlash : Char := Char.ofNat 47

/-- Colon. -/
def chColon : Char := Char.ofNat 58

/-- Left bracket. -/
def chLBr : Char := Char.ofNat 91

/-- Right bracket. -/
def chRBr : Char := Char.ofNat 93

/-- Equals sign. -/
def chEq : Char := Char.ofNat 61

/-- Single quote. -/
def chSQuot : Char := Char.ofNat 39

/-- Double quote. -/
def chDQuot : Char := Char.ofNat 34

/-- Asterisk. -/
def chStar : Char := Char.ofNat 42

/-- Dot. -/
def chDot : Char := Char.ofNat 46

/-- Read character `i` of a string segment, `NUL` past the end (C reads
the terminator or the continuation, which the segment list includes). -/
def prChar (p : List Char) (i : Nat) : Char := p.getD i chNul

/-- The name-scanning loop of `sr_xpath_next_name`
(src/src/common.c:3681-3693): accumulate name characters until `/` or
the end; a `:` turns the accumulated segment into the module qualifier
and restarts the name; after consuming a character a following `[`
stops the scan with `has_predicate` set.  Returns
(module, name, rest, has_predicate). -/
def nnScan (mod : Option (List Char)) (acc : List Char) :
    List Char → Option (List Char) × List Char × List Char × Bool
  | [] => (mod, acc.reverse, [], false)
  | c :: rest =>
    if c = chSlash then (mod, acc.reverse, c :: rest, false)
    else if c = chColon then
      match rest with
      | [] => (some acc.reverse, [], [], false)
      | d :: rest2 =>
        if d = chLBr then (some acc.reverse, [], d :: rest2, true)
        else nnScan (some acc.reverse) [] (d :: rest2)
    else
      match rest with
      | [] => (mod, (c :: acc).reverse, [], false)
      | d :: rest2 =>
        if d = chLBr then (mod, (c :: acc).reverse, d :: rest2, true)
        else nnScan mod (c :: acc) (d :: rest2)

/-- Embeds `sr_xpath_next_name` (src/src/common.c:3660-3698).  The
leading character is skipped unconditionally; a second `/` sets
`double_slash`.  Returns (module, name, rest, double_slash,
has_predicate); `rest` is the suffix at the returned pointer. -/
def sr_xpath_next_name (xs : List Char) :
    Option (List Char) × List Char × List Char × Bool × Bool :=
  match xs.drop 1 with
  | c :: rest =>
    if c = chSlash then
      match nnScan none [] rest with
      | (m, n, r, hp) => (m, n, r, true, hp)
    else
      match nnScan none [] (c :: rest) with
      | (m, n, r, hp) => (m, n, r, false, hp)
  | [] => (none, [], [], false, false)

/-- The bracket-scanning loop of `sr_xpath_next_predicate`
(src/src/common.c:3705-3712): count characters until an unquoted `]` or
the end of the string, toggling the quote state on `'` and `"`.
Returns the predicate length and the suffix at the stopping point, or
`none` for an unterminated quote (the C code reports an invalid
xpath). -/
def npScanLen (quote : Option Char) (n : Nat) :
    List Char → Option (Nat × List Char)
  | [] => match quote with
    | some _ => none
    | none => some (n, [])
  | c :: rest =>
    match quote with
    | some q =>
      if c = q then npScanLen none (n + 1) rest
      else npScanLen (some q) (n + 1) rest
    | none =>
      if c = chRBr then some (n, c :: rest)
      else if c = chSQuot ∨ c = chDQuot then npScanLen (some c) (n + 1) rest
      else npScanLen none (n + 1) rest

/-- Embeds `sr_xpath_next_predicate` (src/src/common.c:3700-3732).
Returns (segment at the predicate content, content length,
has_predicate, rest after the bracket).  The returned segment keeps its
continuation so that later out-of-segment reads are faithful.  The
`has_predicate` output reproduces the source comparison, which adds one
to the stopping character itself (always a right bracket or `NUL`) and
compares that with a left bracket, instead of testing the character
after the bracket, so it is `false` on every reachable input. -/
def sr_xpath_next_predicate (xs : List Char) :
    Option (List Char × Nat × Bool × List Char) :=
  match npScanLen none 0 (xs.drop 1) with
  | none => none
  | some (len, r) =>
    match r with
    | [] => some (xs.drop 1, len, false, [])
    | c :: t => some (xs.drop 1, len, decide (c.toNat + 1 = chLBr.toNat), t)

/-- The name-comparison loop of `sr_xpath_oper_data_predicate_required`
(src/unnamed/part_000:262-280): walk both predicates while characters
agree; stop successfully when both reach `=`; any disagreement or
exhaustion means the pair is conservatively required.  Arguments are
(index, remaining length) into each segment; `none` means required,
`some` gives the positions just after the two `=` signs. -/
def prNames (p1 p2 : List Char) : Nat → Nat → Nat → Nat → Option (Nat × Nat × Nat × Nat)
  | _, 0, _, _ => none
  | _, _ + 1, _, 0 => none
  | i1, l1 + 1, i2, l2 + 1 =>
    if prChar p1 i1 ≠ prChar p2 i2 then none
    else if prChar p1 (i1 + 1) = chEq ∧ prChar p2 (i2 + 1) = chEq then
      if l1 = 0 ∨ l2 = 0 then none
      else some (i1 + 2, l1 - 1, i2 + 2, l2 - 1)
    else prNames p1 p2 (i1 + 1) l1 (i2 + 1) l2

/-- The value scan of `sr_xpath_oper_data_predicate_required`
(src/unnamed/part_000:302-321): advance until the opening quote
character recurs or the length runs out; returns the end index and the
remaining length. -/
def scanVal (p : List Char) (q : Char) : Nat → Nat → Nat × Nat
  | i, 0 => (i, 0)
  | i, l + 1 => if prChar p i = q then (i, l + 1) else scanVal p q (i + 1) l

/-- `strncmp(a + i1, b + i2, n) == 0` over segment lists, stopping at a
common NUL like the C library function. -/
def strncmpEq (p1 : List Char) (i1 : Nat) (p2 : List Char) (i2 : Nat) : Nat → Bool
  | 0 => true
  | n + 1 =>
    if prChar p1 i1 = prChar p2 i2 then
      if prChar p1 i1 = chNul then true
      else strncmpEq p1 (i1 + 1) p2 (i2 + 1) n
    else false

/-- Embeds `sr_xpath_oper_data_predicate_required`
(src/unnamed/part_000:255-336): `true` means the predicate pair keeps
the subscription required; `false` (both are key-equality predicates on
the same key with different literal values) allows pruning. -/
def sr_xpath_oper_data_predicate_required (p1 : List Char) (len1 : Nat)
    (p2 : List Char) (len2 : Nat) : Bool :=
  match prNames p1 p2 0 len1 0 len2 with
  | none => true
  | some (i1, l1, i2, l2) =>
    if (prChar p1 i1 ≠ chSQuot ∧ prChar p1 i1 ≠ chDQuot) ∨
        (prChar p2 i2 ≠ chSQuot ∧ prChar p2 i2 ≠ chDQuot) then true
    else
      match scanVal p1 (prChar p1 i1) (i1 + 1) (l1 - 1),
          scanVal p2 (prChar p2 i2) (i2 + 1) (l2 - 1) with
      | (e1, r1), (e2, r2) =>
        if r1 ≠ 1 ∨ r2 ≠ 1 then true
        else strncmpEq p1 (i1 + 1) p2 (i2 + 1) (max (e1 - (i1 + 1)) (e2 - (i2 + 1)))

/-- Result of the predicate-comparison phase of one step of
`sr_xpath_oper_data_required`. -/
inductive PredRes where
  | notRequired
  | invalid
  | ok (r1 r2 : List Char)

/-- The leftover-predicate skip loops of `sr_xpath_oper_data_required`
(src/unnamed/part_000:417-422); `none` models the crash on an invalid
xpath. -/
def skipPreds : Nat → List Char → Bool → Option (List Char)
  | 0, _, _ => none
  | _ + 1, xs, false => some xs
  | fuel + 1, xs, true =>
    match sr_xpath_next_predicate xs with
    | none => none
    | some (_, _, hp, r) => skipPreds fuel r hp

/-- The predicate loop of `sr_xpath_oper_data_required`
(src/unnamed/part_000:405-422): compare predicate pairs while both
steps report another predicate, then skip any leftovers. -/
def predLoop : Nat → List Char → Bool → List Char → Bool → PredRes
  | 0, _, _, _, _ => PredRes.invalid
  | fuel + 1, r1, hp1, r2, hp2 =>
    if hp1 ∧ hp2 then
      match sr_xpath_next_predicate r1, sr_xpath_next_predicate r2 with
      | some (p1, l1, hp1n, s1), some (p2, l2, hp2n, s2) =>
        if !sr_xpath_oper_data_predicate_required p1 l1 p2 l2 then PredRes.notRequired
        else predLoop fuel s1 hp1n s2 hp2n
      | _, _ => PredRes.invalid
    else
      match skipPreds (fuel + 1) r1 hp1, skipPreds (fuel + 1) r2 hp2 with
      | some s1, some s2 => PredRes.ok s1 s2
      | _, _ => PredRes.invalid

/-- One iteration plus recursion of the do-while loop of
`sr_xpath_oper_data_required` (src/unnamed/part_000:360-423).  Fuel
exhaustion and invalid xpaths conservatively return `true`
(required). -/
def operDataRequiredLoop : Nat → List Char → List Char → Bool
  | 0, _, _ => true
  | fuel + 1, x1, x2 =>
    match sr_xpath_next_name x1, sr_xpath_next_name x2 with
    | (m1, n1, r1, ds1, hp1), (m2, n2, r2, ds2, hp2) =>
      if ds1 ≠ ds2 then true
      else if ds1 ∧ ds2 ∧ (n1 = [chDot] ∨ n2 = [chDot]) then true
      else if (match m1, m2 with
        | some a, some b => decide (a ≠ [] ∧ b ≠ [] ∧ a ≠ b)
        | _, _ => false) then false
      else if ¬(n1 = [chStar]) ∧ ¬(n2 = [chStar]) ∧ n1 ≠ n2 then false
      else
        match predLoop (fuel + 1) r1 hp1 r2 hp2 with
        | PredRes.notRequired => false
        | PredRes.invalid => true
        | PredRes.ok s1 s2 =>
          if s1 ≠ [] ∧ s2 ≠ [] then operDataRequiredLoop fuel s1 s2 else true

/-- Embeds `sr_xpath_oper_data_required` (src/unnamed/part_000:345-426):
an absent request XPath is always required; otherwise the step loop
decides.  The fuel bound covers every iteration because each one
consumes at least one character of each xpath. -/
def sr_xpath_oper_data_required (request : Option (List Char)) (sub : List Char) : Bool :=
  match request with
  | none => true
  | some req => operDataRequiredLoop (req.length + sub.length + 2) req sub

/-! ## Specification-side XPath model (spec section 4.9)

The spec describes the prune over structured steps; these definitions
follow the claim wording and are compared with the character-level
source embedding by a refinement theorem. -/

/-- One structured XPath step of the specification model: optional `//`
marker, optional module qualifier, node name (`*` is the wildcard) and
key-equality predicates. -/
structure XStep where
  dslash : Bool
  mod : Option (List Char)
  name : List Char
  preds : List (List Char × List Char)
  deriving DecidableEq

/-- Render one key-equality predicate as `[key="value"]`. -/
def renderPred (p : List Char × List Char) : List Char :=
  chLBr :: p.1 ++ chEq :: chDQuot :: p.2 ++ [chDQuot, chRBr]

/-- Render one step as `/mod:name[k="v"]...` (with `//` when flagged). -/
def renderStep (s : XStep) : List Char :=
  (if s.dslash then [chSlash, chSlash] else [chSlash]) ++
    (match s.mod with
     | none => []
     | some m => m ++ [chColon]) ++
    s.name ++ (s.preds.map renderPred).flatten

/-- Render a whole XPath. -/
def render (steps : List XStep) : List Char := (steps.map renderStep).flatten

/-- One data node on an instance path: its module, name and key
values. -/
structure PStep where
  pmod : List Char
  name : List Char
  keys : List (List Char × List Char)
  deriving DecidableEq

/-- Whether one pattern step accepts one data node. -/
def nodeMatch (a : XStep) (n : PStep) : Bool :=
  (match a.mod with
   | none => true
   | some md => decide (md = n.pmod)) &&
  (decide (a.name = [chStar]) || decide (a.name = n.name)) &&
  a.preds.all (fun p => decide (n.keys.lookup p.1 = some p.2))

/-- Whether a pattern selects an instance path; a `//` step may first
descend past any number of nodes. -/
def dmatches : List XStep → List PStep → Bool
  | [], [] => true
  | [], _ :: _ => false
  | _ :: _, [] => false
  | a :: pat, n :: path =>
    (nodeMatch a n && dmatches pat path) || (a.dslash && dmatches (a :: pat) path)

/-- Module disagreement of two steps in the claim wording: both carry a
non-empty qualifier and the qualifiers differ. -/
def modConflict (a b : XStep) : Bool :=
  match a.mod, b.mod with
  | some x, some y => decide (x ≠ [] ∧ y ≠ [] ∧ x ≠ y)
  | _, _ => false

/-- First-predicate disagreement in the claim wording: both steps open
with a key-equality on the same key with different literal values. -/
def predConflict (a b : XStep) : Bool :=
  match a.preds, b.preds with
  | p :: _, q :: _ => decide (p.1 = q.1 ∧ p.2 ≠ q.2)
  | _, _ => false

/-- The claim-worded prune over structured steps: walk equal-depth step
pairs and declare disjointness exactly on a module, name (non-wildcard)
or first-predicate disagreement; an exhausted side is conservatively
required. -/
def specRequired : List XStep → List XStep → Bool
  | [], _ => true
  | _ :: _, [] => true
  | a :: pat1, b :: pat2 =>
    if modConflict a b then false
    else if ¬(a.name = [chStar]) ∧ ¬(b.name = [chStar]) ∧ a.name ≠ b.name then false
    else if predConflict a b then false
    else specRequired pat1 pat2

/-- Characters allowed in rendered names, keys and values: anything
that cannot interfere with the xpath syntax. -/
def goodChar (c : Char) : Bool :=
  decide (c ∉ [chNul, chSlash, chColon, chLBr, chRBr, chEq, chSQuot, chDQuot, chStar, chDot])

/-- A non-empty segment of good characters. -/
def goodSeg (l : List Char) : Bool := !l.isEmpty && l.all goodChar

/-- Well-formed step for the refinement theorem: no `//`, a good or
wildcard name, a good optional module and at most one predicate with a
good key and a good (possibly empty) value. -/
def wfStep (s : XStep) : Bool :=
  !s.dslash &&
  (match s.mod with
   | none => true
   | some m => goodSeg m) &&
  (goodSeg s.name || decide (s.name = [chStar])) &&
  (match s.preds with
   | [] => true
   | [p] => goodSeg p.1 && p.2.all goodChar
   | _ :: _ :: _ => false)

/-- Well-formed XPath: non-empty and stepwise well-formed. -/
def wfXPath (steps : List XStep) : Bool := !steps.isEmpty && steps.all wfStep

/-- `//`-free pattern. -/
def dsFree (steps : List XStep) : Bool := steps.all (fun s => !s.dslash)

/-- Two instance paths overlap if one extends the other: the shorter
names a node on the longer one. -/
def overlap (p q : List PStep) : Prop := (∃ r, q = p ++ r) ∨ (∃ r, p = q ++ r)

/-- Plain one-name step, for concrete instances. -/
def mkStep (nm : String) : XStep :=
  { dslash := false, mod := none, name := nm.toList, preds := [] }

/-- One-name step behind a doubled slash. -/
def mkDStep (nm : String) : XStep :=
  { dslash := true, mod := none, name := nm.toList, preds := [] }

/-- One-name step with key-equality predicates. -/
def mkPStep (nm : String) (preds : List (String × String)) : XStep :=
  { dslash := false, mod := none, name := nm.toList,
    preds := preds.map (fun p => (p.1.toList, p.2.toList)) }

/-- Data node of module `m` with the given name and keys. -/
def mkNode (nm : String) (keys : List (String × String)) : PStep :=
  { pmod := String.toList "m", name := nm.toList,
    keys := keys.map (fun p => (p.1.toList, p.2.toList)) }

/-! ## Operational data composition (`sr_module_oper_data_update`) -/

/-- The backward scan of `sr_xpath_trim_last_node`
(src/src/common.c:3610-3620) over the reversed xpath: skip a bracketed
subexpression back to its `[`, stop at the first unbracketed `/`;
returns the number of characters after that slash, or `none` when the
scan runs past the start (undefined in C, unreachable for valid
xpaths). -/
def trimScan : List Char → Option Char → Nat → Option Nat
  | [], _, _ => none
  | c :: rest, some se, n =>
    if c = se then trimScan rest none (n + 1)
    else trimScan rest (some se) (n + 1)
  | c :: rest, none, n =>
    if c = chRBr then trimScan rest (some chLBr) (n + 1)
    else if c = chSlash then some n
    else trimScan rest none (n + 1)

/-- Embeds `sr_xpath_trim_last_node` (src/src/common.c:3599-3634):
`some none` means the whole xpath was one top-level step (no parent),
`some (some p)` gives the parent xpath, `none` the undefined scan. -/
def sr_xpath_trim_last_node (xs : List Char) : Option (Option (List Char)) :=
  match trimScan xs.reverse none 0 with
  | none => none
  | some n =>
    if xs.length - 1 - n = 0 then some none
    else some (some (xs.take (xs.length - 1 - n)))

/-- `sr_mod_oper_sub_type_t` (shm.h). -/
inductive OperSubType where
  | none_
  | state
  | config
  | mixed
  deriving DecidableEq

/-- One operational subscription of a module (`sr_mod_oper_sub_t`):
its XPath, data type and the `SR_SUBSCR_OPER_MERGE` option. -/
structure OperSub where
  xpath : List Char
  subType : OperSubType
  merge : Bool
  deriving DecidableEq

/-- The `SR_OPER_NO_*` get options used by the composer. -/
structure OperOpts where
  noStored : Bool
  noSubs : Bool
  noConfig : Bool
  noState : Bool
  deriving DecidableEq

/-- Oracles for the libyang and subscriber calls of the composer.  Data
trees are opaque ids (`Option Nat`, `none` = empty).  `notifyRaw i p`
is the provider outcome for subscription `i` with parent instance `p`
(`none` = provider timeout or callback failure). -/
structure OperEnv where
  storedDiffOk : Bool
  applyOk : Bool
  applyData : Option Nat → Option Nat
  complementOk : Nat → Bool
  complementAt : Option Nat → List Char → Option Nat
  findOk : Nat → List Char → Bool
  findCount : Nat → List Char → Nat
  parentPathOf : Nat → Nat → List Char
  notifyRaw : Nat → Option Nat → Option (Option Nat)
  mergeOk : Nat → Nat → Bool
  mergeData : Option Nat → Nat → Nat

/-- Modelled from the spec: `sr_shmsub_oper_notify` (shm_sub.c, not in
this source listing) delivers the request to the provider and maps a
provider timeout or callback failure to `SR_ERR_CALLBACK_FAILED`. -/
def sr_shmsub_oper_notify (env : OperEnv) (i : Nat) (parent : Option Nat) :
    Except sr_error_t (Option Nat) :=
  match env.notifyRaw i parent with
  | none => Except.error sr_error_t.callbackFailed
  | some d => Except.ok d

/-- Events of one composer run. -/
inductive OperEv where
  | applyStored
  | removed (i : Nat)
  | parentSkip (i : Nat)
  | parentPruned (i j : Nat)
  | invoked (i j : Nat)
  | merged (i j : Nat)
  deriving DecidableEq

/-- Embeds `sr_xpath_oper_data_append` for one parent instance
(src/unnamed/part_000:524-545 via sr_xpath_oper_data_get 443-493):
prune the parent against the request XPath, otherwise call the
provider and merge its output into the data. -/
def operAppendOne (env : OperEnv) (request : Option (List Char)) (i j : Nat)
    (checkParent : Bool) (data : Option Nat) :
    List OperEv × Option Nat × Option sr_error_t :=
  if checkParent ∧ request.isSome ∧
      sr_xpath_oper_data_required request (env.parentPathOf i j) = false then
    ([OperEv.parentPruned i j], data, none)
  else
    match sr_shmsub_oper_notify env i (if checkParent then some j else none) with
    | Except.error e => ([OperEv.invoked i j], data, some e)
    | Except.ok payload =>
      if env.mergeOk i j then
        (match payload with
         | none => ([OperEv.invoked i j, OperEv.merged i j], data, none)
         | some v =>
           ([OperEv.invoked i j, OperEv.merged i j], some (env.mergeData data v), none))
      else ([OperEv.invoked i j], data, some sr_error_t.internalErr)

/-- The nested-parent loop (src/unnamed/part_000:621-627): invoke the
provider once per matching parent instance. -/
def operParents (env : OperEnv) (request : Option (List Char)) (i : Nat) :
    Nat → Nat → Option Nat → List OperEv × Option Nat × Option sr_error_t
  | _, 0, data => ([], data, none)
  | j, rem + 1, data =>
    match operAppendOne env request i j true data with
    | (tr1, data1, some e) => (tr1, data1, some e)
    | (tr1, data1, none) =>
      match operParents env request i (j + 1) rem data1 with
      | (tr2, data2, err) => (tr1 ++ tr2, data2, err)

/-- The remainder of one subscription-loop iteration after the data
removal (src/unnamed/part_000:600-641): compute the data parent by
trimming the subscription XPath, skip when the parent has no instance
in the current data, invoke the provider per instance otherwise;
`tr0`/`data1` are the events and data produced by the removal. -/
def operSubTail (env : OperEnv) (request : Option (List Char)) (i : Nat)
    (xpath : List Char) (tr0 : List OperEv) (data1 : Option Nat) :
    List OperEv × Option Nat × Option sr_error_t :=
  match sr_xpath_trim_last_node xpath with
  | none => (tr0, data1, some sr_error_t.internalErr)
  | some none =>
    match operAppendOne env request i 0 false data1 with
    | (tr1, data2, err) => (tr0 ++ tr1, data2, err)
  | some (some parentXp) =>
    match data1 with
    | none => (tr0 ++ [OperEv.parentSkip i], none, none)
    | some d =>
      if ¬ env.findOk d parentXp then (tr0, data1, some sr_error_t.internalErr)
      else if env.findCount d parentXp = 0 then
        (tr0 ++ [OperEv.parentSkip i], data1, none)
      else
        match operParents env request i 0 (env.findCount d parentXp) data1 with
        | (tr1, data2, err) => (tr0 ++ tr1, data2, err)

/-- One iteration of the subscription loop of
`sr_module_oper_data_update` (src/unnamed/part_000:579-643) for
subscription `i`: type skips, the static prune, the data removal for
non-MERGE subscriptions, then the parent computation and provider
invocations. -/
def operSubStep (env : OperEnv) (request : Option (List Char)) (opts : OperOpts)
    (i : Nat) (sub : OperSub) (data : Option Nat) :
    List OperEv × Option Nat × Option sr_error_t :=
  if sub.subType = OperSubType.config ∧ opts.noConfig then ([], data, none)
  else if sub.subType = OperSubType.state ∧ opts.noState then ([], data, none)
  else if sr_xpath_oper_data_required request sub.xpath = false then ([], data, none)
  else if sub.merge then operSubTail env request i sub.xpath [] data
  else if env.complementOk i then
    operSubTail env request i sub.xpath [OperEv.removed i]
      (env.complementAt data sub.xpath)
  else ([], data, some sr_error_t.internalErr)

/-- The subscription loop: stop at the first error. -/
def operSubsLoop (env : OperEnv) (request : Option (List Char)) (opts : OperOpts) :
    Nat → List OperSub → Option Nat → List OperEv × Option Nat × Option sr_error_t
  | _, [], data => ([], data, none)
  | i, sub :: rest, data =>
    match operSubStep env request opts i sub data with
    | (tr1, data1, some e) => (tr1, data1, some e)
    | (tr1, data1, none) =>
      match operSubsLoop env request opts (i + 1) rest data1 with
      | (tr2, data2, err) => (tr1 ++ tr2, data2, err)

/-- Embeds `sr_module_oper_data_update` (src/unnamed/part_000:545-648):
apply the stored operational diff unless suppressed, stop before the
subscriptions when `SR_OPER_NO_SUBS` is set, then run the subscription
loop. -/
def sr_module_oper_data_update (env : OperEnv) (request : Option (List Char))
    (subs : List OperSub) (opts : OperOpts) (data : Option Nat) :
    List OperEv × Option Nat × Option sr_error_t :=
  match (if opts.noStored then some ([], data)
    else if ¬ env.storedDiffOk then none
    else if ¬ env.applyOk then none
    else some ([OperEv.applyStored], env.applyData data)) with
  | none => ([], data, some sr_error_t.internalErr)
  | some (tr0, data1) =>
    if opts.noSubs then (tr0, data1, none)
    else
      match operSubsLoop env request opts 0 subs data1 with
      | (tr1, data2, err) => (tr0 ++ tr1, data2, err)

/-- All-success composer oracles whose provider for subscription 0
times out; used by concrete instances. -/
def envC6 : OperEnv where
  storedDiffOk := true
  applyOk := true
  applyData := fun d => d
  complementOk := fun _ => true
  complementAt := fun _ _ => some 5
  findOk := fun _ _ => true
  findCount := fun _ _ => 0
  parentPathOf := fun _ _ => String.toList "/p"
  notifyRaw := fun i _ => if i = 0 then none else some (some 7)
  mergeOk := fun _ _ => true
  mergeData := fun _ v => v

/-- A state-data subscription on `/a` without `OPER_MERGE`. -/
def operSub0 : OperSub where
  xpath := String.toList "/a"
  subType := OperSubType.state
  merge := false

/-- Get options that skip the stored diff only. -/
def operOpts0 : OperOpts where
  noStored := true
  noSubs := false
  noConfig := false
  noState := false

/-! ## Config-change notification generator
(`sr_modinfo_generate_config_change_notif`, src/unnamed/part_000) -/

/-- `enum edit_op` from edit_diff.h: `EDIT_CONTINUE` is the zero
value, `EDIT_FINISH` is -1. -/
inductive edit_op where
  | finish
  | continue_
  | move
  | autoRemove
  | ether
  | purge
  | none_
  | merge
  | replace
  | create
  | delete
  | remove
  deriving DecidableEq

/-- A diff node: the operation attribute stored on it and its child
list. A sibling list of these models one `lyd_node` diff forest. -/
inductive DiffTree where
  | mk (oper : edit_op) (children : List DiffTree)

/-- Modelled from the spec: `sr_edit_diff_find_oper` with
`recursive = 0` returns the operation attribute stored on the diff
node itself. -/
def sr_edit_diff_find_oper : DiffTree → edit_op
  | DiffTree.mk op _ => op

mutual

/-- The `changes` scan of the generator over one diff tree: true iff
some node in the tree has an operation that is truthy (not
`EDIT_CONTINUE`, the zero value) and not `EDIT_NONE`. -/
def treeChanges : DiffTree → Bool
  | DiffTree.mk op ch =>
    (decide (op ≠ edit_op.continue_) && decide (op ≠ edit_op.none_)) || forestChanges ch

/-- The `changes` scan over a sibling list of diff trees. -/
def forestChanges : List DiffTree → Bool
  | [] => false
  | t :: ts => treeChanges t || forestChanges ts

end

mutual

/-- DFS-order operation list of one diff tree: the order in which
`LYD_TREE_DFS` visits the nodes and `ly_set_add` collects them. -/
def treeOps : DiffTree → List edit_op
  | DiffTree.mk op ch => op :: forestOps ch

/-- DFS-order operation list of a diff forest. -/
def forestOps : List DiffTree → List edit_op
  | [] => []
  | t :: ts => treeOps t ++ forestOps ts

end

/-- Modelled from the spec: the public change operations the diff
iterator reports (`sr_change_oper_t`). -/
inductive sr_change_oper_t where
  | created
  | modified
  | deleted
  | moved
  deriving DecidableEq

/-- Modelled from the spec: the change operation `sr_diff_set_getnext`
reports for a diff node, `none` for a node carrying no real change,
which the iterator skips. -/
def changeOperOf : edit_op → Option sr_change_oper_t
  | edit_op.create => some sr_change_oper_t.created
  | edit_op.replace => some sr_change_oper_t.modified
  | edit_op.delete => some sr_change_oper_t.deleted
  | edit_op.remove => some sr_change_oper_t.deleted
  | edit_op.move => some sr_change_oper_t.moved
  | _ => none

/-- The `operation` leaf values the generator writes into an `edit`
entry: the strings "create", "replace", "delete", "merge". -/
inductive NcOp where
  | create
  | replace
  | delete
  | merge
  deriving DecidableEq

/-- The `switch (op)` of the generator mapping an internal change
operation to the notification operation value. -/
def opEnumOf : sr_change_oper_t → NcOp
  | sr_change_oper_t.created => NcOp.create
  | sr_change_oper_t.modified => NcOp.replace
  | sr_change_oper_t.deleted => NcOp.delete
  | sr_change_oper_t.moved => NcOp.merge

/-- Observable actions of the notification generator. -/
inductive NotifEv where
  | built
  | editAdded (op : NcOp)
  | replayStored
  | delivered
  deriving DecidableEq

/-- Oracles for the generator's external calls. `findSubs` is the
subscriber count returned by `sr_notif_find_subscriber` (`none` on
error); `modFound` is whether `sr_shmmain_find_module` finds the
ietf-netconf-notifications module; `replaySupport` is its
`SR_MOD_REPLAY_SUPPORT` flag; `newOk` covers the libyang node
creations, `pathOk` the `lyd_path` calls, `replayOk` the
`sr_replay_store` call and `notifyOk` the `sr_shmsub_notif_notify`
call. -/
structure NotifEnv where
  findSubs : Option Nat
  modFound : Bool
  replaySupport : Bool
  newOk : Bool
  pathOk : Bool
  replayOk : Bool
  notifyOk : Bool

/-- The `while sr_diff_set_getnext` loop of the generator: one `edit`
list instance per changed node, in set order; `none` when a libyang
call inside the loop fails. -/
def notifEditLoop (env : NotifEnv) : List edit_op → Option (List NotifEv)
  | [] => some []
  | op :: rest =>
    match changeOperOf op with
    | none => notifEditLoop env rest
    | some cop =>
      if env.newOk && env.pathOk then
        match notifEditLoop env rest with
        | none => none
        | some evs => some (NotifEv.editAdded (opEnumOf cop) :: evs)
      else none

/-- `sr_modinfo_generate_config_change_notif`: the event trace and the
returned error. The `changes` gate and the candidate/operational gate
return success with nothing done; a failed subscriber lookup or a
missing module descriptor is an internal error; with replay support
off and no subscribers the generator returns success with nothing
done; otherwise the notification is built, the edit loop runs, the
replay copy is stored (a failure there is remembered and merged into
the result), and with a nonzero subscriber count the notification is
delivered. -/
def sr_modinfo_generate_config_change_notif (env : NotifEnv) (ds : Ds)
    (diff : List DiffTree) : List NotifEv × Option sr_error_t :=
  if forestChanges diff = false then ([], none)
  else if ds = Ds.candidate ∨ ds = Ds.operational then ([], none)
  else
    match env.findSubs with
    | none => ([], some sr_error_t.internalErr)
    | some count =>
      if env.modFound = false then ([], some sr_error_t.internalErr)
      else if env.replaySupport = false ∧ count = 0 then ([], none)
      else if env.newOk = false then ([], some sr_error_t.internalErr)
      else
        match notifEditLoop env (forestOps diff) with
        | none => ([NotifEv.built], some sr_error_t.internalErr)
        | some edits =>
          let tr2 := if env.replayOk then (NotifEv.built :: edits) ++ [NotifEv.replayStored]
            else NotifEv.built :: edits
          if count ≠ 0 ∧ env.notifyOk = false then
            (tr2, some sr_error_t.callbackFailed)
          else
            (if count ≠ 0 then tr2 ++ [NotifEv.delivered] else tr2,
              if env.replayOk then none else some sr_error_t.internalErr)

/-- The edit entry an op-carrying diff node contributes, `none` for a
skipped node. -/
def editEntryOf (op : edit_op) : Option NotifEv :=
  (changeOperOf op).map (fun c => NotifEv.editAdded (opEnumOf c))


/-! ## Generic fold helpers -/

theorem foldl_preserve {α β : Type} (P : α → Prop) (f : α → β → α) :
    ∀ (l : List β) (init : α), (∀ acc x, x ∈ l → P acc → P (f acc x)) → P init →
      P (l.foldl f init)
  | [], _, _, h0 => h0
  | x :: xs, init, h, h0 =>
    foldl_preserve P f xs (f init x)
      (fun acc y hy => h acc y (List.mem_cons_of_mem x hy))
      (h init x (List.mem_cons_self x xs) h0)

theorem foldl_rel {α β : Type} (R : α → α → Prop) (hrefl : ∀ a, R a a)
    (htrans : ∀ a b c, R a b → R b c → R a c) (f : α → β → α) :
    ∀ (l : List β) (init : α), (∀ acc x, x ∈ l → R acc (f acc x)) → R init (l.foldl f init)
  | [], init, _ => hrefl init
  | x :: xs, init, h =>
    htrans init (f init x) ((x :: xs).foldl f init)
      (h init x (List.mem_cons_self x xs))
      (foldl_rel R hrefl htrans f xs (f init x)
        (fun acc y hy => h acc y (List.mem_cons_of_mem x hy)))

theorem foldl_congr_mem {α β : Type} (f g : α → β → α) :
    ∀ (l : List β) (init : α), (∀ acc x, x ∈ l → f acc x = g acc x) →
      l.foldl f init = l.foldl g init
  | [], _, _ => rfl
  | x :: xs, init, h => by
    have hx := h init x (List.mem_cons_self x xs)
    simp only [List.foldl_cons, hx]
    exact foldl_congr_mem f g xs (g init x) (fun acc y hy => h acc y (List.mem_cons_of_mem x hy))

theorem foldl_filter_if {α β : Type} (p : β → Bool) (f : α → β → α) :
    ∀ (l : List β) (init : α),
      l.foldl (fun acc d => if p d then acc else f acc d) init =
        (l.filter (fun d => !p d)).foldl f init
  | [], _ => rfl
  | x :: xs, init => by
    by_cases hx : p x <;>
      simp [List.foldl_cons, List.filter_cons, hx, foldl_filter_if p f xs]

/-! ## Lemmas about `findState`, `upsertState` and `sr_modinfo_add_mod` -/

theorem findState_nil (y : Nat) : findState [] y = none := rfl

theorem findState_cons (m : ModInfoMod) (rest : List ModInfoMod) (y : Nat) :
    findState (m :: rest) y = if m.lyMod = y then some m.state else findState rest y := by
  unfold findState
  by_cases h : m.lyMod = y
  · rw [List.find?_cons_of_pos _ (by simpa using h)]
    simp [h]
  · rw [List.find?_cons_of_neg _ (by simpa using h)]
    simp [h]

theorem findState_none_iff (mods : List ModInfoMod) (ly : Nat) :
    findState mods ly = none ↔ ∀ m ∈ mods, m.lyMod ≠ ly := by
  simp [findState, List.find?_eq_none]

theorem findState_upsert_self (mods : List ModInfoMod) (ly st : Nat) :
    findState (upsertState mods ly st) ly = (findState mods ly).map (fun _ => st) := by
  induction mods with
  | nil => rfl
  | cons m rest ih =>
    by_cases h : m.lyMod = ly
    · simp [upsertState, h, findState_cons]
    · simp [upsertState, h, findState_cons, ih]

theorem findState_upsert_other (mods : List ModInfoMod) (ly st y : Nat) (hy : y ≠ ly) :
    findState (upsertState mods ly st) y = findState mods y := by
  induction mods with
  | nil => rfl
  | cons m rest ih =>
    by_cases h : m.lyMod = ly
    · have h3 : ¬ ly = y := fun hc => hy hc.symm
      simp [upsertState, h, findState_cons, h3, ih]
    · by_cases h2 : m.lyMod = y
      · simp [upsertState, h, findState_cons, h2, hy]
      · simp [upsertState, h, findState_cons, h2, ih]

theorem findState_append_self (mods : List ModInfoMod) (e : ModInfoMod)
    (h : findState mods e.lyMod = none) :
    findState (mods ++ [e]) e.lyMod = some e.state := by
  induction mods with
  | nil => simp [findState_cons]
  | cons m rest ih =>
    rw [findState_cons] at h
    by_cases hm : m.lyMod = e.lyMod
    · simp [hm] at h
    · rw [if_neg hm] at h
      simp only [List.cons_append, findState_cons, if_neg hm]
      exact ih h

theorem findState_append_other (mods : List ModInfoMod) (e : ModInfoMod) (y : Nat)
    (hy : y ≠ e.lyMod) :
    findState (mods ++ [e]) y = findState mods y := by
  induction mods with
  | nil =>
    have : ¬ e.lyMod = y := fun hc => hy hc.symm
    simp [findState_cons, this, findState_nil]
  | cons m rest ih =>
    by_cases hm : m.lyMod = y
    · simp [List.cons_append, findState_cons, hm]
    · simp [List.cons_append, findState_cons, hm, ih]

theorem upsert_lyMods (mods : List ModInfoMod) (ly st : Nat) :
    (upsertState mods ly st).map (·.lyMod) = mods.map (·.lyMod) := by
  induction mods with
  | nil => rfl
  | cons m rest ih =>
    by_cases h : m.lyMod = ly <;> simp [upsertState, h, ih]

theorem upsert_keys (mods : List ModInfoMod) (ly st : Nat) :
    (upsertState mods ly st).map (fun m => (m.lyMod, m.shmMod)) =
      mods.map (fun m => (m.lyMod, m.shmMod)) := by
  induction mods with
  | nil => rfl
  | cons m rest ih =>
    by_cases h : m.lyMod = ly <;> simp [upsertState, h, ih]

theorem mem_upsert (mods : List ModInfoMod) (ly st : Nat) (m' : ModInfoMod)
    (h : m' ∈ upsertState mods ly st) :
    ∃ m ∈ mods, m'.lyMod = m.lyMod ∧ m'.shmMod = m.shmMod ∧
      (m'.state = m.state ∨ m'.state = st) := by
  induction mods with
  | nil => simp [upsertState] at h
  | cons m rest ih =>
    by_cases hm : m.lyMod = ly
    · rw [upsertState, if_pos hm] at h
      rcases List.mem_cons.mp h with h1 | h2
      · exact ⟨m, List.mem_cons_self m rest, by simp [h1]⟩
      · rcases ih h2 with ⟨x, hx, hp⟩
        exact ⟨x, List.mem_cons_of_mem m hx, hp⟩
    · rw [upsertState, if_neg hm] at h
      rcases List.mem_cons.mp h with h1 | h2
      · exact ⟨m, List.mem_cons_self m rest, by simp [h1]⟩
      · rcases ih h2 with ⟨x, hx, hp⟩
        exact ⟨x, List.mem_cons_of_mem m hx, hp⟩

theorem addModInvPhase_rel (R : List ModInfoMod → List ModInfoMod → Prop)
    (hrefl : ∀ a, R a a) (htrans : ∀ a b c, R a b → R b c → R a c)
    (go : Nat → Nat → List ModInfoMod → List ModInfoMod)
    (invs : List Nat) (reqDeps prevType ly : Nat) (mods1 : List ModInfoMod)
    (hgo : ∀ l mt acc, (mt = MOD_INFO_DEP ∨ mt = MOD_INFO_INV_DEP) → R acc (go l mt acc)) :
    R mods1 (addModInvPhase go invs reqDeps prevType ly mods1) := by
  unfold addModInvPhase
  split
  · exact hrefl mods1
  · split
    · exact foldl_rel R hrefl htrans _ invs mods1
        (fun acc d _ => hgo d MOD_INFO_INV_DEP acc (Or.inr rfl))
    · exact hrefl mods1

theorem addModPhases_rel (R : List ModInfoMod → List ModInfoMod → Prop)
    (hrefl : ∀ a, R a a) (htrans : ∀ a b c, R a b → R b c → R a c)
    (go : Nat → Nat → List ModInfoMod → List ModInfoMod)
    (deps : List (Bool × Nat)) (invs : List Nat) (reqDeps prevType ly : Nat)
    (mods0 : List ModInfoMod)
    (hgo : ∀ l mt acc, (mt = MOD_INFO_DEP ∨ mt = MOD_INFO_INV_DEP) → R acc (go l mt acc)) :
    R mods0 (addModPhases go deps invs reqDeps prevType ly mods0) := by
  unfold addModPhases
  split
  · exact hrefl mods0
  · refine htrans _ _ _ ?_ (addModInvPhase_rel R hrefl htrans go invs reqDeps prevType ly _ hgo)
    split
    · refine foldl_rel R hrefl htrans _ deps mods0 (fun acc d _ => ?_)
      by_cases hd : d.1
      · simp only [hd, if_true]
        exact hrefl acc
      · simp only [hd, Bool.false_eq_true, if_false]
        exact hgo d.2 MOD_INFO_DEP acc (Or.inl rfl)
    · exact hrefl mods0

/-- Master lemma: a reflexive-transitive relation that is respected by
the state upgrade, by the append of a fresh entry, and (inductively) by
recursive calls of kinds DEP and INV_DEP, relates the input of
`sr_modinfo_add_mod` to its output. -/
theorem addMod_rel (env : DepEnv) (R : List ModInfoMod → List ModInfoMod → Prop)
    (hrefl : ∀ a, R a a) (htrans : ∀ a b c, R a b → R b c → R a c)
    (valid : Nat → Prop)
    (hv1 : valid MOD_INFO_DEP) (hv2 : valid MOD_INFO_INV_DEP)
    (hup : ∀ mods ly mt st, valid mt → findState mods ly = some st →
      st &&& MOD_INFO_TYPE_MASK < mt → R mods (upsertState mods ly mt))
    (happ : ∀ mods ly mt, valid mt → findState mods ly = none →
      R mods (mods ++ [{ lyMod := ly, shmMod := env.shmOf ly, state := mt }])) :
    ∀ (fuel ly mt rd : Nat) (mods : List ModInfoMod), valid mt →
      R mods (sr_modinfo_add_mod env fuel ly mt rd mods) := by
  intro fuel
  induction fuel with
  | zero =>
    intro ly mt rd mods _
    exact hrefl mods
  | succ fuel ih =>
    intro ly mt rd mods hval
    have hgo : ∀ l m acc, (m = MOD_INFO_DEP ∨ m = MOD_INFO_INV_DEP) →
        R acc (sr_modinfo_add_mod env fuel l m rd acc) := by
      intro l m acc hm
      rcases hm with hm | hm
      · exact hm ▸ ih l MOD_INFO_DEP rd acc hv1
      · exact hm ▸ ih l MOD_INFO_INV_DEP rd acc hv2
    rcases hfs : findState mods ly with _ | st
    · rw [sr_modinfo_add_mod, hfs]
      exact htrans _ _ _ (happ mods ly mt hval hfs)
        (addModPhases_rel R hrefl htrans _ _ _ _ _ _ _ hgo)
    · by_cases hlt : st &&& MOD_INFO_TYPE_MASK < mt
      · simp only [sr_modinfo_add_mod, hfs, if_pos hlt]
        exact htrans _ _ _ (hup mods ly mt st hval hfs hlt)
          (addModPhases_rel R hrefl htrans _ _ _ _ _ _ _ hgo)
      · simp only [sr_modinfo_add_mod, hfs, if_neg hlt]
        exact hrefl mods

/-- The (lyMod, shmMod) key sequence of the array only ever grows at the
tail: `sr_modinfo_add_mod` never removes or reorders entries. -/
theorem addMod_keys (env : DepEnv) (fuel ly mt rd : Nat) (mods : List ModInfoMod) :
    ∃ t, (sr_modinfo_add_mod env fuel ly mt rd mods).map (fun m => (m.lyMod, m.shmMod)) =
      mods.map (fun m => (m.lyMod, m.shmMod)) ++ t := by
  refine addMod_rel env
    (fun A B => ∃ t, B.map (fun m => (m.lyMod, m.shmMod)) =
      A.map (fun m => (m.lyMod, m.shmMod)) ++ t)
    (fun a => ⟨[], by simp⟩) ?_ (fun _ => True) trivial trivial ?_ ?_ fuel ly mt rd mods trivial
  · intro a b c h1 h2
    rcases h1 with ⟨t1, h1⟩
    rcases h2 with ⟨t2, h2⟩
    exact ⟨t1 ++ t2, by rw [h2, h1, List.append_assoc]⟩
  · intro mods ly mt st _ _ _
    exact ⟨[], by rw [upsert_keys]; simp⟩
  · intro mods ly mt _ _
    exact ⟨[(ly, env.shmOf ly)], by simp⟩

/-- `sr_modinfo_add_mod` preserves the array well-formedness. -/
theorem addMod_inv (env : DepEnv) (fuel ly mt rd : Nat) (mods : List ModInfoMod)
    (hmt : mt ≠ 0) (hinv : AddInv env mods) :
    AddInv env (sr_modinfo_add_mod env fuel ly mt rd mods) := by
  refine addMod_rel env (fun A B => AddInv env A → AddInv env B)
    (fun a h => h) (fun a b c h1 h2 h => h2 (h1 h))
    (fun m => m ≠ 0) (by simp [ MOD_INFO_DEP]) (by simp [ MOD_INFO_INV_DEP])
    ?_ ?_ fuel ly mt rd mods hmt hinv
  · intro mods ly mt st hmt _ _ hInv
    refine ⟨by rw [upsert_lyMods]; exact hInv.1, ?_⟩
    intro m' hm'
    rcases mem_upsert mods ly mt m' hm' with ⟨m, hm, hly, hshm, hst⟩
    have hmem := hInv.2 m hm
    refine ⟨by rw [hshm, hly]; exact hmem.1, ?_⟩
    rcases hst with h | h
    · rw [h]; exact hmem.2
    · rw [h]; exact hmt
  · intro mods ly mt hmt hfs hInv
    have hnotin : ly ∉ mods.map (·.lyMod) := by
      intro hmem
      rcases List.mem_map.mp hmem with ⟨m, hm, hml⟩
      exact ((findState_none_iff mods ly).mp hfs m hm) hml
    constructor
    · rw [List.map_append]
      refine List.Nodup.append hInv.1 (List.nodup_singleton ly) ?_
      intro x hx hx2
      simp at hx2
      subst hx2
      exact hnotin hx
    · intro m' hm'
      rcases List.mem_append.mp hm' with h | h
      · exact hInv.2 m' h
      · simp at h
        subst h
        exact ⟨rfl, hmt⟩

/-- Masked-state monotonicity: an entry present before the call is still
present afterwards, with the same state or a strictly larger kind. -/
theorem addMod_mono (env : DepEnv) (fuel ly mt rd : Nat) (mods : List ModInfoMod)
    (hmt : mt = MOD_INFO_DEP ∨ mt = MOD_INFO_INV_DEP ∨ mt = MOD_INFO_REQ) :
    ∀ y st0, findState mods y = some st0 →
      findState (sr_modinfo_add_mod env fuel ly mt rd mods) y = some st0 ∨
      ∃ st1, findState (sr_modinfo_add_mod env fuel ly mt rd mods) y = some st1 ∧
        st0 &&& MOD_INFO_TYPE_MASK < st1 &&& MOD_INFO_TYPE_MASK := by
  refine addMod_rel env
    (fun A B => ∀ y st0, findState A y = some st0 →
      findState B y = some st0 ∨
      ∃ st1, findState B y = some st1 ∧
        st0 &&& MOD_INFO_TYPE_MASK < st1 &&& MOD_INFO_TYPE_MASK)
    (fun a y st0 h => Or.inl h) ?_
    (fun m => m = MOD_INFO_DEP ∨ m = MOD_INFO_INV_DEP ∨ m = MOD_INFO_REQ)
    (Or.inl rfl) (Or.inr (Or.inl rfl)) ?_ ?_ fuel ly mt rd mods hmt
  · intro a b c h1 h2 y st0 h0
    rcases h1 y st0 h0 with hb | ⟨st1, hb, hlt1⟩
    · exact h2 y st0 hb
    · rcases h2 y st1 hb with hc | ⟨st2, hc, hlt2⟩
      · exact Or.inr ⟨st1, hc, hlt1⟩
      · exact Or.inr ⟨st2, hc, Nat.lt_trans hlt1 hlt2⟩
  · intro mods ly mt st hval hfs hlt y st0 h0
    by_cases hy : y = ly
    · subst hy
      right
      refine ⟨mt, by rw [findState_upsert_self, h0]; rfl, ?_⟩
      have hst : st = st0 := by
        rw [hfs] at h0
        exact Option.some.inj h0
      have hmask : mt &&& MOD_INFO_TYPE_MASK = mt := by
        rcases hval with h | h | h <;> subst h <;> decide
      rw [hmask, ← hst]
      exact hlt
    · left
      rw [findState_upsert_other mods ly mt y hy]
      exact h0
  · intro mods ly mt hval hfs y st0 h0
    left
    have hy : y ≠ ly := by
      intro hc
      subst hc
      rw [hfs] at h0
      cases h0
    rw [findState_append_other mods _ y hy]
    exact h0

/-- A call of kind DEP or INV_DEP only ever writes states that are at
most INV_DEP. -/
theorem addMod_small (env : DepEnv) (fuel ly mt rd : Nat) (mods : List ModInfoMod)
    (hmt : mt ≤ MOD_INFO_INV_DEP) :
    ∀ y, findState (sr_modinfo_add_mod env fuel ly mt rd mods) y = findState mods y ∨
      ∃ v, findState (sr_modinfo_add_mod env fuel ly mt rd mods) y = some v ∧
        v ≤ MOD_INFO_INV_DEP := by
  refine addMod_rel env
    (fun A B => ∀ y, findState B y = findState A y ∨
      ∃ v, findState B y = some v ∧ v ≤ MOD_INFO_INV_DEP)
    (fun a y => Or.inl rfl) ?_
    (fun m => m ≤ MOD_INFO_INV_DEP) (by simp [ MOD_INFO_DEP, MOD_INFO_INV_DEP]) (le_refl _)
    ?_ ?_ fuel ly mt rd mods hmt
  · intro a b c h1 h2 y
    rcases h2 y with hb | ⟨v, hb, hv⟩
    · rcases h1 y with ha | ⟨v, ha, hv⟩
      · exact Or.inl (hb.trans ha)
      · exact Or.inr ⟨v, hb.trans ha, hv⟩
    · exact Or.inr ⟨v, hb, hv⟩
  · intro mods ly mt st hval hfs hlt y
    by_cases hy : y = ly
    · subst hy
      exact Or.inr ⟨mt, by rw [findState_upsert_self, hfs]; rfl, hval⟩
    · exact Or.inl (findState_upsert_other mods ly mt y hy)
  · intro mods ly mt hval hfs y
    by_cases hy : y = ly
    · subst hy
      exact Or.inr ⟨mt, findState_append_self mods _ hfs, hval⟩
    · exact Or.inl (findState_append_other mods _ y hy)

/-- For an entry holding kind INV_DEP or REQ, recursive calls of kinds
DEP and INV_DEP leave its state untouched. -/
theorem addMod_step_stable (env : DepEnv) (fuel rd ly mt : Nat)
    (hmt : mt = MOD_INFO_INV_DEP ∨ mt = MOD_INFO_REQ) :
    ∀ l m acc, (m = MOD_INFO_DEP ∨ m = MOD_INFO_INV_DEP) →
      findState acc ly = some mt →
      findState (sr_modinfo_add_mod env fuel l m rd acc) ly = some mt := by
  intro l m acc hm hacc
  have hm124 : m = MOD_INFO_DEP ∨ m = MOD_INFO_INV_DEP ∨ m = MOD_INFO_REQ := by
    rcases hm with h | h
    · exact Or.inl h
    · exact Or.inr (Or.inl h)
  have hmle : m ≤ MOD_INFO_INV_DEP := by
    rcases hm with h | h <;> subst h <;> simp [ MOD_INFO_DEP, MOD_INFO_INV_DEP]
  rcases addMod_mono env fuel l m rd acc hm124 ly mt hacc with hkeep | ⟨st1, h1, hlt⟩
  · exact hkeep
  · exfalso
    rcases addMod_small env fuel l m rd acc hmle ly with hsame | ⟨v, hv, hvle⟩
    · rw [h1, hacc] at hsame
      have hst : st1 = mt := Option.some.inj hsame
      subst hst
      exact Nat.lt_irrefl _ hlt
    · rw [h1] at hv
      have hst : st1 = v := Option.some.inj hv
      subst hst
      have h1' : st1 &&& MOD_INFO_TYPE_MASK ≤ st1 := Nat.and_le_left
      have h2' : mt &&& MOD_INFO_TYPE_MASK = mt := by
        rcases hmt with h | h <;> subst h <;> decide
      rw [h2'] at hlt
      have h3' : MOD_INFO_INV_DEP ≤ mt := by
        rcases hmt with h | h <;> subst h <;> decide
      have h4' : mt < MOD_INFO_INV_DEP :=
        Nat.lt_of_lt_of_le hlt (Nat.le_trans h1' hvle)
      exact Nat.lt_irrefl _ (Nat.lt_of_lt_of_le h4' h3')

/-- The dependency phases leave the state of the processed entry alone. -/
theorem addModPhases_stable (env : DepEnv) (fuel rd : Nat) (deps : List (Bool × Nat))
    (invs : List Nat) (prev ly mt : Nat) (mods0 : List ModInfoMod)
    (hmt : mt = MOD_INFO_DEP ∨ mt = MOD_INFO_INV_DEP ∨ mt = MOD_INFO_REQ)
    (h0 : findState mods0 ly = some mt) :
    findState (addModPhases (fun l m acc => sr_modinfo_add_mod env fuel l m rd acc)
      deps invs rd prev ly mods0) ly = some mt := by
  rcases hmt with h1 | h24
  · subst h1
    unfold addModPhases
    rw [if_pos (Or.inr (by simp [stateOf, h0, MOD_INFO_DEP, MOD_INFO_INV_DEP]))]
    exact h0
  · refine addModPhases_rel
      (fun A B => findState A ly = some mt → findState B ly = some mt)
      (fun a h => h) (fun a b c hab hbc h => hbc (hab h)) _ deps invs rd prev ly mods0 ?_ h0
    intro l m acc hm hacc
    exact addMod_step_stable env fuel rd ly mt h24 l m acc hm hacc

/-- No-op rule: a module already present with an equal or stronger kind
leaves the module info unchanged. -/
theorem addMod_noop (env : DepEnv) (fuel ly mt rd st : Nat) (mods : List ModInfoMod)
    (hfs : findState mods ly = some st) (hge : ¬(st &&& MOD_INFO_TYPE_MASK < mt)) :
    sr_modinfo_add_mod env fuel ly mt rd mods = mods := by
  cases fuel with
  | zero => rfl
  | succ fuel => simp only [sr_modinfo_add_mod, hfs, if_neg hge]

/-- Upgrade rule: a module present with a weaker kind ends up with state
exactly `mod_type`. -/
theorem addMod_upgrade (env : DepEnv) (fuel ly mt rd st : Nat) (mods : List ModInfoMod)
    (hmt : mt = MOD_INFO_DEP ∨ mt = MOD_INFO_INV_DEP ∨ mt = MOD_INFO_REQ)
    (hfs : findState mods ly = some st) (hlt : st &&& MOD_INFO_TYPE_MASK < mt) :
    findState (sr_modinfo_add_mod env (fuel + 1) ly mt rd mods) ly = some mt := by
  simp only [sr_modinfo_add_mod, hfs, if_pos hlt]
  refine addModPhases_stable env fuel rd _ _ st ly mt _ hmt ?_
  rw [findState_upsert_self, hfs]
  rfl

theorem invPhase_eq (env : DepEnv) (fuel rd : Nat) (invs : List Nat)
    (prev ly mt : Nat) (mods1 : List ModInfoMod)
    (hmt : mt = MOD_INFO_DEP ∨ mt = MOD_INFO_INV_DEP ∨ mt = MOD_INFO_REQ)
    (h1 : findState mods1 ly = some mt)
    (IH : ∀ l m acc, (m = MOD_INFO_DEP ∨ m = MOD_INFO_INV_DEP) →
      sr_modinfo_add_mod env fuel l m rd acc = sr_modinfo_add_mod_spec env fuel l m rd acc) :
    addModInvPhase (fun l m acc => sr_modinfo_add_mod env fuel l m rd acc)
        invs rd prev ly mods1 =
      addModInvPhaseSpec (fun l m acc => sr_modinfo_add_mod_spec env fuel l m rd acc)
        invs rd prev mt mods1 := by
  have hst : stateOf mods1 ly = mt := by simp [stateOf, h1]
  unfold addModInvPhase addModInvPhaseSpec
  by_cases hb : rd &&& MOD_INFO_INV_DEP = 0
  · rw [if_pos (Or.inl hb), if_neg (by rintro ⟨hc, -, -⟩; exact hc hb)]
  · by_cases hmt4 : mt = MOD_INFO_REQ
    · have hnlt : ¬(rd &&& MOD_INFO_INV_DEP = 0 ∨ stateOf mods1 ly < MOD_INFO_REQ) := by
        rintro (hc | hc)
        · exact hb hc
        · rw [hst, hmt4] at hc
          exact Nat.lt_irrefl _ hc
      rw [if_neg hnlt]
      by_cases hprev : prev < MOD_INFO_REQ
      · rw [if_pos hprev, if_pos ⟨hb, hmt4, hprev⟩]
        exact foldl_congr_mem _ _ invs mods1
          (fun acc d _ => IH d MOD_INFO_INV_DEP acc (Or.inr rfl))
      · rw [if_neg hprev, if_neg (by rintro ⟨-, -, hc⟩; exact hprev hc)]
    · have hlt : stateOf mods1 ly < MOD_INFO_REQ := by
        rw [hst]
        rcases hmt with h | h | h
        · rw [h]; decide
        · rw [h]; decide
        · exact absurd h hmt4
      rw [if_pos (Or.inr hlt), if_neg (by rintro ⟨-, hc, -⟩; exact hmt4 hc)]

theorem phases_eq (env : DepEnv) (fuel rd : Nat)
    (hrd : rd = 0 ∨ rd = MOD_INFO_DEP ∨ rd = (MOD_INFO_DEP ||| MOD_INFO_INV_DEP))
    (deps : List (Bool × Nat)) (invs : List Nat) (prev ly mt : Nat)
    (mods0 : List ModInfoMod)
    (hmt : mt = MOD_INFO_DEP ∨ mt = MOD_INFO_INV_DEP ∨ mt = MOD_INFO_REQ)
    (h0 : findState mods0 ly = some mt)
    (IH : ∀ l m acc, (m = MOD_INFO_DEP ∨ m = MOD_INFO_INV_DEP) →
      sr_modinfo_add_mod env fuel l m rd acc = sr_modinfo_add_mod_spec env fuel l m rd acc) :
    addModPhases (fun l m acc => sr_modinfo_add_mod env fuel l m rd acc)
        deps invs rd prev ly mods0 =
      addModPhasesSpec (fun l m acc => sr_modinfo_add_mod_spec env fuel l m rd acc)
        deps invs rd prev mt mods0 := by
  have hst : stateOf mods0 ly = mt := by simp [stateOf, h0]
  unfold addModPhases addModPhasesSpec
  by_cases ha : rd &&& MOD_INFO_DEP = 0
  · have hrd0 : rd = 0 := by
      rcases hrd with h | h | h
      · exact h
      · rw [h] at ha; exact absurd ha (by decide)
      · rw [h] at ha; exact absurd ha (by decide)
    rw [if_pos (Or.inl ha), if_neg (by rintro ⟨hc, -, -⟩; exact hc ha)]
    unfold addModInvPhaseSpec
    rw [if_neg (by rintro ⟨hc, -, -⟩; rw [hrd0] at hc; exact hc (by decide))]
  · by_cases hm1 : mt = MOD_INFO_DEP
    · have hlt : stateOf mods0 ly < MOD_INFO_INV_DEP := by
        rw [hst, hm1]; decide
      rw [if_pos (Or.inr hlt),
        if_neg (by rintro ⟨-, hc, -⟩; rw [hm1] at hc; exact absurd hc (by decide))]
      unfold addModInvPhaseSpec
      rw [if_neg (by
        rintro ⟨-, hc, -⟩
        rw [hm1] at hc
        exact absurd hc (by decide))]
    · have hmt24 : mt = MOD_INFO_INV_DEP ∨ mt = MOD_INFO_REQ := by
        rcases hmt with h | h | h
        · exact absurd h hm1
        · exact Or.inl h
        · exact Or.inr h
      have h2le : MOD_INFO_INV_DEP ≤ mt := by
        rcases hmt24 with h | h <;> (subst h; decide)
      have hnlt : ¬(rd &&& MOD_INFO_DEP = 0 ∨ stateOf mods0 ly < MOD_INFO_INV_DEP) := by
        rintro (hc | hc)
        · exact ha hc
        · rw [hst] at hc
          exact Nat.lt_irrefl _ (Nat.lt_of_le_of_lt h2le hc)
      rw [if_neg hnlt]
      have h1src : findState (if prev < MOD_INFO_INV_DEP then
          deps.foldl (fun acc d => if d.1 then acc
            else sr_modinfo_add_mod env fuel d.2 MOD_INFO_DEP rd acc) mods0
          else mods0) ly = some mt := by
        by_cases hprev : prev < MOD_INFO_INV_DEP
        · rw [if_pos hprev]
          refine foldl_preserve (fun A => findState A ly = some mt) _ deps mods0 ?_ h0
          intro acc d _ hacc
          by_cases hd : d.1
          · rw [if_pos hd]; exact hacc
          · rw [if_neg hd]
            exact addMod_step_stable env fuel rd ly mt hmt24 d.2 MOD_INFO_DEP acc
              (Or.inl rfl) hacc
        · rw [if_neg hprev]; exact h0
      rw [invPhase_eq env fuel rd invs prev ly mt _ hmt h1src IH]
      by_cases hprev : prev < MOD_INFO_INV_DEP
      · rw [if_pos hprev, if_pos ⟨ha, h2le, hprev⟩, foldl_filter_if]
        congr 1
        exact foldl_congr_mem _ _ _ mods0
          (fun acc d _ => by
            simp only [IH d.2 MOD_INFO_DEP acc (Or.inl rfl)])
      · rw [if_neg hprev, if_neg (by rintro ⟨-, -, hc⟩; exact hprev hc)]

/-- The embedded `sr_modinfo_add_mod` equals the spec-worded closure
rules for every argument combination allowed by the asserts of lines
1366-1367. -/
theorem addMod_eq_spec (env : DepEnv) :
    ∀ (fuel ly mt rd : Nat) (mods : List ModInfoMod),
      (mt = MOD_INFO_DEP ∨ mt = MOD_INFO_INV_DEP ∨ mt = MOD_INFO_REQ) →
      (rd = 0 ∨ rd = MOD_INFO_DEP ∨ rd = (MOD_INFO_DEP ||| MOD_INFO_INV_DEP)) →
      sr_modinfo_add_mod env fuel ly mt rd mods =
        sr_modinfo_add_mod_spec env fuel ly mt rd mods := by
  intro fuel
  induction fuel with
  | zero =>
    intro ly mt rd mods _ _
    rfl
  | succ fuel ih =>
    intro ly mt rd mods hmt hrd
    have IH : ∀ l m acc, (m = MOD_INFO_DEP ∨ m = MOD_INFO_INV_DEP) →
        sr_modinfo_add_mod env fuel l m rd acc =
          sr_modinfo_add_mod_spec env fuel l m rd acc := by
      intro l m acc hm
      refine ih l m rd acc ?_ hrd
      rcases hm with h | h
      · exact Or.inl h
      · exact Or.inr (Or.inl h)
    rcases hfs : findState mods ly with _ | st
    · simp only [sr_modinfo_add_mod, sr_modinfo_add_mod_spec, hfs]
      exact phases_eq env fuel rd hrd _ _ 0 ly mt _ hmt
        (findState_append_self mods _ hfs) IH
    · by_cases hlt : st &&& MOD_INFO_TYPE_MASK < mt
      · simp only [sr_modinfo_add_mod, sr_modinfo_add_mod_spec, hfs, if_pos hlt]
        refine phases_eq env fuel rd hrd _ _ st ly mt _ hmt ?_ IH
        rw [findState_upsert_self, hfs]
        rfl
      · simp only [sr_modinfo_add_mod, sr_modinfo_add_mod_spec, hfs, if_neg hlt]

/-! ## Lemmas about the permission gate -/

theorem perm_go_nonstrict (access : Nat → Bool → Bool) (wr : Bool) (mods : List ModInfoMod) :
    sr_modinfo_perm_check_go access wr false mods =
      ((mods.filter permRelevant).map (fun m => (m.lyMod, wr)),
        Except.ok (mods.filter (fun m => !permRelevant m || access m.lyMod wr))) := by
  induction mods with
  | nil => rfl
  | cons m rest ih =>
    by_cases h : permRelevant m
    · by_cases ha : access m.lyMod wr <;>
        simp [sr_modinfo_perm_check_go, sr_perm_check, h, ha, ih, Except.map]
    · simp [sr_modinfo_perm_check_go, h, ih, Except.map]

theorem perm_go_strict_ok (access : Nat → Bool → Bool) (wr : Bool) (mods : List ModInfoMod)
    (h : ∀ m ∈ mods, permRelevant m → access m.lyMod wr) :
    sr_modinfo_perm_check_go access wr true mods =
      ((mods.filter permRelevant).map (fun m => (m.lyMod, wr)), Except.ok mods) := by
  induction mods with
  | nil => rfl
  | cons m rest ih =>
    have ih' := ih (fun x hx => h x (List.mem_cons_of_mem m hx))
    by_cases hp : permRelevant m
    · have ha : access m.lyMod wr := h m (List.mem_cons_self m rest) hp
      simp [sr_modinfo_perm_check_go, sr_perm_check, hp, ha, ih', Except.map]
    · simp [sr_modinfo_perm_check_go, hp, ih', Except.map]

theorem perm_go_strict_err (access : Nat → Bool → Bool) (wr : Bool) (mods : List ModInfoMod)
    (h : ∃ m ∈ mods, permRelevant m ∧ access m.lyMod wr = false) :
    (sr_modinfo_perm_check_go access wr true mods).2 = Except.error sr_error_t.unauthorized := by
  induction mods with
  | nil => simp at h
  | cons m rest ih =>
    rcases h with ⟨x, hx, hrel, hacc⟩
    rcases List.mem_cons.mp hx with hxm | hxr
    · subst hxm
      by_cases hp : permRelevant x
      · by_cases ha : access x.lyMod wr
        · rw [ha] at hacc; exact absurd hacc (by simp)
        · simp [sr_modinfo_perm_check_go, sr_perm_check, hp, ha]
      · exact absurd hrel hp
    · have ih' := ih ⟨x, hxr, hrel, hacc⟩
      by_cases hp : permRelevant m
      · by_cases ha : access m.lyMod wr <;>
          simp [sr_modinfo_perm_check_go, sr_perm_check, hp, ha, ih', Except.map]
      · simp [sr_modinfo_perm_check_go, hp, ih', Except.map]

theorem perm_go_err_unauth (access : Nat → Bool → Bool) (wr strict : Bool)
    (mods : List ModInfoMod) (e : sr_error_t)
    (h : (sr_modinfo_perm_check_go access wr strict mods).2 = Except.error e) :
    e = sr_error_t.unauthorized := by
  induction mods with
  | nil => simp [sr_modinfo_perm_check_go] at h
  | cons m rest ih =>
    by_cases hp : permRelevant m
    · by_cases ha : access m.lyMod wr
      · simp [sr_modinfo_perm_check_go, sr_perm_check, hp, ha, Except.map] at h
        rcases hr : (sr_modinfo_perm_check_go access wr strict rest).2 with e' | out
        · rw [hr] at h
          cases h
          exact ih hr
        · rw [hr] at h
          simp [Except.map] at h
      · cases strict
        · simp [sr_modinfo_perm_check_go, sr_perm_check, hp, ha, Except.map] at h
          rcases hr : (sr_modinfo_perm_check_go access wr false rest).2 with e' | out
          · rw [hr] at h
            cases h
            exact ih hr
          · rw [hr] at h
            simp at h
        · simp [sr_modinfo_perm_check_go, sr_perm_check, hp, ha] at h
          exact h.symm
    · simp [sr_modinfo_perm_check_go, hp, Except.map] at h
      rcases hr : (sr_modinfo_perm_check_go access wr strict rest).2 with e' | out
      · rw [hr] at h
        cases h
        exact ih hr
      · rw [hr] at h
        simp [Except.map] at h

theorem perm_go_ok_sublist (access : Nat → Bool → Bool) (wr strict : Bool)
    (mods out : List ModInfoMod)
    (h : (sr_modinfo_perm_check_go access wr strict mods).2 = Except.ok out) :
    out.Sublist mods := by
  induction mods generalizing out with
  | nil =>
    simp [sr_modinfo_perm_check_go] at h
    simp [← h]
  | cons m rest ih =>
    by_cases hp : permRelevant m
    · by_cases ha : access m.lyMod wr
      · simp [sr_modinfo_perm_check_go, sr_perm_check, hp, ha, Except.map] at h
        rcases hr : (sr_modinfo_perm_check_go access wr strict rest).2 with e' | out'
        · rw [hr] at h; simp at h
        · rw [hr] at h
          simp [Except.map] at h
          rw [← h]
          exact List.Sublist.cons₂ m (ih out' hr)
      · cases strict
        · simp [sr_modinfo_perm_check_go, sr_perm_check, hp, ha, Except.map] at h
          rcases hr : (sr_modinfo_perm_check_go access wr false rest).2 with e' | out'
          · rw [hr] at h; simp at h
          · rw [hr] at h
            simp at h
            rw [← h]
            exact List.Sublist.cons m (ih out' hr)
        · simp [sr_modinfo_perm_check_go, sr_perm_check, hp, ha] at h
    · simp [sr_modinfo_perm_check_go, hp, Except.map] at h
      rcases hr : (sr_modinfo_perm_check_go access wr strict rest).2 with e' | out'
      · rw [hr] at h; simp at h
      · rw [hr] at h
        simp [Except.map] at h
        rw [← h]
        exact List.Sublist.cons₂ m (ih out' hr)

theorem perm_go_ok_checks (access : Nat → Bool → Bool) (wr strict : Bool)
    (mods out : List ModInfoMod)
    (h : (sr_modinfo_perm_check_go access wr strict mods).2 = Except.ok out) :
    (sr_modinfo_perm_check_go access wr strict mods).1 =
      (mods.filter permRelevant).map (fun m => (m.lyMod, wr)) := by
  induction mods generalizing out with
  | nil => rfl
  | cons m rest ih =>
    by_cases hp : permRelevant m
    · by_cases ha : access m.lyMod wr
      · simp only [sr_modinfo_perm_check_go, sr_perm_check, hp, ha, if_true, if_pos] at h ⊢
        rcases hr : (sr_modinfo_perm_check_go access wr strict rest).2 with e' | out'
        · rw [hr] at h; simp [Except.map] at h
        · simp [hp, ha, ih out' hr]
      · cases strict
        · simp only [sr_modinfo_perm_check_go, sr_perm_check, ha, if_false] at h ⊢
          rcases hr : (sr_modinfo_perm_check_go access wr false rest).2 with e' | out'
          · rw [hr] at h; simp [hp, Except.map] at h
          · simp [hp, ha, ih out' hr]
        · simp [sr_modinfo_perm_check_go, sr_perm_check, hp, ha] at h
    · simp only [sr_modinfo_perm_check_go, hp, Bool.false_eq_true, if_false] at h ⊢
      rcases hr : (sr_modinfo_perm_check_go access wr strict rest).2 with e' | out'
      · rw [hr] at h; simp [Except.map] at h
      · simp [hp, ih out' hr]

/-- C9: in `sr_chmodown`, the condition `(errno == EACCES) || (errno = EPERM)`
contains an assignment, so the classification is UNAUTHORIZED for every
errno value and the INTERNAL branch is unreachable.  Evaluated at the
failing input errno = ENOENT (2), where the claim expects INTERNAL, the
code yields UNAUTHORIZED. -/
theorem C9_chmodown_errno_classification :
    (sr_chmodown_classify 2).1 = sr_error_t.unauthorized ∧
      (∀ e : Nat, (sr_chmodown_classify e).1 = sr_error_t.unauthorized) := by
  refine ⟨by decide, fun e => ?_⟩
  by_cases h : e = EACCES <;> simp [sr_chmodown_classify, h, EPERM]

/-- C7: `sr_modinfo_perm_check` permission-checks (eaccess, `W_OK` iff
write) exactly the entries whose state includes REQ or CHANGED; in strict
mode any denial fails the whole operation with UNAUTHORIZED (and errors
are only ever UNAUTHORIZED); in non-strict mode denied entries are
removed and the relative order of the remainder is preserved (the result
is the order-preserving filter, a sublist of the input); non-strict mode
presupposes a modinfo that holds no data (the assert of line 43). -/
theorem C7_perm_check (access : Nat → Bool → Bool) (wr strict : Bool)
    (mData : Option Nat) (mods : List ModInfoMod)
    (hpre : strict = false → mData = none) :
    ∃ checks res,
      sr_modinfo_perm_check access wr strict mData mods = some (checks, res) ∧
      (strict = true → (∃ m ∈ mods, permRelevant m ∧ access m.lyMod wr = false) →
        res = Except.error sr_error_t.unauthorized) ∧
      (∀ e, res = Except.error e → e = sr_error_t.unauthorized) ∧
      (strict = false →
        res = Except.ok (mods.filter (fun m => !permRelevant m || access m.lyMod wr))) ∧
      (∀ out, res = Except.ok out → out.Sublist mods) ∧
      (∀ out, res = Except.ok out →
        checks = (mods.filter permRelevant).map (fun m => (m.lyMod, wr))) := by
  have hdef : sr_modinfo_perm_check access wr strict mData mods =
      some (sr_modinfo_perm_check_go access wr strict mods) := by
    unfold sr_modinfo_perm_check
    cases strict
    · simp [hpre rfl]
    · simp
  refine ⟨(sr_modinfo_perm_check_go access wr strict mods).1,
    (sr_modinfo_perm_check_go access wr strict mods).2, by rw [hdef], ?_, ?_, ?_, ?_, ?_⟩
  · intro hs hex
    subst hs
    exact perm_go_strict_err access wr mods hex
  · intro e he
    exact perm_go_err_unauth access wr strict mods e he
  · intro hs
    subst hs
    rw [perm_go_nonstrict]
  · intro out hout
    exact perm_go_ok_sublist access wr strict mods out hout
  · intro out hout
    exact perm_go_ok_checks access wr strict mods out hout

/-- Witness for C7 at a concrete input: two modules, the second one denied
in non-strict read mode, so it is dropped and the first survives. -/
theorem C7_perm_check_witness :
    ∃ checks res,
      sr_modinfo_perm_check (fun m _ => m ≠ 2) false false none
          [⟨1, 10, MOD_INFO_REQ⟩, ⟨2, 20, MOD_INFO_REQ⟩] = some (checks, res) ∧
      (false = true → (∃ m ∈ [(⟨1, 10, MOD_INFO_REQ⟩ : ModInfoMod), ⟨2, 20, MOD_INFO_REQ⟩],
          permRelevant m ∧ (fun (m : Nat) (_ : Bool) => decide (m ≠ 2)) m.lyMod false = false) →
        res = Except.error sr_error_t.unauthorized) ∧
      (∀ e, res = Except.error e → e = sr_error_t.unauthorized) ∧
      (false = false →
        res = Except.ok (([⟨1, 10, MOD_INFO_REQ⟩, ⟨2, 20, MOD_INFO_REQ⟩] :
            List ModInfoMod).filter
          (fun m => !permRelevant m || (fun (m : Nat) (_ : Bool) => decide (m ≠ 2)) m.lyMod false))) ∧
      (∀ out, res = Except.ok out →
        out.Sublist [⟨1, 10, MOD_INFO_REQ⟩, ⟨2, 20, MOD_INFO_REQ⟩]) ∧
      (∀ out, res = Except.ok out →
        checks = (([⟨1, 10, MOD_INFO_REQ⟩, ⟨2, 20, MOD_INFO_REQ⟩] :
            List ModInfoMod).filter permRelevant).map (fun m => (m.lyMod, false))) :=
  C7_perm_check (fun m _ => m ≠ 2) false false none
    [⟨1, 10, MOD_INFO_REQ⟩, ⟨2, 20, MOD_INFO_REQ⟩] (fun _ => rfl)

/-! ## Lemmas about the datastore writer -/

theorem countBump_append (x : Nat) (a b : List StoreEv) :
    countBump x (a ++ b) = countBump x a + countBump x b := by
  simp [countBump, List.filter_append]

theorem countRunWrite_append (x : Nat) (a b : List StoreEv) :
    countRunWrite x (a ++ b) = countRunWrite x a + countRunWrite x b := by
  simp [countRunWrite, List.filter_append]

set_option maxHeartbeats 1000000 in
theorem storeModStep_vers (env : StoreEnv) (ds : Ds) (c : Bool) (vers : Nat → Nat)
    (m x : Nat) :
    (storeModStep env ds c vers m).2.1 x =
      vers x + countBump x (storeModStep env ds c vers m).1 := by
  cases ds <;> cases c <;>
    simp only [storeModStep] <;>
      split_ifs <;>
        by_cases hx : x = m <;>
          simp [countBump, hx, Ne.symm, List.filter]

set_option maxHeartbeats 1000000 in
theorem storeModStep_count (env : StoreEnv) (ds : Ds) (c : Bool) (vers : Nat → Nat)
    (m x : Nat) :
    countBump x (storeModStep env ds c vers m).1 =
      countRunWrite x (storeModStep env ds c vers m).1 := by
  cases ds <;> cases c <;>
    simp only [storeModStep] <;>
      split_ifs <;>
        by_cases hx : x = m <;>
          simp [countBump, countRunWrite, hx, Ne.symm, List.filter]

set_option maxHeartbeats 1000000 in
theorem storeModStep_notrun (env : StoreEnv) (ds : Ds) (c : Bool) (vers : Nat → Nat)
    (m x : Nat) :
    ds ≠ Ds.running → countBump x (storeModStep env ds c vers m).1 = 0 := by
  cases ds <;> cases c <;>
    simp only [storeModStep] <;>
      split_ifs <;>
        by_cases hx : x = m <;>
          simp [countBump, hx, Ne.symm, List.filter]

theorem dataStore_vers (env : StoreEnv) (ds : Ds) (c : Bool) :
    ∀ (mods : List ModInfoMod) (vers : Nat → Nat) (x : Nat),
      (sr_modinfo_data_store env ds c mods vers).2.1 x =
        vers x + countBump x (sr_modinfo_data_store env ds c mods vers).1 := by
  intro mods
  induction mods with
  | nil =>
    intro vers x
    simp [sr_modinfo_data_store, countBump]
  | cons m rest ih =>
    intro vers x
    simp only [sr_modinfo_data_store]
    by_cases hch : m.state &&& MOD_INFO_CHANGED ≠ 0
    · rw [if_pos hch]
      rcases hstep : storeModStep env ds c vers m.lyMod with ⟨evs, vers1, cont⟩
      simp only [hstep]
      have hs := storeModStep_vers env ds c vers m.lyMod x
      rw [hstep] at hs
      dsimp only at hs
      cases cont
      · simp only [Bool.false_eq_true, if_false]
        exact hs
      · simp only [if_true]
        rcases hrest : sr_modinfo_data_store env ds c rest vers1 with ⟨evs2, vers2, ok⟩
        simp only [hrest]
        have hr := ih vers1 x
        rw [hrest] at hr
        dsimp only at hr
        simp only [countBump_append]
        try dsimp only
        omega
    · rw [if_neg hch]
      exact ih vers x

theorem dataStore_count (env : StoreEnv) (ds : Ds) (c : Bool) :
    ∀ (mods : List ModInfoMod) (vers : Nat → Nat) (x : Nat),
      countBump x (sr_modinfo_data_store env ds c mods vers).1 =
        countRunWrite x (sr_modinfo_data_store env ds c mods vers).1 := by
  intro mods
  induction mods with
  | nil =>
    intro vers x
    simp [sr_modinfo_data_store, countBump, countRunWrite]
  | cons m rest ih =>
    intro vers x
    simp only [sr_modinfo_data_store]
    by_cases hch : m.state &&& MOD_INFO_CHANGED ≠ 0
    · rw [if_pos hch]
      rcases hstep : storeModStep env ds c vers m.lyMod with ⟨evs, vers1, cont⟩
      simp only [hstep]
      have hs := storeModStep_count env ds c vers m.lyMod x
      rw [hstep] at hs
      dsimp only at hs
      cases cont
      · simp only [Bool.false_eq_true, if_false]
        exact hs
      · simp only [if_true]
        rcases hrest : sr_modinfo_data_store env ds c rest vers1 with ⟨evs2, vers2, ok⟩
        simp only [hrest]
        have hr := ih vers1 x
        rw [hrest] at hr
        dsimp only at hr
        simp only [countBump_append, countRunWrite_append]
        try dsimp only
        omega
    · rw [if_neg hch]
      exact ih vers x

theorem dataStore_count_zero (env : StoreEnv) (ds : Ds) (c : Bool) (hds : ds ≠ Ds.running) :
    ∀ (mods : List ModInfoMod) (vers : Nat → Nat) (x : Nat),
      countBump x (sr_modinfo_data_store env ds c mods vers).1 = 0 := by
  intro mods
  induction mods with
  | nil =>
    intro vers x
    simp [sr_modinfo_data_store, countBump]
  | cons m rest ih =>
    intro vers x
    simp only [sr_modinfo_data_store]
    by_cases hch : m.state &&& MOD_INFO_CHANGED ≠ 0
    · rw [if_pos hch]
      rcases hstep : storeModStep env ds c vers m.lyMod with ⟨evs, vers1, cont⟩
      simp only [hstep]
      have hs := storeModStep_notrun env ds c vers m.lyMod x hds
      rw [hstep] at hs
      dsimp only at hs
      cases cont
      · simp only [Bool.false_eq_true, if_false]
        exact hs
      · simp only [if_true]
        rcases hrest : sr_modinfo_data_store env ds c rest vers1 with ⟨evs2, vers2, ok⟩
        simp only [hrest]
        have hr := ih vers1 x
        rw [hrest] at hr
        dsimp only at hr
        simp only [countBump_append]
        try dsimp only
        omega
    · rw [if_neg hch]
      exact ih vers x

set_option maxHeartbeats 1000000 in
theorem storeModStep_wtb (env : StoreEnv) (ds : Ds) (c : Bool) (vers : Nat → Nat) (m : Nat)
    (t : List StoreEv) (ht : ∀ ws', writeThenBump t ws' = true) :
    ∀ ws, writeThenBump ((storeModStep env ds c vers m).1 ++ t) ws = true := by
  intro ws
  cases ds <;> cases c <;>
    simp only [storeModStep] <;>
      split_ifs <;>
        simp [writeThenBump, ht _]

theorem dataStore_wtb (env : StoreEnv) (ds : Ds) (c : Bool) :
    ∀ (mods : List ModInfoMod) (vers : Nat → Nat) (ws : List Nat),
      writeThenBump (sr_modinfo_data_store env ds c mods vers).1 ws = true := by
  intro mods
  induction mods with
  | nil =>
    intro vers ws
    simp [sr_modinfo_data_store, writeThenBump]
  | cons m rest ih =>
    intro vers ws
    simp only [sr_modinfo_data_store]
    by_cases hch : m.state &&& MOD_INFO_CHANGED ≠ 0
    · rw [if_pos hch]
      rcases hstep : storeModStep env ds c vers m.lyMod with ⟨evs, vers1, cont⟩
      simp only [hstep]
      cases cont
      · simp only [Bool.false_eq_true, if_false]
        have h := storeModStep_wtb env ds c vers m.lyMod [] (fun ws' => rfl) ws
        rw [hstep] at h
        dsimp only at h
        simpa using h
      · simp only [if_true]
        rcases hrest : sr_modinfo_data_store env ds c rest vers1 with ⟨evs2, vers2, ok⟩
        simp only [hrest]
        have h := storeModStep_wtb env ds c vers m.lyMod evs2
          (fun ws' => by
            have hthis := ih vers1 ws'
            rw [hrest] at hthis
            exact hthis) ws
        rw [hstep] at h
        dsimp only at h
        exact h
    · rw [if_neg hch]
      exact ih vers ws

theorem nodup_shm_of_inv (env : DepEnv) (mods : List ModInfoMod)
    (hinj : Function.Injective env.shmOf) (hinv : AddInv env mods) :
    (mods.map (·.shmMod)).Nodup := by
  have hmap : mods.map (·.shmMod) = (mods.map (·.lyMod)).map env.shmOf := by
    rw [List.map_map]
    exact List.map_congr_left (fun m hm => (hinv.2 m hm).1)
  rw [hmap]
  exact hinv.1.map hinj

theorem pairwise_lt_of_sorted_nodup (mods : List ModInfoMod)
    (hs : List.Pairwise shmLe mods) (hn : (mods.map (·.shmMod)).Nodup) :
    mods.Pairwise (fun a b => a.shmMod < b.shmMod) := by
  have hne : mods.Pairwise (fun a b => a.shmMod ≠ b.shmMod) :=
    (List.pairwise_map).mp hn
  exact (hs.and hne).imp (fun h => Nat.lt_of_le_of_ne h.1 h.2)

theorem markData_pairwise (mods : List ModInfoMod)
    (h : mods.Pairwise (fun a b => a.shmMod < b.shmMod)) :
    (markDataLoaded mods).Pairwise (fun a b => a.shmMod < b.shmMod) := by
  unfold markDataLoaded
  exact (List.pairwise_map).mpr (h.imp (fun hab => hab))

theorem markData_map_shm (mods : List ModInfoMod) :
    (markDataLoaded mods).map (·.shmMod) = mods.map (·.shmMod) := by
  unfold markDataLoaded
  rw [List.map_map]
  rfl

theorem addModules_seed_inv (env : DepEnv) (fuel mt rd : Nat) (seeds : List Nat)
    (mods : List ModInfoMod) (hmt : mt ≠ 0) (hinv : AddInv env mods) :
    AddInv env (seeds.foldl (fun acc ly => sr_modinfo_add_mod env fuel ly mt rd acc) mods) := by
  refine foldl_preserve (AddInv env) _ seeds mods ?_ hinv
  intro acc ly _ h
  exact addMod_inv env fuel ly mt rd acc hmt h

theorem addModules_seed_keys (env : DepEnv) (fuel mt rd : Nat) (seeds : List Nat)
    (mods : List ModInfoMod) :
    ∃ t, (seeds.foldl (fun acc ly => sr_modinfo_add_mod env fuel ly mt rd acc) mods).map
        (fun m => (m.lyMod, m.shmMod)) =
      mods.map (fun m => (m.lyMod, m.shmMod)) ++ t := by
  refine foldl_rel
    (fun A B => ∃ t, B.map (fun m => (m.lyMod, m.shmMod)) =
      A.map (fun m => (m.lyMod, m.shmMod)) ++ t)
    (fun a => ⟨[], by simp⟩) ?_ _ seeds mods ?_
  · intro a b c h1 h2
    rcases h1 with ⟨t1, h1⟩
    rcases h2 with ⟨t2, h2⟩
    exact ⟨t1 ++ t2, by rw [h2, h1, List.append_assoc]⟩
  · intro acc ly _
    exact addMod_keys env fuel ly mt rd acc

/-- C1: after `sr_modinfo_add_modules` finishes dependency resolution and
permission filtering, the module-info array contains each descriptor at
most once and is sorted strictly ascending by descriptor address in Main
SHM (the order of `qsort` under `sr_modinfo_qsort_cmp`).  Hypotheses:
distinct modules have distinct descriptors (`hinj`), and the incoming
modinfo is well-formed and already canonically ordered - which holds for
the empty modinfo every operation starts with and is preserved by this
very theorem across repeated `sr_modinfo_add_modules` calls of one
operation. -/
theorem C1_canonical_order (env : DepEnv) (fuel : Nat) (modSet allMods : List Nat)
    (modDeps : Nat) (opts : MiOpts) (access : Nat → Bool → Bool) (mData : Option Nat)
    (mods res : List ModInfoMod)
    (hinj : Function.Injective env.shmOf)
    (hinv : AddInv env mods)
    (hsorted : mods.Pairwise (fun a b => a.shmMod < b.shmMod))
    (hres : sr_modinfo_add_modules env fuel modSet allMods modDeps opts access mData mods =
      some (Except.ok res)) :
    (res.map (·.shmMod)).Nodup ∧ res.Pairwise (fun a b => a.shmMod < b.shmMod) := by
  unfold sr_modinfo_add_modules at hres
  set mt := if opts.modDeps then MOD_INFO_DEP else MOD_INFO_REQ with hmtdef
  have hmt0 : mt ≠ 0 := by
    rw [hmtdef]
    split <;> decide
  set mods1 := (if modSet.isEmpty then
      allMods.foldl (fun acc ly => sr_modinfo_add_mod env fuel ly mt 0 acc) mods
    else
      modSet.foldl (fun acc ly => sr_modinfo_add_mod env fuel ly mt modDeps acc) mods)
    with hm1def
  have hinv1 : AddInv env mods1 := by
    rw [hm1def]
    split
    · exact addModules_seed_inv env fuel mt 0 allMods mods hmt0 hinv
    · exact addModules_seed_inv env fuel mt modDeps modSet mods hmt0 hinv
  have hkeys : ∃ t, mods1.map (fun m => (m.lyMod, m.shmMod)) =
      mods.map (fun m => (m.lyMod, m.shmMod)) ++ t := by
    rw [hm1def]
    split
    · exact addModules_seed_keys env fuel mt 0 allMods mods
    · exact addModules_seed_keys env fuel mt modDeps modSet mods
  by_cases hlen : mods1.length = mods.length
  · rw [if_pos hlen] at hres
    have hm : res = mods1 := by
      injection hres with h
      injection h with h2
      exact h2.symm
    subst hm
    rcases hkeys with ⟨t, ht⟩
    have htlen : t = [] := by
      have := congrArg List.length ht
      simp only [List.length_map, List.length_append] at this
      rw [hlen] at this
      have : t.length = 0 := by omega
      exact List.eq_nil_of_length_eq_zero this
    rw [htlen, List.append_nil] at ht
    have hp1 : mods1.Pairwise (fun a b => a.shmMod < b.shmMod) := by
      have h1 : List.Pairwise (fun p q : Nat × Nat => p.2 < q.2)
          (mods.map (fun m => (m.lyMod, m.shmMod))) :=
        (List.pairwise_map).mpr hsorted
      rw [← ht] at h1
      have h2 := List.pairwise_map.mp h1
      exact h2
    refine ⟨?_, hp1⟩
    have hne : mods1.Pairwise (fun a b => a.shmMod ≠ b.shmMod) :=
      hp1.imp (fun h => Nat.ne_of_lt h)
    exact (List.pairwise_map).mpr hne
  · rw [if_neg hlen] at hres
    have hmain : ∀ mods2 : List ModInfoMod, AddInv env mods2 →
        (res = if opts.dataNo then sr_modinfo_qsort mods2
          else markDataLoaded (sr_modinfo_qsort mods2)) →
        (res.map (·.shmMod)).Nodup ∧ res.Pairwise (fun a b => a.shmMod < b.shmMod) := by
      intro mods2 hinv2 hr
      have hnd2 : (mods2.map (·.shmMod)).Nodup := nodup_shm_of_inv env mods2 hinj hinv2
      have hperm : (sr_modinfo_qsort mods2).Perm mods2 :=
        List.perm_insertionSort shmLe mods2
      have hnd3 : ((sr_modinfo_qsort mods2).map (·.shmMod)).Nodup :=
        ((hperm.map (·.shmMod)).nodup_iff).mpr hnd2
      have hs3 : List.Pairwise shmLe (sr_modinfo_qsort mods2) :=
        List.sorted_insertionSort shmLe mods2
      have hp3 : (sr_modinfo_qsort mods2).Pairwise (fun a b => a.shmMod < b.shmMod) :=
        pairwise_lt_of_sorted_nodup _ hs3 hnd3
      rcases hdn : opts.dataNo with _ | _
      · rw [hdn] at hr
        simp only [Bool.false_eq_true, if_false] at hr
        subst hr
        rw [markData_map_shm]
        exact ⟨hnd3, markData_pairwise _ hp3⟩
      · rw [hdn] at hr
        simp only [if_true] at hr
        subst hr
        exact ⟨hnd3, hp3⟩
    rcases hpn : opts.permNo with _ | _
    · rw [hpn] at hres
      simp only [Bool.false_eq_true, if_false] at hres
      unfold sr_modinfo_perm_check at hres
      rcases hstrict : opts.permStrict with _ | _
      · rw [hstrict] at hres
        by_cases hd : mData = none
        · rw [if_neg (by simp [hd])] at hres
          rw [perm_go_nonstrict] at hres
          simp only [Option.some.injEq, Except.ok.injEq] at hres
          refine hmain _ ?_ hres.symm
          have hsub : (mods1.filter
              (fun m => !permRelevant m || access m.lyMod opts.permWrite)).Sublist mods1 :=
            List.filter_sublist mods1
          exact ⟨hinv1.1.sublist (hsub.map (·.lyMod)),
            fun m hm => hinv1.2 m (hsub.mem hm)⟩
        · rw [if_pos (by simp [hd])] at hres
          cases hres
      · rw [hstrict] at hres
        rw [if_neg (by simp)] at hres
        rcases hgo : (sr_modinfo_perm_check_go access opts.permWrite true mods1).2 with e | out
        · have : (sr_modinfo_perm_check_go access opts.permWrite true mods1) =
              ((sr_modinfo_perm_check_go access opts.permWrite true mods1).1, Except.error e) := by
            rw [← hgo]
          rw [this] at hres
          cases hres
        · have : (sr_modinfo_perm_check_go access opts.permWrite true mods1) =
              ((sr_modinfo_perm_check_go access opts.permWrite true mods1).1, Except.ok out) := by
            rw [← hgo]
          rw [this] at hres
          simp only [Option.some.injEq, Except.ok.injEq] at hres
          refine hmain out ?_ hres.symm
          have hsub : out.Sublist mods1 :=
            perm_go_ok_sublist access opts.permWrite true mods1 out hgo
          exact ⟨hinv1.1.sublist (hsub.map (·.lyMod)),
            fun m hm => hinv1.2 m (hsub.mem hm)⟩
    · rw [hpn] at hres
      simp only [if_true] at hres
      simp only [Option.some.injEq, Except.ok.injEq] at hres
      exact hmain mods1 hinv1 hres.symm

/-- Witness for C1: two seed modules (2 then 1) with dependency
following in `envW`, starting from the empty modinfo. -/
theorem C1_canonical_order_witness :
    ((sr_modinfo_add_modules envW 4 [2, 1] [] (MOD_INFO_DEP ||| MOD_INFO_INV_DEP)
        ⟨true, false, false, false, false⟩ (fun _ _ => true) none []).isSome) ∧
    (∀ res, sr_modinfo_add_modules envW 4 [2, 1] [] (MOD_INFO_DEP ||| MOD_INFO_INV_DEP)
        ⟨true, false, false, false, false⟩ (fun _ _ => true) none [] = some (Except.ok res) →
      (res.map (·.shmMod)).Nodup ∧ res.Pairwise (fun a b => a.shmMod < b.shmMod)) :=
  ⟨by decide, fun res hres =>
    C1_canonical_order envW 4 [2, 1] [] (MOD_INFO_DEP ||| MOD_INFO_INV_DEP)
      ⟨true, false, false, false, false⟩ (fun _ _ => true) none [] res
      (fun a b h => by simp only [envW] at h; omega)
      ⟨List.nodup_nil, by intro m hm; cases hm⟩
      List.Pairwise.nil hres⟩

/-- C5: `sr_modinfo_add_mod` implements the closure rules.  (i) For every
argument combination allowed by the function's asserts it equals the
spec-worded rules `sr_modinfo_add_mod_spec`: a module present with an
equal or stronger kind is a no-op, a weaker one is upgraded to the
stronger kind in the order REQ > INV_DEP > DEP, data dependencies are
followed recursively with INSTID-tagged entries skipped (a filter) only
when dependency-following is requested and the module's new kind is at
least INV_DEP, and inverse dependencies are followed only when requested
and the module's kind is REQ.  (ii) The no-op rule stated directly on
the embedding.  (iii) The upgrade rule stated directly: the upgraded
entry ends with state exactly `mod_type`, the stronger kind. -/
theorem C5_add_mod_closure (env : DepEnv) (fuel ly mt rd : Nat) (mods : List ModInfoMod)
    (hmt : mt = MOD_INFO_DEP ∨ mt = MOD_INFO_INV_DEP ∨ mt = MOD_INFO_REQ)
    (hrd : rd = 0 ∨ rd = MOD_INFO_DEP ∨ rd = (MOD_INFO_DEP ||| MOD_INFO_INV_DEP)) :
    sr_modinfo_add_mod env fuel ly mt rd mods =
      sr_modinfo_add_mod_spec env fuel ly mt rd mods ∧
    (∀ st, findState mods ly = some st → ¬(st &&& MOD_INFO_TYPE_MASK < mt) →
      sr_modinfo_add_mod env fuel ly mt rd mods = mods) ∧
    (∀ st, findState mods ly = some st → st &&& MOD_INFO_TYPE_MASK < mt →
      findState (sr_modinfo_add_mod env (fuel + 1) ly mt rd mods) ly = some mt) := by
  refine ⟨addMod_eq_spec env fuel ly mt rd mods hmt hrd, ?_, ?_⟩
  · intro st hfs hge
    exact addMod_noop env fuel ly mt rd st mods hfs hge
  · intro st hfs hlt
    exact addMod_upgrade env fuel ly mt rd st mods hmt hfs hlt

/-- Witness for C5: module 1 requested as REQ with full dependency
following in the concrete environment `envW`; additionally the REF
dependency (module 2) really ends up in the set with kind DEP while the
INSTID dependency (module 3) is skipped. -/
theorem C5_add_mod_closure_witness :
    (sr_modinfo_add_mod envW 4 1 MOD_INFO_REQ (MOD_INFO_DEP ||| MOD_INFO_INV_DEP) [] =
        sr_modinfo_add_mod_spec envW 4 1 MOD_INFO_REQ (MOD_INFO_DEP ||| MOD_INFO_INV_DEP) [] ∧
      (∀ st, findState [] 1 = some st → ¬(st &&& MOD_INFO_TYPE_MASK < MOD_INFO_REQ) →
        sr_modinfo_add_mod envW 4 1 MOD_INFO_REQ (MOD_INFO_DEP ||| MOD_INFO_INV_DEP) [] = []) ∧
      (∀ st, findState [] 1 = some st → st &&& MOD_INFO_TYPE_MASK < MOD_INFO_REQ →
        findState (sr_modinfo_add_mod envW (4 + 1) 1 MOD_INFO_REQ
          (MOD_INFO_DEP ||| MOD_INFO_INV_DEP) []) 1 = some MOD_INFO_REQ)) ∧
    findState (sr_modinfo_add_mod envW 4 1 MOD_INFO_REQ (MOD_INFO_DEP ||| MOD_INFO_INV_DEP) []) 2 =
      some MOD_INFO_DEP ∧
    findState (sr_modinfo_add_mod envW 4 1 MOD_INFO_REQ (MOD_INFO_DEP ||| MOD_INFO_INV_DEP) []) 3 =
      none ∧
    findState (sr_modinfo_add_mod envW 4 1 MOD_INFO_REQ (MOD_INFO_DEP ||| MOD_INFO_INV_DEP) []) 4 =
      some MOD_INFO_INV_DEP :=
  ⟨C5_add_mod_closure envW 4 1 MOD_INFO_REQ (MOD_INFO_DEP ||| MOD_INFO_INV_DEP) []
      (Or.inr (Or.inr rfl)) (Or.inr (Or.inr rfl)),
    by decide, by decide, by decide⟩

/-- C3: in `sr_modinfo_data_store`, the final `ver` of every module equals
its initial `ver` plus the number of its bump events in the trace; bumps
are in bijection with successful running-datastore file writes; for a
non-running primary datastore `ver` is unchanged; every bump event is
preceded in the trace by a successful running write of the same module
(write first, then bump); and `ver` is non-decreasing. -/
theorem C3_data_store_ver (env : StoreEnv) (ds : Ds) (c : Bool)
    (mods : List ModInfoMod) (vers : Nat → Nat) (x : Nat) :
    (sr_modinfo_data_store env ds c mods vers).2.1 x =
      vers x + countBump x (sr_modinfo_data_store env ds c mods vers).1 ∧
    countBump x (sr_modinfo_data_store env ds c mods vers).1 =
      countRunWrite x (sr_modinfo_data_store env ds c mods vers).1 ∧
    (ds ≠ Ds.running →
      (sr_modinfo_data_store env ds c mods vers).2.1 x = vers x) ∧
    writeThenBump (sr_modinfo_data_store env ds c mods vers).1 [] = true ∧
    vers x ≤ (sr_modinfo_data_store env ds c mods vers).2.1 x := by
  refine ⟨dataStore_vers env ds c mods vers x, dataStore_count env ds c mods vers x,
    ?_, dataStore_wtb env ds c mods vers [], ?_⟩
  · intro hds
    rw [dataStore_vers env ds c mods vers x, dataStore_count_zero env ds c hds mods vers x,
      Nat.add_zero]
  · rw [dataStore_vers env ds c mods vers x]
    exact Nat.le_add_right _ _

/-- Witness for C3: one CHANGED module stored to startup leaves `ver`
untouched, and the same module stored to running with an all-success
environment bumps it by exactly one after a successful write. -/
theorem C3_data_store_ver_witness :
    (sr_modinfo_data_store envS Ds.startup true [⟨1, 10, 12⟩] (fun _ => 5)).2.1 1 = 5 ∧
    ((sr_modinfo_data_store envS Ds.running true [⟨1, 10, 12⟩] (fun _ => 5)).2.1 1 =
        5 + countBump 1 (sr_modinfo_data_store envS Ds.running true [⟨1, 10, 12⟩]
          (fun _ => 5)).1 ∧
      countBump 1 (sr_modinfo_data_store envS Ds.running true [⟨1, 10, 12⟩] (fun _ => 5)).1 = 1) :=
  ⟨(C3_data_store_ver envS Ds.startup true [⟨1, 10, 12⟩] (fun _ => 5) 1).2.2.1 (by decide),
    (C3_data_store_ver envS Ds.running true [⟨1, 10, 12⟩] (fun _ => 5) 1).1,
    by decide⟩


lemma find_setVerFirst (mods : List CacheMod) (m v : Nat) :
    (cacheSetVerFirst mods m v).find? (fun e => e.lyMod = m) =
      (mods.find? (fun e => e.lyMod = m)).map (fun e => { e with ver := v }) := by
  induction mods with
  | nil => rfl
  | cons e rest ih =>
    by_cases h : e.lyMod = m
    · simp only [cacheSetVerFirst, if_pos h]
      rw [List.find?_cons_of_pos _ (by simp [h]), List.find?_cons_of_pos _ (by simp [h])]
      rfl
    · simp only [cacheSetVerFirst, if_neg h]
      rw [List.find?_cons_of_neg _ (by simp [h]), List.find?_cons_of_neg _ (by simp [h]), ih]

lemma mem_setVerFirst (mods : List CacheMod) (m v : Nat) (x : CacheMod)
    (hx : x ∈ cacheSetVerFirst mods m v) :
    x ∈ mods ∨ ∃ e, e ∈ mods ∧ x = { e with ver := v } := by
  induction mods with
  | nil => simp [cacheSetVerFirst] at hx
  | cons e rest ih =>
    by_cases h : e.lyMod = m
    · simp only [cacheSetVerFirst, if_pos h, List.mem_cons] at hx
      rcases hx with rfl | hx
      · exact Or.inr ⟨e, List.mem_cons_self _ _, rfl⟩
      · exact Or.inl (List.mem_cons_of_mem _ hx)
    · simp only [cacheSetVerFirst, if_neg h, List.mem_cons] at hx
      rcases hx with rfl | hx
      · exact Or.inl (List.mem_cons_self _ _)
      · rcases ih hx with h1 | ⟨e0, he0, rfl⟩
        · exact Or.inl (List.mem_cons_of_mem _ h1)
        · exact Or.inr ⟨e0, List.mem_cons_of_mem _ he0, rfl⟩

lemma bound_setVerFirst (mods : List CacheMod) (m v b : Nat)
    (hall : ∀ e ∈ mods, e.lyMod = m → e.ver ≤ b) (hv : v ≤ b) :
    ∀ x ∈ cacheSetVerFirst mods m v, x.lyMod = m → x.ver ≤ b := by
  intro x hx hm
  rcases mem_setVerFirst mods m v x hx with h | ⟨e0, _, rfl⟩
  · exact hall x h hm
  · exact hv

lemma dataOf_drop_nil (l : List (Nat × Nat)) (m : Nat) :
    (l.filter (fun p => p.1 ≠ m)).filter (fun p => p.1 = m) = [] := by
  induction l with
  | nil => rfl
  | cons p rest ih =>
    by_cases h : p.1 = m
    · simp [List.filter_cons, h, ih]
    · simp [List.filter_cons, h, ih]

lemma cacheInstall_some (fileData : Nat → Nat) (fileOk rdLockOk : Bool) (evs : List CacheEv)
    (snaps : List ModCache) (c1 : ModCache) (m shmVer d : Nat) (readLocked : Bool) :
    cacheInstall fileData fileOk rdLockOk evs snaps c1 m shmVer (some d) readLocked =
      (evs ++ [CacheEv.install m d, CacheEv.wrUnlock] ++
          (if readLocked then [CacheEv.rdLock] else []),
        snaps ++ [{ mods := c1.mods, data := c1.data ++ [(m, d)] },
          { mods := cacheSetVerFirst c1.mods m shmVer, data := c1.data ++ [(m, d)] }],
        { mods := cacheSetVerFirst c1.mods m shmVer, data := c1.data ++ [(m, d)] },
        !readLocked || rdLockOk) := rfl

lemma cacheInstall_none_ok (fileData : Nat → Nat) (rdLockOk : Bool) (evs : List CacheEv)
    (snaps : List ModCache) (c1 : ModCache) (m shmVer : Nat) (readLocked : Bool) :
    cacheInstall fileData true rdLockOk evs snaps c1 m shmVer none readLocked =
      (evs ++ [CacheEv.install m (fileData m), CacheEv.wrUnlock] ++
          (if readLocked then [CacheEv.rdLock] else []),
        snaps ++ [{ mods := c1.mods, data := c1.data ++ [(m, fileData m)] },
          { mods := cacheSetVerFirst c1.mods m shmVer, data := c1.data ++ [(m, fileData m)] }],
        { mods := cacheSetVerFirst c1.mods m shmVer, data := c1.data ++ [(m, fileData m)] },
        !readLocked || rdLockOk) := rfl

lemma cacheInstall_none_fail (fileData : Nat → Nat) (rdLockOk : Bool) (evs : List CacheEv)
    (snaps : List ModCache) (c1 : ModCache) (m shmVer : Nat) (readLocked : Bool) :
    cacheInstall fileData false rdLockOk evs snaps c1 m shmVer none readLocked =
      (evs ++ [CacheEv.wrUnlock] ++ (if readLocked then [CacheEv.rdLock] else []),
        snaps, c1, false) := rfl

lemma upd_eq_notfound (fileData : Nat → Nat) (fileOk rdLockOk : Bool) (cache : ModCache)
    (m shmVer : Nat) (updData : Option Nat) (readLocked : Bool)
    (hfind : cacheFind cache m = none) :
    sr_modcache_module_running_update fileData fileOk true rdLockOk cache m shmVer updData
        readLocked =
      cacheInstall fileData fileOk rdLockOk
        ((if readLocked then [CacheEv.rdUnlock] else []) ++ [CacheEv.wrLock])
        [cache, { mods := cache.mods ++ [{ lyMod := m, ver := 0 }], data := cache.data }]
        { mods := cache.mods ++ [{ lyMod := m, ver := 0 }], data := cache.data }
        m shmVer updData readLocked := by
  simp [sr_modcache_module_running_update, hfind]

lemma upd_eq_stale (fileData : Nat → Nat) (fileOk rdLockOk : Bool) (cache : ModCache)
    (m shmVer : Nat) (updData : Option Nat) (readLocked : Bool) (e : CacheMod)
    (hfind : cacheFind cache m = some e) (he : e.ver < shmVer) :
    sr_modcache_module_running_update fileData fileOk true rdLockOk cache m shmVer updData
        readLocked =
      cacheInstall fileData fileOk rdLockOk
        ((if readLocked then [CacheEv.rdUnlock] else []) ++ [CacheEv.wrLock, CacheEv.drop m])
        [cache, { mods := cacheSetVerFirst cache.mods m 0,
                  data := cache.data.filter (fun p => p.1 ≠ m) }]
        { mods := cacheSetVerFirst cache.mods m 0,
          data := cache.data.filter (fun p => p.1 ≠ m) }
        m shmVer updData readLocked := by
  simp [sr_modcache_module_running_update, hfind, he, cacheDropData]

lemma upd_eq_fresh (fileData : Nat → Nat) (fileOk rdLockOk : Bool) (cache : ModCache)
    (m shmVer : Nat) (updData : Option Nat) (readLocked : Bool) (e : CacheMod)
    (hfind : cacheFind cache m = some e) (hnl : ¬ e.ver < shmVer) (hne : e.ver ≠ 0) :
    sr_modcache_module_running_update fileData fileOk true rdLockOk cache m shmVer updData
        readLocked = ([], [cache], cache, true) := by
  simp [sr_modcache_module_running_update, hfind, hnl, hne]

lemma fresh_ver_ne (cache : ModCache) (m shmVer : Nat) (e : CacheMod)
    (hall : ∀ x ∈ cache.mods, x.lyMod = m → x.ver ≤ shmVer) (hnz : 1 ≤ shmVer)
    (hfind : cacheFind cache m = some e) (hnl : ¬ e.ver < shmVer) :
    e.ver = shmVer ∧ e.ver ≠ 0 := by
  have hmem : e ∈ cache.mods := List.mem_of_find?_eq_some hfind
  have hp : e.lyMod = m := by
    have h := List.find?_some hfind
    simpa using h
  have heq : e.ver = shmVer := le_antisymm (hall e hmem hp) (Nat.le_of_not_lt hnl)
  exact ⟨heq, by omega⟩

lemma cacheInstall_bound (fileData : Nat → Nat) (fileOk rdLockOk : Bool) (evs : List CacheEv)
    (snaps : List ModCache) (c1 : ModCache) (m shmVer : Nat) (updData : Option Nat)
    (readLocked : Bool)
    (hsn : ∀ s ∈ snaps, ∀ x ∈ s.mods, x.lyMod = m → x.ver ≤ shmVer)
    (hc1 : ∀ x ∈ c1.mods, x.lyMod = m → x.ver ≤ shmVer) :
    (∀ s ∈ (cacheInstall fileData fileOk rdLockOk evs snaps c1 m shmVer updData
        readLocked).2.1, ∀ x ∈ s.mods, x.lyMod = m → x.ver ≤ shmVer) ∧
    ∀ x ∈ (cacheInstall fileData fileOk rdLockOk evs snaps c1 m shmVer updData
        readLocked).2.2.1.mods, x.lyMod = m → x.ver ≤ shmVer := by
  have hbump : ∀ x ∈ cacheSetVerFirst c1.mods m shmVer, x.lyMod = m → x.ver ≤ shmVer :=
    bound_setVerFirst c1.mods m shmVer shmVer hc1 le_rfl
  rcases updData with _ | d
  · cases fileOk
    · rw [cacheInstall_none_fail]
      exact ⟨hsn, hc1⟩
    · rw [cacheInstall_none_ok]
      refine ⟨?_, hbump⟩
      intro s hs
      rcases List.mem_append.mp hs with h | h
      · exact hsn s h
      · simp only [List.mem_cons, List.not_mem_nil, or_false] at h
        rcases h with rfl | rfl
        · exact hc1
        · exact hbump
  · rw [cacheInstall_some]
    refine ⟨?_, hbump⟩
    intro s hs
    rcases List.mem_append.mp hs with h | h
    · exact hsn s h
    · simp only [List.mem_cons, List.not_mem_nil, or_false] at h
      rcases h with rfl | rfl
      · exact hc1
      · exact hbump

lemma update_bound (fileData : Nat → Nat) (fileOk rdLockOk : Bool) (cache : ModCache)
    (m shmVer : Nat) (updData : Option Nat) (readLocked : Bool)
    (hall : ∀ e ∈ cache.mods, e.lyMod = m → e.ver ≤ shmVer)
    (hnz : 1 ≤ shmVer) :
    (∀ s ∈ (sr_modcache_module_running_update fileData fileOk true rdLockOk cache m shmVer
        updData readLocked).2.1, ∀ x ∈ s.mods, x.lyMod = m → x.ver ≤ shmVer) ∧
    ∀ x ∈ (sr_modcache_module_running_update fileData fileOk true rdLockOk cache m shmVer
        updData readLocked).2.2.1.mods, x.lyMod = m → x.ver ≤ shmVer := by
  rcases hfind : cacheFind cache m with _ | e
  · rw [upd_eq_notfound fileData fileOk rdLockOk cache m shmVer updData readLocked hfind]
    have hc1 : ∀ x ∈ cache.mods ++ [({ lyMod := m, ver := 0 } : CacheMod)],
        x.lyMod = m → x.ver ≤ shmVer := by
      intro x hx hm
      rcases List.mem_append.mp hx with h | h
      · exact hall x h hm
      · simp only [List.mem_cons, List.not_mem_nil, or_false] at h
        subst h
        exact Nat.zero_le _
    refine cacheInstall_bound fileData fileOk rdLockOk _ _ _ m shmVer updData readLocked
      ?_ hc1
    intro s hs
    simp only [List.mem_cons, List.not_mem_nil, or_false] at hs
    rcases hs with rfl | rfl
    · exact hall
    · exact hc1
  · by_cases hst : e.ver < shmVer
    · rw [upd_eq_stale fileData fileOk rdLockOk cache m shmVer updData readLocked e hfind
        hst]
      have hc1 : ∀ x ∈ cacheSetVerFirst cache.mods m 0, x.lyMod = m → x.ver ≤ shmVer :=
        bound_setVerFirst cache.mods m 0 shmVer hall (Nat.zero_le _)
      refine cacheInstall_bound fileData fileOk rdLockOk _ _ _ m shmVer updData readLocked
        ?_ hc1
      intro s hs
      simp only [List.mem_cons, List.not_mem_nil, or_false] at hs
      rcases hs with rfl | rfl
      · exact hall
      · exact hc1
    · have hv := fresh_ver_ne cache m shmVer e hall hnz hfind hst
      rw [upd_eq_fresh fileData fileOk rdLockOk cache m shmVer updData readLocked e hfind
        hst hv.2]
      refine ⟨?_, hall⟩
      intro s hs
      simp only [List.mem_cons, List.not_mem_nil, or_false] at hs
      subst hs
      exact hall

/-- C4 (corrected): for a module whose descriptor version is at least 1
(any module after its first running-data write), the running-data cache
update refreshes a cached module exactly when the cached version is
strictly below the descriptor version: in that case the stale tree is
dropped under the cache WRITE lock, the caller-supplied data (or,
absent those, the running-file data) are installed, and the cached
version is set to the descriptor version; a fresh entry (version
already equal) is left untouched with no events; a drop happens only
for a stale entry; and no cache snapshot ever holds a cached version
above the descriptor version.  The unrestricted claim is false at
descriptor version 0, where a cached entry at version 0 is
re-installed although it is not strictly older (see the
counterexample). -/
theorem C4_cache_refresh (fileData : Nat → Nat) (fileOk rdLockOk : Bool)
    (cache : ModCache) (m shmVer : Nat) (updData : Option Nat) (readLocked : Bool)
    (hall : ∀ e ∈ cache.mods, e.lyMod = m → e.ver ≤ shmVer)
    (hnz : 1 ≤ shmVer) :
    (∀ e d, cacheFind cache m = some e → e.ver < shmVer → updData = some d →
      (sr_modcache_module_running_update fileData fileOk true rdLockOk cache m shmVer
          updData readLocked).1 =
        (if readLocked then [CacheEv.rdUnlock] else []) ++
          [CacheEv.wrLock, CacheEv.drop m, CacheEv.install m d, CacheEv.wrUnlock] ++
          (if readLocked then [CacheEv.rdLock] else []) ∧
      (cacheFind (sr_modcache_module_running_update fileData fileOk true rdLockOk cache m
          shmVer updData readLocked).2.2.1 m).map CacheMod.ver = some shmVer ∧
      cacheDataOf (sr_modcache_module_running_update fileData fileOk true rdLockOk cache m
          shmVer updData readLocked).2.2.1 m = [(m, d)]) ∧
    (∀ e, cacheFind cache m = some e → e.ver < shmVer → updData = none → fileOk = true →
      (sr_modcache_module_running_update fileData fileOk true rdLockOk cache m shmVer
          updData readLocked).1 =
        (if readLocked then [CacheEv.rdUnlock] else []) ++
          [CacheEv.wrLock, CacheEv.drop m, CacheEv.install m (fileData m),
            CacheEv.wrUnlock] ++
          (if readLocked then [CacheEv.rdLock] else []) ∧
      (cacheFind (sr_modcache_module_running_update fileData fileOk true rdLockOk cache m
          shmVer updData readLocked).2.2.1 m).map CacheMod.ver = some shmVer ∧
      cacheDataOf (sr_modcache_module_running_update fileData fileOk true rdLockOk cache m
          shmVer updData readLocked).2.2.1 m = [(m, fileData m)]) ∧
    (∀ e, cacheFind cache m = some e → ¬ e.ver < shmVer →
      sr_modcache_module_running_update fileData fileOk true rdLockOk cache m shmVer
          updData readLocked = ([], [cache], cache, true) ∧ e.ver = shmVer) ∧
    (CacheEv.drop m ∈ (sr_modcache_module_running_update fileData fileOk true rdLockOk cache
        m shmVer updData readLocked).1 →
      ∃ e, cacheFind cache m = some e ∧ e.ver < shmVer) ∧
    (∀ s ∈ (sr_modcache_module_running_update fileData fileOk true rdLockOk cache m shmVer
        updData readLocked).2.1, ∀ x ∈ s.mods, x.lyMod = m → x.ver ≤ shmVer) ∧
    ∀ x ∈ (sr_modcache_module_running_update fileData fileOk true rdLockOk cache m shmVer
        updData readLocked).2.2.1.mods, x.lyMod = m → x.ver ≤ shmVer := by
  refine ⟨?_, ?_, ?_, ?_, ?_, ?_⟩
  · intro e d hfind he hupd
    subst hupd
    rw [upd_eq_stale fileData fileOk rdLockOk cache m shmVer (some d) readLocked e hfind he,
      cacheInstall_some]
    have hf : cache.mods.find? (fun x => x.lyMod = m) = some e := hfind
    refine ⟨by simp, ?_, ?_⟩
    · simp [cacheFind, find_setVerFirst, hf]
    · simp [cacheDataOf, List.filter_append, dataOf_drop_nil]
  · intro e hfind he hupd hok
    subst hupd
    subst hok
    rw [upd_eq_stale fileData true rdLockOk cache m shmVer none readLocked e hfind he,
      cacheInstall_none_ok]
    have hf : cache.mods.find? (fun x => x.lyMod = m) = some e := hfind
    refine ⟨by simp, ?_, ?_⟩
    · simp [cacheFind, find_setVerFirst, hf]
    · simp [cacheDataOf, List.filter_append, dataOf_drop_nil]
  · intro e hfind he
    have hv := fresh_ver_ne cache m shmVer e hall hnz hfind he
    exact ⟨upd_eq_fresh fileData fileOk rdLockOk cache m shmVer updData readLocked e hfind
      he hv.2, hv.1⟩
  · intro hdrop
    rcases hfind : cacheFind cache m with _ | e
    · exfalso
      rw [upd_eq_notfound fileData fileOk rdLockOk cache m shmVer updData readLocked
        hfind] at hdrop
      rcases updData with _ | d <;> cases fileOk <;> cases readLocked <;>
        simp [cacheInstall] at hdrop
    · by_cases hst : e.ver < shmVer
      · exact ⟨e, rfl, hst⟩
      · exfalso
        have hv := fresh_ver_ne cache m shmVer e hall hnz hfind hst
        rw [upd_eq_fresh fileData fileOk rdLockOk cache m shmVer updData readLocked e hfind
          hst hv.2] at hdrop
        simp at hdrop
  · exact (update_bound fileData fileOk rdLockOk cache m shmVer updData readLocked
      hall hnz).1
  · exact (update_bound fileData fileOk rdLockOk cache m shmVer updData readLocked
      hall hnz).2

/-- Witness for C4: a cache holding module 1 at version 2 against
descriptor version 3 with caller-supplied data 99 is refreshed: events
drop then install under the WRITE lock, final version 3, final data of
module 1 exactly the supplied payload. -/
theorem C4_cache_refresh_witness :
    (sr_modcache_module_running_update (fun _ => 7) true true true
        { mods := [{ lyMod := 1, ver := 2 }], data := [(1, 50)] } 1 3 (some 99) true).1 =
      (if true then [CacheEv.rdUnlock] else []) ++
        [CacheEv.wrLock, CacheEv.drop 1, CacheEv.install 1 99, CacheEv.wrUnlock] ++
        (if true then [CacheEv.rdLock] else []) ∧
    (cacheFind (sr_modcache_module_running_update (fun _ => 7) true true true
        { mods := [{ lyMod := 1, ver := 2 }], data := [(1, 50)] } 1 3
        (some 99) true).2.2.1 1).map CacheMod.ver = some 3 ∧
    cacheDataOf (sr_modcache_module_running_update (fun _ => 7) true true true
        { mods := [{ lyMod := 1, ver := 2 }], data := [(1, 50)] } 1 3
        (some 99) true).2.2.1 1 = [(1, 99)] :=
  (C4_cache_refresh (fun _ => 7) true true
      { mods := [{ lyMod := 1, ver := 2 }], data := [(1, 50)] } 1 3 (some 99) true
      (by intro e he hm; simp at he; subst he; decide) (by decide)).1
    { lyMod := 1, ver := 2 } 99 (by decide) (by decide) rfl

/-- Counterexample for C4 as frozen: with descriptor version 0 (a module
before its first running write) and a cached entry of module 1 at
version 0 holding data, the cached version is not strictly below the
descriptor version, yet the update re-enters the install block
(part_000 line 808, keyed on `!mod_cache->mods[i].ver`): it installs
the supplied data again without dropping the old tree and without ever
taking the cache WRITE lock (the trace holds an install and a WRITE
unlock but no WRITE lock and no drop), leaving the payload duplicated
in the cached forest. -/
theorem C4_cache_refresh_counterexample :
    (cacheFind { mods := [{ lyMod := 1, ver := 0 }], data := [(1, 50)] } 1).map
        CacheMod.ver = some 0 ∧
    ¬ (0 : Nat) < 0 ∧
    (sr_modcache_module_running_update (fun _ => 7) true true true
        { mods := [{ lyMod := 1, ver := 0 }], data := [(1, 50)] } 1 0 (some 99) false).1 =
      [CacheEv.install 1 99, CacheEv.wrUnlock] ∧
    CacheEv.wrLock ∉ (sr_modcache_module_running_update (fun _ => 7) true true true
        { mods := [{ lyMod := 1, ver := 0 }], data := [(1, 50)] } 1 0 (some 99) false).1 ∧
    CacheEv.drop 1 ∉ (sr_modcache_module_running_update (fun _ => 7) true true true
        { mods := [{ lyMod := 1, ver := 0 }], data := [(1, 50)] } 1 0 (some 99) false).1 ∧
    cacheDataOf (sr_modcache_module_running_update (fun _ => 7) true true true
        { mods := [{ lyMod := 1, ver := 0 }], data := [(1, 50)] } 1 0
        (some 99) false).2.2.1 1 = [(1, 50), (1, 99)] := by
  decide

lemma goodChar_spec (c : Char) (h : goodChar c = true) :
    c ≠ chNul ∧ c ≠ chSlash ∧ c ≠ chColon ∧ c ≠ chLBr ∧ c ≠ chRBr ∧ c ≠ chEq ∧
      c ≠ chSQuot ∧ c ≠ chDQuot ∧ c ≠ chStar ∧ c ≠ chDot := by
  simp only [goodChar, decide_eq_true_eq, List.mem_cons, List.not_mem_nil, or_false] at h
  push_neg at h
  exact h

lemma nameChar_ne (c : Char) (h : goodChar c = true ∨ c = chStar) :
    c ≠ chSlash ∧ c ≠ chColon ∧ c ≠ chLBr := by
  rcases h with h | rfl
  · have hs := goodChar_spec c h
    exact ⟨hs.2.1, hs.2.2.1, hs.2.2.2.1⟩
  · exact ⟨by decide, by decide, by decide⟩

lemma nnScan_app (mod : Option (List Char)) (acc name : List Char) (t : List Char)
    (hne : name ≠ [])
    (hn : ∀ c ∈ name, goodChar c = true ∨ c = chStar)
    (ht : t = [] ∨ t.head? = some chLBr ∨ t.head? = some chSlash) :
    nnScan mod acc (name ++ t) =
      (mod, acc.reverse ++ name, t, decide (t.head? = some chLBr)) := by
  induction name generalizing acc with
  | nil => exact absurd rfl hne
  | cons c cs ih =>
    have hc := nameChar_ne c (hn c (List.mem_cons_self _ _))
    cases cs with
    | nil =>
      rcases ht with rfl | hlb | hsl
      · simp [nnScan, hc.1, hc.2.1]
      · rcases t with _ | ⟨d, t2⟩
        · simp at hlb
        · simp only [List.head?] at hlb
          injection hlb with hd
          subst hd
          simp [nnScan, hc.1, hc.2.1]
      · rcases t with _ | ⟨d, t2⟩
        · simp at hsl
        · simp only [List.head?] at hsl
          injection hsl with hd
          subst hd
          have h2 : chSlash ≠ chLBr := by decide
          have h3 : nnScan mod (c :: acc) (chSlash :: t2) =
              (mod, (c :: acc).reverse, chSlash :: t2, false) := by
            simp [nnScan.eq_def]
          simp [nnScan, hc.1, hc.2.1, h2, h3]
    | cons d ds =>
      have hd := nameChar_ne d (hn d (List.mem_cons_of_mem _ (List.mem_cons_self _ _)))
      have step : nnScan mod acc ((c :: d :: ds) ++ t) =
          nnScan mod (c :: acc) ((d :: ds) ++ t) := by
        simp [nnScan, hc.1, hc.2.1, hd.2.2]
      rw [step, ih (c :: acc) (by simp) (fun x hx => hn x (List.mem_cons_of_mem _ hx))]
      simp

lemma nnScan_mod (acc m : List Char) (d : Char) (rest : List Char)
    (hm : ∀ c ∈ m, goodChar c = true)
    (hd : d ≠ chLBr) :
    nnScan none acc (m ++ chColon :: d :: rest) =
      nnScan (some (acc.reverse ++ m)) [] (d :: rest) := by
  induction m generalizing acc with
  | nil =>
    have h1 : chColon ≠ chSlash := by decide
    simp [nnScan, h1, hd]
  | cons c cs ih =>
    have hc := goodChar_spec c (hm c (List.mem_cons_self _ _))
    have step : nnScan none acc ((c :: cs) ++ chColon :: d :: rest) =
        nnScan none (c :: acc) (cs ++ chColon :: d :: rest) := by
      cases cs with
      | nil =>
        have h2 : chColon ≠ chLBr := by decide
        simp [nnScan, hc.2.1, hc.2.2.1, h2]
      | cons e es =>
        have he := goodChar_spec e (hm e (List.mem_cons_of_mem _ (List.mem_cons_self _ _)))
        simp [nnScan, hc.2.1, hc.2.2.1, he.2.2.2.1]
    rw [step, ih (c :: acc) (fun x hx => hm x (List.mem_cons_of_mem _ hx))]
    simp

lemma goodSeg_spec (l : List Char) (h : goodSeg l = true) :
    l ≠ [] ∧ ∀ c ∈ l, goodChar c = true := by
  simp only [goodSeg, Bool.and_eq_true, List.all_eq_true] at h
  refine ⟨?_, h.2⟩
  cases l
  · simp at h
  · simp

lemma wfStep_spec (s : XStep) (h : wfStep s = true) :
    s.dslash = false ∧
    (∀ m, s.mod = some m → goodSeg m = true) ∧
    (goodSeg s.name = true ∨ s.name = [chStar]) ∧
    (s.preds = [] ∨ ∃ p, s.preds = [p] ∧ goodSeg p.1 = true ∧ p.2.all goodChar = true) := by
  rcases s with ⟨ds, mod, name, preds⟩
  cases ds
  · refine ⟨rfl, ?_, ?_, ?_⟩
    · intro m hm
      rcases mod with _ | m0
      · exact absurd hm (by simp)
      · simp only [wfStep, Bool.and_eq_true] at h
        injection hm with hm0
        subst hm0
        exact h.1.1.2
    · simp only [wfStep, Bool.and_eq_true, Bool.or_eq_true, decide_eq_true_eq] at h
      exact h.1.2
    · rcases preds with _ | ⟨p, rest⟩
      · exact Or.inl rfl
      · rcases rest with _ | ⟨q, rest2⟩
        · simp only [wfStep, Bool.and_eq_true, decide_eq_true_eq] at h
          exact Or.inr ⟨p, rfl, h.2.1, h.2.2⟩
        · simp [wfStep] at h
  · simp [wfStep] at h

lemma renderStep_head (b : XStep) : ∃ rest, renderStep b = chSlash :: rest := by
  cases hb : b.dslash <;> simp [renderStep, hb]

lemma render_cons (a : XStep) (R : List XStep) :
    render (a :: R) = renderStep a ++ render R := by
  simp [render]

lemma render_cons_ne (a : XStep) (R : List XStep) : render (a :: R) ≠ [] := by
  rcases renderStep_head a with ⟨rest, hr⟩
  simp [render_cons, hr]

lemma nameChars (s : XStep) (h : goodSeg s.name = true ∨ s.name = [chStar]) :
    ∀ c ∈ s.name, goodChar c = true ∨ c = chStar := by
  intro c hc
  rcases h with h | h
  · exact Or.inl ((goodSeg_spec _ h).2 c hc)
  · rw [h] at hc
    simp only [List.mem_cons, List.not_mem_nil, or_false] at hc
    exact Or.inr hc

lemma name_ne_nil (s : XStep) (h : goodSeg s.name = true ∨ s.name = [chStar]) :
    s.name ≠ [] := by
  rcases h with h | h
  · exact (goodSeg_spec _ h).1
  · rw [h]
    simp

lemma cont_classify (a : XStep) (R : List XStep)
    (hp : a.preds = [] ∨ ∃ p, a.preds = [p] ∧ goodSeg p.1 = true ∧ p.2.all goodChar = true) :
    ((a.preds.map renderPred).flatten ++ render R = [] ∨
      ((a.preds.map renderPred).flatten ++ render R).head? = some chLBr ∨
      ((a.preds.map renderPred).flatten ++ render R).head? = some chSlash) ∧
    (decide (((a.preds.map renderPred).flatten ++ render R).head? = some chLBr) =
      decide (a.preds ≠ [])) := by
  rcases hp with hp | ⟨p, hp, _, _⟩
  · rw [hp]
    rcases R with _ | ⟨b, R2⟩
    · simp [render]
    · rcases renderStep_head b with ⟨rest, hr⟩
      rw [render_cons, hr]
      constructor
      · simp
      · have h1 : chSlash ≠ chLBr := by decide
        simp [h1]
  · rw [hp]
    constructor
    · right
      left
      simp [renderPred]
    · simp [renderPred]

lemma next_name_render (a : XStep) (R : List XStep) (hwf : wfStep a = true) :
    sr_xpath_next_name (render (a :: R)) =
      (a.mod, a.name, (a.preds.map renderPred).flatten ++ render R, false,
        decide (a.preds ≠ [])) := by
  obtain ⟨hds, hmod, hname, hpreds⟩ := wfStep_spec a hwf
  obtain ⟨hcls, hdec⟩ := cont_classify a R hpreds
  have hnn := name_ne_nil a hname
  have hnc := nameChars a hname
  rcases hhead : a.name with _ | ⟨c0, cs0⟩
  · exact absurd hhead hnn
  rw [← hhead]
  have hc0 := nameChar_ne c0 (hnc c0 (by rw [hhead]; exact List.mem_cons_self _ _))
  rcases hm : a.mod with _ | m
  · have hbody : render (a :: R) =
        chSlash :: (a.name ++ ((a.preds.map renderPred).flatten ++ render R)) := by
      rw [render_cons, renderStep, hds, hm]
      simp
    rw [hbody]
    have hh : (a.name ++ ((a.preds.map renderPred).flatten ++ render R)).head? ≠
        some chSlash := by
      rw [hhead]
      simp only [List.cons_append, List.head?]
      intro hcon
      injection hcon with hcon
      exact hc0.1 hcon
    rcases hhh : a.name ++ ((a.preds.map renderPred).flatten ++ render R) with _ | ⟨d, t⟩
    · rw [hhead] at hhh
      simp at hhh
    · have hd : d ≠ chSlash := by
        rw [hhh] at hh
        simp only [List.head?] at hh
        intro hcon
        exact hh (by rw [hcon])
      have : sr_xpath_next_name (chSlash :: d :: t) =
          (match nnScan none [] (d :: t) with
           | (m, n, r, hp) => (m, n, r, false, hp)) := by
        simp [sr_xpath_next_name, hd]
      rw [this, ← hhh, nnScan_app none [] a.name _ hnn hnc hcls]
      simp [hdec]
  · have hgm := hmod m hm
    obtain ⟨hmne, hmg⟩ := goodSeg_spec m hgm
    have hbody : render (a :: R) =
        chSlash :: (m ++ chColon :: (a.name ++ ((a.preds.map renderPred).flatten ++
          render R))) := by
      rw [render_cons, renderStep, hds, hm]
      simp
    rw [hbody]
    rcases hmm : m with _ | ⟨e0, es0⟩
    · exact absurd hmm hmne
    rw [← hmm]
    have he0 := goodChar_spec e0 (hmg e0 (by rw [hmm]; exact List.mem_cons_self _ _))
    have hh2 : (m ++ chColon :: (a.name ++ ((a.preds.map renderPred).flatten ++
        render R))).head? = some e0 := by
      rw [hmm]
      simp
    rcases hhh : m ++ chColon :: (a.name ++ ((a.preds.map renderPred).flatten ++
        render R)) with _ | ⟨d, t⟩
    · rw [hhh] at hh2
      simp at hh2
    · rw [hhh] at hh2
      simp only [List.head?] at hh2
      injection hh2 with hh2
      have hd : d ≠ chSlash := by
        rw [hh2]
        exact he0.2.1
      have hstep : sr_xpath_next_name (chSlash :: d :: t) =
          (match nnScan none [] (d :: t) with
           | (m2, n, r, hp) => (m2, n, r, false, hp)) := by
        simp [sr_xpath_next_name, hd]
      rw [hstep, ← hhh]
      have hnn2 : a.name = c0 :: cs0 := hhead
      have hlk : c0 ≠ chLBr := hc0.2.2
      have hmodstep : nnScan none [] (m ++ chColon :: (a.name ++
          ((a.preds.map renderPred).flatten ++ render R))) =
          nnScan (some m) [] (a.name ++ ((a.preds.map renderPred).flatten ++ render R)) := by
        rw [hnn2]
        have := nnScan_mod [] m c0 (cs0 ++ ((a.preds.map renderPred).flatten ++ render R))
          hmg hlk
        simpa using this
      rw [hmodstep, nnScan_app (some m) [] a.name _ hnn hnc hcls]
      simp [hdec]

lemma drop_cons_char (p : List Char) (i : Nat) (c : Char) (t : List Char)
    (h : p.drop i = c :: t) : prChar p i = c ∧ p.drop (i + 1) = t := by
  constructor
  · induction i generalizing p with
    | zero =>
      simp only [List.drop_zero] at h
      subst h
      rfl
    | succ j ih =>
      cases p with
      | nil => simp at h
      | cons x p2 =>
        simp only [List.drop_succ_cons] at h
        exact ih p2 h
  · have h2 : p.drop (i + 1) = (p.drop i).drop 1 := by
      rw [List.drop_drop, Nat.add_comm]
    rw [h2, h]
    rfl

lemma npScanLen_ord (k : List Char) (t : List Char) (n : Nat)
    (hk : ∀ c ∈ k, c ≠ chRBr ∧ c ≠ chSQuot ∧ c ≠ chDQuot) :
    npScanLen none n (k ++ t) = npScanLen none (n + k.length) t := by
  induction k generalizing n with
  | nil => simp
  | cons c cs ih =>
    have hc := hk c (List.mem_cons_self _ _)
    have step : npScanLen none n ((c :: cs) ++ t) = npScanLen none (n + 1) (cs ++ t) := by
      have hq : ¬(c = chSQuot ∨ c = chDQuot) := by
        intro hcon
        rcases hcon with hcon | hcon
        · exact hc.2.1 hcon
        · exact hc.2.2 hcon
      simp [npScanLen, hc.1, hq]
    rw [step, ih (n + 1) (fun x hx => hk x (List.mem_cons_of_mem _ hx))]
    have : n + 1 + cs.length = n + (cs.length + 1) := by omega
    rw [this]
    rfl

lemma npScanLen_quoted (q : Char) (v : List Char) (t : List Char) (n : Nat)
    (hv : ∀ c ∈ v, c ≠ q) :
    npScanLen (some q) n (v ++ q :: t) = npScanLen none (n + v.length + 1) t := by
  induction v generalizing n with
  | nil => simp [npScanLen]
  | cons c cs ih =>
    have hc := hv c (List.mem_cons_self _ _)
    have step : npScanLen (some q) n ((c :: cs) ++ q :: t) =
        npScanLen (some q) (n + 1) (cs ++ q :: t) := by
      simp [npScanLen, hc]
    rw [step, ih (n + 1) (fun x hx => hv x (List.mem_cons_of_mem _ hx))]
    have h3 : n + 1 + cs.length + 1 = n + (c :: cs).length + 1 := by
      simp
      omega
    rw [h3]

lemma next_predicate_render (k v : List Char) (cont : List Char)
    (hk : goodSeg k = true) (hv : v.all goodChar = true) :
    sr_xpath_next_predicate (renderPred (k, v) ++ cont) =
      some (k ++ chEq :: chDQuot :: v ++ chDQuot :: chRBr :: cont,
        k.length + v.length + 3, false, cont) := by
  obtain ⟨hkne, hkg⟩ := goodSeg_spec k hk
  have hvg : ∀ c ∈ v, goodChar c = true := by
    simpa [List.all_eq_true] using hv
  have hdrop : (renderPred (k, v) ++ cont).drop 1 =
      (k ++ [chEq]) ++ chDQuot :: (v ++ chDQuot :: chRBr :: cont) := by
    simp [renderPred]
  have hscan : npScanLen none 0 ((k ++ [chEq]) ++ chDQuot ::
      (v ++ chDQuot :: chRBr :: cont)) =
      some (k.length + v.length + 3, chRBr :: cont) := by
    rw [npScanLen_ord (k ++ [chEq]) _ 0 ?hkk]
    case hkk =>
      intro c hc
      rcases List.mem_append.mp hc with h | h
      · have hs := goodChar_spec c (hkg c h)
        exact ⟨hs.2.2.2.2.1, hs.2.2.2.2.2.2.1, hs.2.2.2.2.2.2.2.1⟩
      · simp only [List.mem_cons, List.not_mem_nil, or_false] at h
        subst h
        exact ⟨by decide, by decide, by decide⟩
    have hq : chDQuot = chSQuot ∨ chDQuot = chDQuot := Or.inr rfl
    have step2 : npScanLen none (0 + (k ++ [chEq]).length)
        (chDQuot :: (v ++ chDQuot :: chRBr :: cont)) =
        npScanLen (some chDQuot) (0 + (k ++ [chEq]).length + 1)
          (v ++ chDQuot :: chRBr :: cont) := by
      have h1 : chDQuot ≠ chRBr := by decide
      simp [npScanLen, h1]
    rw [step2, npScanLen_quoted chDQuot v _ _ ?hvq]
    case hvq =>
      intro c hc
      exact (goodChar_spec c (hvg c hc)).2.2.2.2.2.2.2.1
    have h2 : chRBr = chRBr := rfl
    have hfin : npScanLen none (0 + (k ++ [chEq]).length + 1 + v.length + 1)
        (chRBr :: cont) =
        some (0 + (k ++ [chEq]).length + 1 + v.length + 1, chRBr :: cont) := by
      simp [npScanLen]
    rw [hfin]
    have : 0 + (k ++ [chEq]).length + 1 + v.length + 1 = k.length + v.length + 3 := by
      simp
      omega
    rw [this]
  have hfalse : decide (chRBr.toNat + 1 = chLBr.toNat) = false := by decide
  simp only [sr_xpath_next_predicate, hdrop, hscan, hfalse]
  simp [renderPred]

lemma prNames_head_ne (p1 p2 : List Char) (i j x y : Nat)
    (h : prChar p1 i ≠ prChar p2 j) :
    prNames p1 p2 i (x + 1) j (y + 1) = none := by
  simp [prNames, h]

lemma prNames_step (p1 p2 : List Char) (i j x y : Nat) (h : prChar p1 i = prChar p2 j)
    (hb : ¬(prChar p1 (i + 1) = chEq ∧ prChar p2 (j + 1) = chEq)) :
    prNames p1 p2 i (x + 1) j (y + 1) = prNames p1 p2 (i + 1) x (j + 1) y := by
  simp [prNames, h, hb]

lemma prNames_break (p1 p2 : List Char) (i j x y : Nat) (h : prChar p1 i = prChar p2 j)
    (hb1 : prChar p1 (i + 1) = chEq) (hb2 : prChar p2 (j + 1) = chEq)
    (hxy : ¬(x = 0 ∨ y = 0)) :
    prNames p1 p2 i (x + 1) j (y + 1) = some (i + 2, x - 1, j + 2, y - 1) := by
  simp [prNames, h, hb1, hb2, hxy]

lemma prNames_eq_keys (p1 p2 : List Char) (k r1 r2 : List Char) (i1 i2 m1 m2 : Nat)
    (hk : k ≠ []) (hkg : ∀ c ∈ k, goodChar c = true)
    (h1 : p1.drop i1 = k ++ chEq :: r1) (h2 : p2.drop i2 = k ++ chEq :: r2) :
    prNames p1 p2 i1 (k.length + 1 + m1) i2 (k.length + 1 + m2) =
      some (i1 + k.length + 1, m1, i2 + k.length + 1, m2) := by
  induction k generalizing i1 i2 with
  | nil => exact absurd rfl hk
  | cons c cs ih =>
    obtain ⟨hc1, hd1⟩ := drop_cons_char p1 i1 c (cs ++ chEq :: r1) (by simpa using h1)
    obtain ⟨hc2, hd2⟩ := drop_cons_char p2 i2 c (cs ++ chEq :: r2) (by simpa using h2)
    have hcc : prChar p1 i1 = prChar p2 i2 := by rw [hc1, hc2]
    cases cs with
    | nil =>
      obtain ⟨he1, _⟩ := drop_cons_char p1 (i1 + 1) chEq r1 (by simpa using hd1)
      obtain ⟨he2, _⟩ := drop_cons_char p2 (i2 + 1) chEq r2 (by simpa using hd2)
      have e1 : (c :: ([] : List Char)).length + 1 + m1 = (m1 + 1) + 1 := by
        simp only [List.length_cons, List.length_nil]
        omega
      have e2 : (c :: ([] : List Char)).length + 1 + m2 = (m2 + 1) + 1 := by
        simp only [List.length_cons, List.length_nil]
        omega
      rw [e1, e2, prNames_break p1 p2 i1 i2 (m1 + 1) (m2 + 1) hcc he1 he2 (by omega)]
      simp only [Option.some.injEq, Prod.mk.injEq, List.length_cons, List.length_nil,
        true_and, and_true]
      omega
    | cons d cs2 =>
      have hdg := goodChar_spec d (hkg d (List.mem_cons_of_mem _ (List.mem_cons_self _ _)))
      obtain ⟨hcd, _⟩ := drop_cons_char p1 (i1 + 1) d (cs2 ++ chEq :: r1)
        (by simpa using hd1)
      have hb : ¬(prChar p1 (i1 + 1) = chEq ∧ prChar p2 (i2 + 1) = chEq) := by
        rw [hcd]
        intro hcon
        exact hdg.2.2.2.2.2.1 hcon.1
      have e1 : (c :: d :: cs2).length + 1 + m1 = ((d :: cs2).length + 1 + m1) + 1 := by
        simp only [List.length_cons]
        omega
      have e2 : (c :: d :: cs2).length + 1 + m2 = ((d :: cs2).length + 1 + m2) + 1 := by
        simp only [List.length_cons]
        omega
      rw [e1, e2, prNames_step p1 p2 i1 i2 _ _ hcc hb,
        ih (i1 + 1) (i2 + 1) (by simp) (fun x hx => hkg x (List.mem_cons_of_mem _ hx))
          hd1 hd2]
      simp only [Option.some.injEq, Prod.mk.injEq, List.length_cons, true_and, and_true]
      omega

lemma prNames_ne_keys (p1 p2 : List Char) (k1 k2 r1 r2 : List Char) (i1 i2 m1 m2 : Nat)
    (hk1 : k1 ≠ []) (hk1g : ∀ c ∈ k1, goodChar c = true)
    (hk2 : k2 ≠ []) (hk2g : ∀ c ∈ k2, goodChar c = true) (hne : k1 ≠ k2)
    (h1 : p1.drop i1 = k1 ++ chEq :: r1) (h2 : p2.drop i2 = k2 ++ chEq :: r2) :
    prNames p1 p2 i1 (k1.length + 1 + m1) i2 (k2.length + 1 + m2) = none := by
  induction k1 generalizing k2 i1 i2 with
  | nil => exact absurd rfl hk1
  | cons c cs ih =>
    rcases k2 with _ | ⟨d, ds⟩
    · exact absurd rfl hk2
    obtain ⟨hc1, hd1⟩ := drop_cons_char p1 i1 c (cs ++ chEq :: r1) (by simpa using h1)
    obtain ⟨hc2, hd2⟩ := drop_cons_char p2 i2 d (ds ++ chEq :: r2) (by simpa using h2)
    have e1 : (c :: cs).length + 1 + m1 = (cs.length + 1 + m1) + 1 := by
      simp only [List.length_cons]
      omega
    have e2 : (d :: ds).length + 1 + m2 = (ds.length + 1 + m2) + 1 := by
      simp only [List.length_cons]
      omega
    rw [e1, e2]
    by_cases hcd : c = d
    · subst hcd
      have hcc : prChar p1 i1 = prChar p2 i2 := by rw [hc1, hc2]
      rcases cs with _ | ⟨e, es⟩
      · rcases ds with _ | ⟨f, fs⟩
        · exact absurd rfl hne
        · obtain ⟨he1, _⟩ := drop_cons_char p1 (i1 + 1) chEq r1 (by simpa using hd1)
          obtain ⟨hf2, _⟩ := drop_cons_char p2 (i2 + 1) f (fs ++ chEq :: r2)
            (by simpa using hd2)
          have hfg := goodChar_spec f (hk2g f (List.mem_cons_of_mem _
            (List.mem_cons_self _ _)))
          have hb : ¬(prChar p1 (i1 + 1) = chEq ∧ prChar p2 (i2 + 1) = chEq) := by
            rw [hf2]
            intro hcon
            exact hfg.2.2.2.2.2.1 hcon.2
          rw [prNames_step p1 p2 i1 i2 _ _ hcc hb]
          have e3 : ([] : List Char).length + 1 + m1 = m1 + 1 := by
            simp only [List.length_nil]
            omega
          have e4 : (f :: fs).length + 1 + m2 = (fs.length + 1 + m2) + 1 := by
            simp only [List.length_cons]
            omega
          rw [e3, e4]
          refine prNames_head_ne p1 p2 (i1 + 1) (i2 + 1) m1 (fs.length + 1 + m2) ?_
          rw [he1, hf2]
          intro hcon
          exact hfg.2.2.2.2.2.1 hcon.symm
      · obtain ⟨he1, _⟩ := drop_cons_char p1 (i1 + 1) e (es ++ chEq :: r1)
          (by simpa using hd1)
        have heg := goodChar_spec e (hk1g e (List.mem_cons_of_mem _
          (List.mem_cons_self _ _)))
        have hb : ¬(prChar p1 (i1 + 1) = chEq ∧ prChar p2 (i2 + 1) = chEq) := by
          rw [he1]
          intro hcon
          exact heg.2.2.2.2.2.1 hcon.1
        rw [prNames_step p1 p2 i1 i2 _ _ hcc hb]
        rcases ds with _ | ⟨f, fs⟩
        · obtain ⟨hf2, _⟩ := drop_cons_char p2 (i2 + 1) chEq r2 (by simpa using hd2)
          have e3 : (e :: es).length + 1 + m1 = (es.length + 1 + m1) + 1 := by
            simp only [List.length_cons]
            omega
          have e4 : ([] : List Char).length + 1 + m2 = m2 + 1 := by
            simp only [List.length_nil]
            omega
          rw [e3, e4]
          refine prNames_head_ne p1 p2 (i1 + 1) (i2 + 1) (es.length + 1 + m1) m2 ?_
          rw [he1, hf2]
          exact heg.2.2.2.2.2.1
        · exact ih (f :: fs) (i1 + 1) (i2 + 1) (by simp)
            (fun x hx => hk1g x (List.mem_cons_of_mem _ hx)) (by simp)
            (fun x hx => hk2g x (List.mem_cons_of_mem _ hx))
            (fun hcon => hne (by rw [hcon])) hd1 hd2
    · refine prNames_head_ne p1 p2 i1 i2 _ _ ?_
      rw [hc1, hc2]
      exact hcd

lemma scanVal_render (p : List Char) (q : Char) (v t : List Char) (i : Nat)
    (h : p.drop i = v ++ q :: t) (hv : ∀ c ∈ v, c ≠ q) :
    scanVal p q i (v.length + 1) = (i + v.length, 1) := by
  induction v generalizing i with
  | nil =>
    obtain ⟨hc, _⟩ := drop_cons_char p i q t (by simpa using h)
    simp [scanVal, hc]
  | cons c cs ih =>
    obtain ⟨hc, hd⟩ := drop_cons_char p i c (cs ++ q :: t) (by simpa using h)
    have hcq : prChar p i ≠ q := by
      rw [hc]
      exact hv c (List.mem_cons_self _ _)
    have e1 : (c :: cs).length + 1 = (cs.length + 1) + 1 := by
      simp only [List.length_cons]
    rw [e1]
    have step : scanVal p q i ((cs.length + 1) + 1) = scanVal p q (i + 1) (cs.length + 1) := by
      simp [scanVal, hcq]
    rw [step, ih (i + 1) hd (fun x hx => hv x (List.mem_cons_of_mem _ hx))]
    simp only [Prod.mk.injEq, List.length_cons, true_and, and_true]
    omega

lemma strncmp_vals (p1 p2 : List Char) (v1 v2 t1 t2 : List Char) (i1 i2 : Nat)
    (h1 : p1.drop i1 = v1 ++ chDQuot :: t1) (h2 : p2.drop i2 = v2 ++ chDQuot :: t2)
    (hv1 : ∀ c ∈ v1, goodChar c = true) (hv2 : ∀ c ∈ v2, goodChar c = true) :
    strncmpEq p1 i1 p2 i2 (max v1.length v2.length) = decide (v1 = v2) := by
  induction v1 generalizing v2 i1 i2 with
  | nil =>
    rcases v2 with _ | ⟨d, v2s⟩
    · simp [strncmpEq]
    · obtain ⟨hq1, _⟩ := drop_cons_char p1 i1 chDQuot t1 (by simpa using h1)
      obtain ⟨hd2, _⟩ := drop_cons_char p2 i2 d (v2s ++ chDQuot :: t2) (by simpa using h2)
      have hdg := goodChar_spec d (hv2 d (List.mem_cons_self _ _))
      have hne : prChar p1 i1 ≠ prChar p2 i2 := by
        rw [hq1, hd2]
        intro hcon
        exact hdg.2.2.2.2.2.2.2.1 hcon.symm
      have e1 : max ([] : List Char).length (d :: v2s).length = v2s.length + 1 := by
        simp
      rw [e1]
      simp [strncmpEq, hne]
  | cons c v1s ih =>
    have hcg := goodChar_spec c (hv1 c (List.mem_cons_self _ _))
    obtain ⟨hc1, hd1⟩ := drop_cons_char p1 i1 c (v1s ++ chDQuot :: t1) (by simpa using h1)
    rcases v2 with _ | ⟨d, v2s⟩
    · obtain ⟨hq2, _⟩ := drop_cons_char p2 i2 chDQuot t2 (by simpa using h2)
      have hne : prChar p1 i1 ≠ prChar p2 i2 := by
        rw [hc1, hq2]
        exact hcg.2.2.2.2.2.2.2.1
      have e1 : max (c :: v1s).length ([] : List Char).length = v1s.length + 1 := by
        simp
      rw [e1]
      simp [strncmpEq, hne]
    · obtain ⟨hd2, hdd2⟩ := drop_cons_char p2 i2 d (v2s ++ chDQuot :: t2) (by simpa using h2)
      have e1 : max (c :: v1s).length (d :: v2s).length =
          (max v1s.length v2s.length) + 1 := by
        simp only [List.length_cons]
        omega
      rw [e1]
      by_cases hcd : c = d
      · subst hcd
        have heq : prChar p1 i1 = prChar p2 i2 := by rw [hc1, hd2]
        have hnn : ¬prChar p1 i1 = chNul := by
          rw [hc1]
          exact hcg.1
        have hnn2 : ¬prChar p2 i2 = chNul := by
          rw [hd2]
          exact hcg.1
        have step : strncmpEq p1 i1 p2 i2 ((max v1s.length v2s.length) + 1) =
            strncmpEq p1 (i1 + 1) p2 (i2 + 1) (max v1s.length v2s.length) := by
          simp [strncmpEq, heq, hnn, hnn2]
        rw [step, ih v2s (i1 + 1) (i2 + 1) hd1 hdd2
          (fun x hx => hv1 x (List.mem_cons_of_mem _ hx))
          (fun x hx => hv2 x (List.mem_cons_of_mem _ hx))]
        simp
      · have hne : prChar p1 i1 ≠ prChar p2 i2 := by
          rw [hc1, hd2]
          exact hcd
        simp [strncmpEq, hne, hcd]

lemma pred_required_render (k1 v1 k2 v2 c1 c2 : List Char)
    (hk1 : goodSeg k1 = true) (hk2 : goodSeg k2 = true)
    (hv1 : v1.all goodChar = true) (hv2 : v2.all goodChar = true) :
    sr_xpath_oper_data_predicate_required
      (k1 ++ chEq :: chDQuot :: v1 ++ chDQuot :: chRBr :: c1) (k1.length + v1.length + 3)
      (k2 ++ chEq :: chDQuot :: v2 ++ chDQuot :: chRBr :: c2) (k2.length + v2.length + 3) =
      (decide (k1 ≠ k2) || decide (v1 = v2)) := by
  obtain ⟨hk1ne, hk1g⟩ := goodSeg_spec k1 hk1
  obtain ⟨hk2ne, hk2g⟩ := goodSeg_spec k2 hk2
  have hv1g : ∀ c ∈ v1, goodChar c = true := by simpa [List.all_eq_true] using hv1
  have hv2g : ∀ c ∈ v2, goodChar c = true := by simpa [List.all_eq_true] using hv2
  by_cases hkk : k1 = k2
  · subst hkk
    have el1 : k1.length + v1.length + 3 = k1.length + 1 + (v1.length + 2) := by omega
    have el2 : k1.length + v2.length + 3 = k1.length + 1 + (v2.length + 2) := by omega
    have hpr := prNames_eq_keys
      (k1 ++ chEq :: chDQuot :: v1 ++ chDQuot :: chRBr :: c1)
      (k1 ++ chEq :: chDQuot :: v2 ++ chDQuot :: chRBr :: c2)
      k1 (chDQuot :: v1 ++ chDQuot :: chRBr :: c1) (chDQuot :: v2 ++ chDQuot :: chRBr :: c2)
      0 0 (v1.length + 2) (v2.length + 2) hk1ne hk1g (by simp) (by simp)
    rw [sr_xpath_oper_data_predicate_required, el1, el2, hpr]
    dsimp only
    have hq1 : (k1 ++ chEq :: chDQuot :: v1 ++ chDQuot :: chRBr :: c1).drop
        (0 + k1.length + 1) = chDQuot :: v1 ++ chDQuot :: chRBr :: c1 := by
      have hstep : (k1 ++ chEq :: chDQuot :: v1 ++ chDQuot :: chRBr :: c1).drop k1.length =
          chEq :: chDQuot :: v1 ++ chDQuot :: chRBr :: c1 := by
        simp [List.drop_left]
      obtain ⟨_, h2⟩ := drop_cons_char _ k1.length chEq _ hstep
      simpa using h2
    have hq2 : (k1 ++ chEq :: chDQuot :: v2 ++ chDQuot :: chRBr :: c2).drop
        (0 + k1.length + 1) = chDQuot :: v2 ++ chDQuot :: chRBr :: c2 := by
      have hstep : (k1 ++ chEq :: chDQuot :: v2 ++ chDQuot :: chRBr :: c2).drop k1.length =
          chEq :: chDQuot :: v2 ++ chDQuot :: chRBr :: c2 := by
        simp [List.drop_left]
      obtain ⟨_, h2⟩ := drop_cons_char _ k1.length chEq _ hstep
      simpa using h2
    obtain ⟨hqc1, hqd1⟩ := drop_cons_char _ (0 + k1.length + 1) chDQuot _ hq1
    obtain ⟨hqc2, hqd2⟩ := drop_cons_char _ (0 + k1.length + 1) chDQuot _ hq2
    rw [hqc1, hqc2]
    have hqcond : ¬((chDQuot ≠ chSQuot ∧ chDQuot ≠ chDQuot) ∨
        (chDQuot ≠ chSQuot ∧ chDQuot ≠ chDQuot)) := by decide
    rw [if_neg hqcond]
    have hsv1 : scanVal (k1 ++ chEq :: chDQuot :: v1 ++ chDQuot :: chRBr :: c1) chDQuot
        (0 + k1.length + 1 + 1) (v1.length + 2 - 1) =
        (0 + k1.length + 1 + 1 + v1.length, 1) := by
      have e3 : v1.length + 2 - 1 = v1.length + 1 := by omega
      rw [e3]
      exact scanVal_render _ chDQuot v1 (chRBr :: c1) _ (by simpa using hqd1)
        (fun x hx => (goodChar_spec x (hv1g x hx)).2.2.2.2.2.2.2.1)
    have hsv2 : scanVal (k1 ++ chEq :: chDQuot :: v2 ++ chDQuot :: chRBr :: c2) chDQuot
        (0 + k1.length + 1 + 1) (v2.length + 2 - 1) =
        (0 + k1.length + 1 + 1 + v2.length, 1) := by
      have e3 : v2.length + 2 - 1 = v2.length + 1 := by omega
      rw [e3]
      exact scanVal_render _ chDQuot v2 (chRBr :: c2) _ (by simpa using hqd2)
        (fun x hx => (goodChar_spec x (hv2g x hx)).2.2.2.2.2.2.2.1)
    rw [hsv1, hsv2]
    dsimp only
    have hr : ¬((1 : Nat) ≠ 1 ∨ (1 : Nat) ≠ 1) := by decide
    rw [if_neg hr]
    have e5 : 0 + k1.length + 1 + 1 + v1.length - (0 + k1.length + 1 + 1) = v1.length := by
      omega
    have e6 : 0 + k1.length + 1 + 1 + v2.length - (0 + k1.length + 1 + 1) = v2.length := by
      omega
    rw [e5, e6, strncmp_vals _ _ v1 v2 (chRBr :: c1) (chRBr :: c2) _ _
      (by simpa using hqd1) (by simpa using hqd2) hv1g hv2g]
    simp
  · have el1 : k1.length + v1.length + 3 = k1.length + 1 + (v1.length + 2) := by omega
    have el2 : k2.length + v2.length + 3 = k2.length + 1 + (v2.length + 2) := by omega
    have hpr := prNames_ne_keys
      (k1 ++ chEq :: chDQuot :: v1 ++ chDQuot :: chRBr :: c1)
      (k2 ++ chEq :: chDQuot :: v2 ++ chDQuot :: chRBr :: c2)
      k1 k2 (chDQuot :: v1 ++ chDQuot :: chRBr :: c1) (chDQuot :: v2 ++ chDQuot :: chRBr :: c2)
      0 0 (v1.length + 2) (v2.length + 2) hk1ne hk1g hk2ne hk2g hkk (by simp) (by simp)
    rw [sr_xpath_oper_data_predicate_required, el1, el2, hpr]
    simp [hkk]

lemma modConflict_match (a b : XStep) :
    (match a.mod, b.mod with
     | some x, some y => decide (x ≠ [] ∧ y ≠ [] ∧ x ≠ y)
     | _, _ => false) = modConflict a b := rfl

lemma predLoop_none_none (fuel : Nat) (r1 r2 : List Char) :
    predLoop (fuel + 1) r1 false r2 false = PredRes.ok r1 r2 := by
  simp [predLoop, skipPreds]

lemma skipPreds_one (fuel : Nat) (k v cont : List Char)
    (hk : goodSeg k = true) (hv : v.all goodChar = true) :
    skipPreds (fuel + 2) (renderPred (k, v) ++ cont) true = some cont := by
  have h1 : skipPreds (fuel + 1 + 1) (renderPred (k, v) ++ cont) true =
      skipPreds (fuel + 1) cont false := by
    simp [skipPreds, next_predicate_render k v cont hk hv]
  rw [show fuel + 2 = fuel + 1 + 1 from rfl, h1]
  simp [skipPreds]

lemma predLoop_one_zero (fuel : Nat) (k v cont1 r2 : List Char)
    (hk : goodSeg k = true) (hv : v.all goodChar = true) :
    predLoop (fuel + 2) (renderPred (k, v) ++ cont1) true r2 false =
      PredRes.ok cont1 r2 := by
  have hskip := skipPreds_one fuel k v cont1 hk hv
  have hskip2 : skipPreds (fuel + 2) r2 false = some r2 := by
    simp [skipPreds]
  simp [predLoop, hskip, hskip2]

lemma predLoop_zero_one (fuel : Nat) (r1 k v cont2 : List Char)
    (hk : goodSeg k = true) (hv : v.all goodChar = true) :
    predLoop (fuel + 2) r1 false (renderPred (k, v) ++ cont2) true =
      PredRes.ok r1 cont2 := by
  have hskip := skipPreds_one fuel k v cont2 hk hv
  have hskip2 : skipPreds (fuel + 2) r1 false = some r1 := by
    simp [skipPreds]
  simp [predLoop, hskip, hskip2]

lemma predLoop_one_one (fuel : Nat) (k1 v1 cont1 k2 v2 cont2 : List Char)
    (hk1 : goodSeg k1 = true) (hv1 : v1.all goodChar = true)
    (hk2 : goodSeg k2 = true) (hv2 : v2.all goodChar = true) :
    predLoop (fuel + 2) (renderPred (k1, v1) ++ cont1) true
        (renderPred (k2, v2) ++ cont2) true =
      if k1 = k2 ∧ v1 ≠ v2 then PredRes.notRequired else PredRes.ok cont1 cont2 := by
  have hnp1 := next_predicate_render k1 v1 cont1 hk1 hv1
  have hnp2 := next_predicate_render k2 v2 cont2 hk2 hv2
  have hpr := pred_required_render k1 v1 k2 v2 cont1 cont2 hk1 hk2 hv1 hv2
  by_cases hc : k1 = k2 ∧ v1 ≠ v2
  · have hreq : sr_xpath_oper_data_predicate_required
        (k1 ++ chEq :: chDQuot :: v1 ++ chDQuot :: chRBr :: cont1) (k1.length + v1.length + 3)
        (k2 ++ chEq :: chDQuot :: v2 ++ chDQuot :: chRBr :: cont2)
        (k2.length + v2.length + 3) = false := by
      rw [hpr]
      simp [hc.1, hc.2]
    rw [if_pos hc]
    rw [show fuel + 2 = fuel + 1 + 1 from rfl]
    simp only [predLoop, hnp1, hnp2, hreq, and_self, if_true, Bool.not_false, if_pos]
  · have hreq : sr_xpath_oper_data_predicate_required
        (k1 ++ chEq :: chDQuot :: v1 ++ chDQuot :: chRBr :: cont1) (k1.length + v1.length + 3)
        (k2 ++ chEq :: chDQuot :: v2 ++ chDQuot :: chRBr :: cont2)
        (k2.length + v2.length + 3) = true := by
      rw [hpr]
      by_cases hkk : k1 = k2
      · have hvv : v1 = v2 := by
          by_contra hcon
          exact hc ⟨hkk, hcon⟩
        simp [hvv]
      · simp [hkk]
    rw [if_neg hc]
    rw [show fuel + 2 = fuel + 1 + 1 from rfl]
    have hs1 : skipPreds (fuel + 1) cont1 false = some cont1 := by
      simp [skipPreds]
    have hs2 : skipPreds (fuel + 1) cont2 false = some cont2 := by
      simp [skipPreds]
    simp [predLoop, hnp1, hnp2, hreq, hs1, hs2, skipPreds]
    simpa using hreq

lemma render_length (R : List XStep) : R.length ≤ (render R).length := by
  induction R with
  | nil => simp [render]
  | cons a R ih =>
    rcases renderStep_head a with ⟨rest, hr⟩
    rw [render_cons, hr]
    simp only [List.length_cons, List.length_append]
    omega

lemma requiredLoop_render : ∀ (fuel : Nat) (a b : XStep) (R S : List XStep),
    min R.length S.length + 2 ≤ fuel →
    (a :: R).all wfStep = true → (b :: S).all wfStep = true →
    operDataRequiredLoop fuel (render (a :: R)) (render (b :: S)) =
      specRequired (a :: R) (b :: S) := by
  intro fuel
  induction fuel with
  | zero =>
    intro a b R S hf _ _
    omega
  | succ fuel ih =>
    intro a b R S hf hRall hSall
    have hwa : wfStep a = true ∧ R.all wfStep = true := by
      simpa [List.all_cons] using hRall
    have hwb : wfStep b = true ∧ S.all wfStep = true := by
      simpa [List.all_cons] using hSall
    obtain ⟨hdsa, hmoda, hnamea, hpredsa⟩ := wfStep_spec a hwa.1
    obtain ⟨hdsb, hmodb, hnameb, hpredsb⟩ := wfStep_spec b hwb.1
    simp only [operDataRequiredLoop, next_name_render a R hwa.1, next_name_render b S hwb.1]
    rw [if_neg (by simp)]
    rw [if_neg (by simp)]
    rw [modConflict_match a b]
    obtain ⟨fuel2, rfl⟩ : ∃ f2, fuel = f2 + 1 := ⟨fuel - 1, by omega⟩
    by_cases hmc : modConflict a b = true
    · rw [if_pos hmc]
      rw [specRequired, if_pos hmc]
    · rw [if_neg hmc]
      rw [specRequired, if_neg hmc]
      by_cases hnm : ¬(a.name = [chStar]) ∧ ¬(b.name = [chStar]) ∧ a.name ≠ b.name
      · rw [if_pos hnm, if_pos hnm]
      · rw [if_neg hnm, if_neg hnm]
        have hrec : (if render R ≠ [] ∧ render S ≠ [] then
            operDataRequiredLoop (fuel2 + 1) (render R) (render S) else true) =
            specRequired R S := by
          rcases R with _ | ⟨a2, R2⟩
          · rw [if_neg (by simp [render])]
            rfl
          · rcases S with _ | ⟨b2, S2⟩
            · rw [if_neg (by simp [render])]
              rfl
            · rw [if_pos ⟨render_cons_ne a2 R2, render_cons_ne b2 S2⟩]
              refine ih a2 b2 R2 S2 ?_ hwa.2 hwb.2
              simp only [List.length_cons] at hf
              omega
        have hfl0 : (decide (([] : List (List Char × List Char)) ≠ [])) = false := by
          simp
        have hfl1 : ∀ (p : List Char × List Char) (l : List (List Char × List Char)),
            (decide ((p :: l) ≠ [])) = true := by
          intro p l
          simp
        rcases hpredsa with hpa | ⟨p, hpa, hpk, hpv⟩
        · rcases hpredsb with hpb | ⟨q, hpb, hqk, hqv⟩
          · rw [hpa, hpb, hfl0]
            simp only [List.map_nil, List.flatten_nil, List.nil_append]
            rw [predLoop_none_none (fuel2 + 1) (render R) (render S)]
            have hpc : predConflict a b = false := by
              rw [predConflict, hpa]
            rw [hpc]
            simp only [Bool.false_eq_true, if_false]
            exact hrec
          · rcases q with ⟨qk, qv⟩
            rw [hpa, hpb, hfl0, hfl1]
            simp only [List.map_nil, List.flatten_nil, List.nil_append, List.map_cons,
              List.flatten_cons, List.append_nil]
            rw [show fuel2 + 1 + 1 = fuel2 + 2 from rfl,
              predLoop_zero_one fuel2 (render R) qk qv (render S) hqk hqv]
            have hpc : predConflict a b = false := by
              rw [predConflict, hpa]
            rw [hpc]
            simp only [Bool.false_eq_true, if_false]
            exact hrec
        · rcases hpredsb with hpb | ⟨q, hpb, hqk, hqv⟩
          · rcases p with ⟨pk, pv⟩
            rw [hpa, hpb, hfl0, hfl1]
            simp only [List.map_cons, List.flatten_cons, List.map_nil, List.flatten_nil,
              List.append_nil, List.nil_append]
            rw [show fuel2 + 1 + 1 = fuel2 + 2 from rfl,
              predLoop_one_zero fuel2 pk pv (render R) (render S) hpk hpv]
            have hpc : predConflict a b = false := by
              rw [predConflict, hpb]
              rcases a.preds with _ | _ <;> rfl
            rw [hpc]
            simp only [Bool.false_eq_true, if_false]
            exact hrec
          · rcases p with ⟨pk, pv⟩
            rcases q with ⟨qk, qv⟩
            rw [hpa, hpb, hfl1, hfl1]
            simp only [List.map_cons, List.flatten_cons, List.map_nil, List.flatten_nil,
              List.append_nil]
            rw [show fuel2 + 1 + 1 = fuel2 + 2 from rfl,
              predLoop_one_one fuel2 pk pv (render R) qk qv (render S) hpk hpv hqk hqv]
            have hpc : predConflict a b = decide (pk = qk ∧ pv ≠ qv) := by
              rw [predConflict, hpa, hpb]
            rw [hpc]
            by_cases hcc : pk = qk ∧ pv ≠ qv
            · rw [if_pos hcc]
              simp [hcc]
            · rw [if_neg hcc]
              simp only [hcc, decide_False, Bool.false_eq_true, if_false]
              exact hrec

lemma required_render (R S : List XStep) (hR : wfXPath R = true) (hS : wfXPath S = true) :
    sr_xpath_oper_data_required (some (render R)) (render S) = specRequired R S := by
  rcases R with _ | ⟨a, R2⟩
  · simp [wfXPath] at hR
  rcases S with _ | ⟨b, S2⟩
  · simp [wfXPath] at hS
  have hRall : (a :: R2).all wfStep = true := by
    simpa [wfXPath] using hR
  have hSall : (b :: S2).all wfStep = true := by
    simpa [wfXPath] using hS
  rw [sr_xpath_oper_data_required]
  refine requiredLoop_render _ a b R2 S2 ?_ hRall hSall
  have h1 := render_length (a :: R2)
  have h2 := render_length (b :: S2)
  simp only [List.length_cons] at h1 h2
  omega

lemma dmatches_cons_nods (a : XStep) (pat : List XStep) (n : PStep) (path : List PStep)
    (hds : a.dslash = false) :
    dmatches (a :: pat) (n :: path) = (nodeMatch a n && dmatches pat path) := by
  simp [dmatches, hds]

lemma dmatches_cons_nil (a : XStep) (pat : List XStep) :
    dmatches (a :: pat) [] = false := by
  simp [dmatches]

lemma nodeMatch_spec (a : XStep) (n : PStep) (h : nodeMatch a n = true) :
    (∀ md, a.mod = some md → md = n.pmod) ∧
    (a.name = [chStar] ∨ a.name = n.name) ∧
    ∀ pr ∈ a.preds, n.keys.lookup pr.1 = some pr.2 := by
  simp only [nodeMatch, Bool.and_eq_true, Bool.or_eq_true, decide_eq_true_eq,
    List.all_eq_true] at h
  refine ⟨?_, h.1.2, h.2⟩
  intro md hmd
  have h1 := h.1.1
  rw [hmd] at h1
  simp only [decide_eq_true_eq] at h1
  exact h1

lemma modConflict_spec (a b : XStep) (h : modConflict a b = true) :
    ∃ x y, a.mod = some x ∧ b.mod = some y ∧ x ≠ y := by
  rcases hma : a.mod with _ | x <;> rcases hmb : b.mod with _ | y <;>
    rw [modConflict, hma, hmb] at h
  · simp at h
  · simp at h
  · simp at h
  · simp only [decide_eq_true_eq] at h
    exact ⟨x, y, rfl, rfl, h.2.2⟩

lemma predConflict_spec (a b : XStep) (h : predConflict a b = true) :
    ∃ k v1 v2 t1 t2, a.preds = (k, v1) :: t1 ∧ b.preds = (k, v2) :: t2 ∧ v1 ≠ v2 := by
  rcases hpa : a.preds with _ | ⟨⟨k1, v1⟩, t1⟩ <;>
    rcases hpb : b.preds with _ | ⟨⟨k2, v2⟩, t2⟩ <;>
    rw [predConflict, hpa, hpb] at h
  · simp at h
  · simp at h
  · simp at h
  · simp only [decide_eq_true_eq] at h
    exact ⟨k1, v1, v2, t1, t2, rfl, by rw [h.1], h.2⟩

lemma overlap_cons (n m : PStep) (p q : List PStep) (h : overlap (n :: p) (m :: q)) :
    n = m ∧ overlap p q := by
  rcases h with ⟨r, hr⟩ | ⟨r, hr⟩
  · rw [List.cons_append] at hr
    injection hr with h1 h2
    exact ⟨h1.symm, Or.inl ⟨r, h2⟩⟩
  · rw [List.cons_append] at hr
    injection hr with h1 h2
    exact ⟨h1, Or.inr ⟨r, h2⟩⟩

lemma specRequired_sound : ∀ (R S : List XStep) (p q : List PStep),
    dsFree R = true → dsFree S = true →
    specRequired R S = false →
    dmatches R p = true → dmatches S q = true → ¬ overlap p q := by
  intro R
  induction R with
  | nil =>
    intro S p q _ _ hfalse _ _
    rw [specRequired] at hfalse
    cases hfalse
  | cons a R ih =>
    intro S p q hdR hdS hfalse hp hq
    rcases S with _ | ⟨b, S2⟩
    · rw [specRequired] at hfalse
      cases hfalse
    have hdsa : a.dslash = false := by
      simp only [dsFree, List.all_cons, Bool.and_eq_true] at hdR
      simpa using hdR.1
    have hdsb : b.dslash = false := by
      simp only [dsFree, List.all_cons, Bool.and_eq_true] at hdS
      simpa using hdS.1
    rcases p with _ | ⟨n, p2⟩
    · rw [dmatches_cons_nil] at hp
      cases hp
    rcases q with _ | ⟨m, q2⟩
    · rw [dmatches_cons_nil] at hq
      cases hq
    rw [dmatches_cons_nods a R n p2 hdsa, Bool.and_eq_true] at hp
    rw [dmatches_cons_nods b S2 m q2 hdsb, Bool.and_eq_true] at hq
    intro hov
    obtain ⟨hnm, hov2⟩ := overlap_cons n m p2 q2 hov
    subst hnm
    obtain ⟨hmod1, hname1, hpred1⟩ := nodeMatch_spec a n hp.1
    obtain ⟨hmod2, hname2, hpred2⟩ := nodeMatch_spec b n hq.1
    rw [specRequired] at hfalse
    by_cases hmc : modConflict a b = true
    · obtain ⟨x, y, hx, hy, hxy⟩ := modConflict_spec a b hmc
      exact hxy ((hmod1 x hx).trans (hmod2 y hy).symm)
    · rw [if_neg hmc] at hfalse
      by_cases hnc : ¬(a.name = [chStar]) ∧ ¬(b.name = [chStar]) ∧ a.name ≠ b.name
      · rcases hname1 with h1 | h1
        · exact hnc.1 h1
        · rcases hname2 with h2 | h2
          · exact hnc.2.1 h2
          · exact hnc.2.2 (h1.trans h2.symm)
      · rw [if_neg hnc] at hfalse
        by_cases hpc : predConflict a b = true
        · obtain ⟨k, v1, v2, t1, t2, ha, hb, hv⟩ := predConflict_spec a b hpc
          have l1 := hpred1 (k, v1) (by rw [ha]; exact List.mem_cons_self _ _)
          have l2 := hpred2 (k, v2) (by rw [hb]; exact List.mem_cons_self _ _)
          simp only at l1 l2
          rw [l1] at l2
          injection l2 with l3
          exact hv l3
        · rw [if_neg hpc] at hfalse
          have hdR2 : dsFree R = true := by
            simp only [dsFree, List.all_cons, Bool.and_eq_true] at hdR
            exact hdR.2
          have hdS2 : dsFree S2 = true := by
            simp only [dsFree, List.all_cons, Bool.and_eq_true] at hdS
            exact hdS.2
          exact ih S2 p2 q2 hdR2 hdS2 hfalse hp.2 hq.2 hov2

lemma wf_dsFree (R : List XStep) (h : wfXPath R = true) : dsFree R = true := by
  simp only [wfXPath, Bool.and_eq_true, List.all_eq_true] at h
  simp only [dsFree, List.all_eq_true]
  intro s hs
  have := (wfStep_spec s (h.2 s hs)).1
  simp [this]

/-- C2 (amended): the prune treats an absent request XPath as required;
over well-formed rendered XPaths with no doubled slash and at most one
predicate per step it computes exactly the claim-worded step-pair walk
(disjoint only on a module, non-wildcard-name or first-key-equality
disagreement); and under those restrictions the prune is sound: a
not-required verdict means no instance path matched by the subscription
XPath extends or is extended by an instance path matched by the request
XPath.  (The original claim is refuted for xpaths with doubled slashes
or several predicates on one step, see the counterexample theorem.) -/
theorem C2_xpath_prune (R S : List XStep)
    (hwR : wfXPath R = true) (hwS : wfXPath S = true) :
    (∀ sub, sr_xpath_oper_data_required none sub = true) ∧
    sr_xpath_oper_data_required (some (render R)) (render S) = specRequired R S ∧
    (sr_xpath_oper_data_required (some (render R)) (render S) = false →
      ∀ p q, dmatches R p = true → dmatches S q = true → ¬ overlap p q) := by
  refine ⟨fun sub => rfl, required_render R S hwR hwS, ?_⟩
  intro hfalse p q hp hq
  rw [required_render R S hwR hwS] at hfalse
  exact specRequired_sound R S p q (wf_dsFree R hwR) (wf_dsFree S hwS) hfalse hp hq

/-- Witness for C2: the singleton request `/a` against subscription `/b`
is well formed; the theorem instantiates to a proper disjointness
verdict for them. -/
theorem C2_xpath_prune_witness :
    sr_xpath_oper_data_required none (String.toList "/x") = true ∧
    sr_xpath_oper_data_required (some (render [mkStep "a"])) (render [mkStep "b"]) =
      specRequired [mkStep "a"] [mkStep "b"] ∧
    ∀ p q, dmatches [mkStep "a"] p = true → dmatches [mkStep "b"] q = true →
      ¬ overlap p q :=
  have h := C2_xpath_prune [mkStep "a"] [mkStep "b"] (by decide) (by decide)
  ⟨h.1 (String.toList "/x"), h.2.1, h.2.2 (by decide)⟩

/-- Counterexample for the frozen C2: (i) with `//` at equal positions
the code returns not-required (the spec says `//` is conservatively
required), yet the subscription instance `/a/b` extends the request
instance `/a`, so matching data would be pruned away; (ii) with two
predicates on one subscription step the code compares only the first
pair and then misparses the remainder, declaring `/c[k="1"]/d` disjoint
from `/c[k="1"][l="2"]/d` although one data path matches both. -/
theorem C2_xpath_prune_counterexample :
    (sr_xpath_oper_data_required (some (String.toList "//a")) (String.toList "//b") =
        false ∧
      render [mkDStep "a"] = String.toList "//a" ∧
      render [mkDStep "b"] = String.toList "//b" ∧
      dmatches [mkDStep "a"] [mkNode "a" []] = true ∧
      dmatches [mkDStep "b"] [mkNode "a" [], mkNode "b" []] = true ∧
      overlap [mkNode "a" []] [mkNode "a" [], mkNode "b" []]) ∧
    (sr_xpath_oper_data_required (some (String.toList "/c[k=\x221\x22]/d"))
        (String.toList "/c[k=\x221\x22][l=\x222\x22]/d") = false ∧
      render [mkPStep "c" [("k", "1")], mkStep "d"] = String.toList "/c[k=\x221\x22]/d" ∧
      render [mkPStep "c" [("k", "1"), ("l", "2")], mkStep "d"] =
        String.toList "/c[k=\x221\x22][l=\x222\x22]/d" ∧
      dmatches [mkPStep "c" [("k", "1")], mkStep "d"]
        [mkNode "c" [("k", "1"), ("l", "2")], mkNode "d" []] = true ∧
      dmatches [mkPStep "c" [("k", "1"), ("l", "2")], mkStep "d"]
        [mkNode "c" [("k", "1"), ("l", "2")], mkNode "d" []] = true ∧
      overlap [mkNode "c" [("k", "1"), ("l", "2")], mkNode "d" []]
        [mkNode "c" [("k", "1"), ("l", "2")], mkNode "d" []]) := by
  refine ⟨⟨by decide, by decide, by decide, by decide, by decide, ?_⟩,
    by decide, by decide, by decide, by decide, by decide, ?_⟩
  · exact Or.inl ⟨[mkNode "b" []], rfl⟩
  · exact Or.inl ⟨[], by simp⟩


lemma operAppendOne_err (env : OperEnv) (request : Option (List Char)) (i j : Nat)
    (cp : Bool) (data : Option Nat) (hm : env.mergeOk i j = true) :
    ∀ tr d e, operAppendOne env request i j cp data = (tr, d, some e) →
      e = sr_error_t.callbackFailed := by
  intro tr d e h
  rw [operAppendOne] at h
  split at h
  · simp at h
  · rcases hn : env.notifyRaw i (if cp then some j else none) with _ | payload <;>
      simp only [sr_shmsub_oper_notify, hn] at h
    · simp only [Prod.mk.injEq, Option.some.injEq] at h
      exact h.2.2.symm
    · rcases payload with _ | v <;> simp at h

lemma operParents_err (env : OperEnv) (request : Option (List Char)) (i : Nat)
    (hm : ∀ a b, env.mergeOk a b = true) :
    ∀ (rem j : Nat) (data : Option Nat) (tr : List OperEv) (d : Option Nat)
      (e : sr_error_t), operParents env request i j rem data = (tr, d, some e) →
      e = sr_error_t.callbackFailed := by
  intro rem
  induction rem with
  | zero =>
    intro j data tr d e h
    simp [operParents] at h
  | succ rem ih =>
    intro j data tr d e h
    rw [operParents] at h
    rcases ha : operAppendOne env request i j true data with ⟨tr1, data1, err1⟩
    rw [ha] at h
    rcases err1 with _ | e1
    · dsimp only at h
      rcases hp : operParents env request i (j + 1) rem data1 with ⟨tr2, data2, err2⟩
      rw [hp] at h
      rcases err2 with _ | e2
      · simp at h
      · simp only [Prod.mk.injEq, Option.some.injEq] at h
        rw [← h.2.2]
        exact ih (j + 1) data1 tr2 data2 e2 hp
    · dsimp only at h
      simp only [Prod.mk.injEq, Option.some.injEq] at h
      rw [← h.2.2]
      exact operAppendOne_err env request i j true data (hm i j) tr1 data1 e1 ha

lemma operSubTail_err (env : OperEnv) (request : Option (List Char)) (i : Nat)
    (xpath : List Char) (tr0 : List OperEv) (data1 : Option Nat)
    (htrim : sr_xpath_trim_last_node xpath ≠ none)
    (hfind : ∀ d p, env.findOk d p = true)
    (hm : ∀ a b, env.mergeOk a b = true) :
    ∀ tr d e, operSubTail env request i xpath tr0 data1 = (tr, d, some e) →
      e = sr_error_t.callbackFailed := by
  intro tr d e h
  rw [operSubTail] at h
  rcases htr : sr_xpath_trim_last_node xpath with _ | ⟨_ | pxp⟩ <;> rw [htr] at h
  · exact absurd htr htrim
  · rcases ha : operAppendOne env request i 0 false data1 with ⟨tr1, d2, err1⟩
    rw [ha] at h
    rcases err1 with _ | e1
    · simp at h
    · dsimp only at h
      simp only [Prod.mk.injEq, Option.some.injEq] at h
      rw [← h.2.2]
      exact operAppendOne_err env request i 0 false data1 (hm i 0) tr1 d2 e1 ha
  · rcases hd1 : data1 with _ | dd <;> rw [hd1] at h
    · simp at h
    · dsimp only at h
      rw [if_neg (by simp [hfind dd pxp])] at h
      split at h
      · simp at h
      · rcases hp : operParents env request i 0 (env.findCount dd pxp)
            (some dd) with ⟨tr1, d2, err1⟩
        rw [hp] at h
        rcases err1 with _ | e1
        · simp at h
        · simp only [Prod.mk.injEq, Option.some.injEq] at h
          rw [← h.2.2]
          exact operParents_err env request i hm _ 0 (some dd) tr1 d2 e1 hp

lemma operSubStep_err (env : OperEnv) (request : Option (List Char)) (opts : OperOpts)
    (i : Nat) (sub : OperSub) (data : Option Nat)
    (hcomp : env.complementOk i = true)
    (htrim : sr_xpath_trim_last_node sub.xpath ≠ none)
    (hfind : ∀ d p, env.findOk d p = true)
    (hm : ∀ a b, env.mergeOk a b = true) :
    ∀ tr d e, operSubStep env request opts i sub data = (tr, d, some e) →
      e = sr_error_t.callbackFailed := by
  intro tr d e h
  by_cases hc1 : sub.subType = OperSubType.config ∧ opts.noConfig = true
  · rw [operSubStep, if_pos hc1] at h
    simp at h
  by_cases hc2 : sub.subType = OperSubType.state ∧ opts.noState = true
  · rw [operSubStep, if_neg hc1, if_pos hc2] at h
    simp at h
  by_cases hc3 : sr_xpath_oper_data_required request sub.xpath = false
  · rw [operSubStep, if_neg hc1, if_neg hc2, if_pos hc3] at h
    simp at h
  rw [operSubStep, if_neg hc1, if_neg hc2, if_neg hc3] at h
  by_cases hc4 : sub.merge = true
  · rw [if_pos hc4] at h
    exact operSubTail_err env request i sub.xpath [] data htrim hfind hm tr d e h
  · rw [if_neg hc4, if_pos hcomp] at h
    exact operSubTail_err env request i sub.xpath [OperEv.removed i]
      (env.complementAt data sub.xpath) htrim hfind hm tr d e h

lemma operAppendOne_no_removed (env : OperEnv) (request : Option (List Char))
    (i j : Nat) (cp : Bool) (data : Option Nat) (k : Nat) :
    OperEv.removed k ∉ (operAppendOne env request i j cp data).1 := by
  rw [operAppendOne]
  split
  · simp
  · rcases hn : env.notifyRaw i (if cp then some j else none) with _ | payload <;>
      simp only [sr_shmsub_oper_notify, hn]
    · simp
    · split
      · rcases payload with _ | v <;> simp
      · simp

lemma operParents_no_removed (env : OperEnv) (request : Option (List Char)) (i : Nat) :
    ∀ (rem j : Nat) (data : Option Nat) (k : Nat),
      OperEv.removed k ∉ (operParents env request i j rem data).1 := by
  intro rem
  induction rem with
  | zero =>
    intro j data k
    simp [operParents]
  | succ rem ih =>
    intro j data k
    rw [operParents]
    rcases ha : operAppendOne env request i j true data with ⟨tr1, data1, err1⟩
    have hno1 : OperEv.removed k ∉ tr1 := by
      have := operAppendOne_no_removed env request i j true data k
      rw [ha] at this
      exact this
    rcases err1 with _ | e1
    · dsimp only
      rcases hp : operParents env request i (j + 1) rem data1 with ⟨tr2, data2, err2⟩
      have hno2 : OperEv.removed k ∉ tr2 := by
        have := ih (j + 1) data1 k
        rw [hp] at this
        exact this
      simp only [List.mem_append]
      intro hcon
      rcases hcon with hcon | hcon
      · exact hno1 hcon
      · exact hno2 hcon
    · exact hno1

lemma operSubTail_no_removed (env : OperEnv) (request : Option (List Char)) (i : Nat)
    (xpath : List Char) (tr0 : List OperEv) (data1 : Option Nat) (k : Nat)
    (h : OperEv.removed k ∈ (operSubTail env request i xpath tr0 data1).1) :
    OperEv.removed k ∈ tr0 := by
  rw [operSubTail] at h
  rcases htr : sr_xpath_trim_last_node xpath with _ | ⟨_ | pxp⟩ <;> rw [htr] at h
  · exact h
  · rcases ha : operAppendOne env request i 0 false data1 with ⟨tr1, d2, err1⟩
    rw [ha] at h
    dsimp only at h
    rcases List.mem_append.mp h with h2 | h2
    · exact h2
    · have := operAppendOne_no_removed env request i 0 false data1 k
      rw [ha] at this
      exact absurd h2 this
  · rcases hd1 : data1 with _ | dd <;> rw [hd1] at h
    · simp only [List.mem_append] at h
      rcases h with h2 | h2
      · exact h2
      · simp at h2
    · dsimp only at h
      split at h
      · exact h
      · split at h
        · simp only [List.mem_append] at h
          rcases h with h2 | h2
          · exact h2
          · simp at h2
        · rcases hp : operParents env request i 0 (env.findCount dd pxp)
              (some dd) with ⟨tr1, d2, err1⟩
          rw [hp] at h
          dsimp only at h
          rcases List.mem_append.mp h with h2 | h2
          · exact h2
          · have := operParents_no_removed env request i (env.findCount dd pxp) 0
              (some dd) k
            rw [hp] at this
            exact absurd h2 this

lemma operSubTail_starts (env : OperEnv) (request : Option (List Char)) (i : Nat)
    (xpath : List Char) (tr0 : List OperEv) (data1 : Option Nat) :
    ∃ tl, (operSubTail env request i xpath tr0 data1).1 = tr0 ++ tl := by
  rw [operSubTail]
  rcases htr : sr_xpath_trim_last_node xpath with _ | ⟨_ | pxp⟩
  · exact ⟨[], by simp⟩
  · rcases ha : operAppendOne env request i 0 false data1 with ⟨tr1, d2, err1⟩
    exact ⟨tr1, rfl⟩
  · rcases hd1 : data1 with _ | dd
    · exact ⟨[OperEv.parentSkip i], rfl⟩
    · dsimp only
      split
      · exact ⟨[], by simp⟩
      · split
        · exact ⟨[OperEv.parentSkip i], rfl⟩
        · rcases hp : operParents env request i 0 (env.findCount dd pxp)
              (some dd) with ⟨tr1, d2, err1⟩
          exact ⟨tr1, rfl⟩

lemma operSubTail_skip (env : OperEnv) (request : Option (List Char)) (i : Nat)
    (xpath : List Char) (tr0 : List OperEv) (data1 : Option Nat) (pxp : List Char)
    (htr : sr_xpath_trim_last_node xpath = some (some pxp))
    (hsk : data1 = none ∨ ∀ dd, data1 = some dd → env.findCount dd pxp = 0)
    (hfind : ∀ d p, env.findOk d p = true) :
    (operSubTail env request i xpath tr0 data1).1 = tr0 ++ [OperEv.parentSkip i] := by
  rw [operSubTail, htr]
  rcases hd1 : data1 with _ | dd
  · rfl
  · dsimp only
    rw [if_neg (by simp [hfind dd pxp])]
    rcases hsk with hsk | hsk
    · rw [hd1] at hsk
      cases hsk
    · rw [if_pos (hsk dd hd1)]

lemma operSubsLoop_err (env : OperEnv) (request : Option (List Char)) (opts : OperOpts)
    (hcomp : ∀ k, env.complementOk k = true)
    (hfind : ∀ d p, env.findOk d p = true)
    (hm : ∀ a b, env.mergeOk a b = true) :
    ∀ (subs : List OperSub) (i : Nat) (data : Option Nat),
      (∀ s ∈ subs, sr_xpath_trim_last_node s.xpath ≠ none) →
      ∀ tr d e, operSubsLoop env request opts i subs data = (tr, d, some e) →
        e = sr_error_t.callbackFailed := by
  intro subs
  induction subs with
  | nil =>
    intro i data _ tr d e h
    simp [operSubsLoop] at h
  | cons sub rest ih =>
    intro i data htrims tr d e h
    rw [operSubsLoop] at h
    rcases hs : operSubStep env request opts i sub data with ⟨tr1, d1, err1⟩
    rw [hs] at h
    rcases err1 with _ | e1
    · dsimp only at h
      rcases hl : operSubsLoop env request opts (i + 1) rest d1 with ⟨tr2, d2, err2⟩
      rw [hl] at h
      rcases err2 with _ | e2
      · simp at h
      · simp only [Prod.mk.injEq, Option.some.injEq] at h
        rw [← h.2.2]
        exact ih (i + 1) d1 (fun s hs2 => htrims s (List.mem_cons_of_mem _ hs2))
          tr2 d2 e2 hl
    · dsimp only at h
      simp only [Prod.mk.injEq, Option.some.injEq] at h
      rw [← h.2.2]
      exact operSubStep_err env request opts i sub data (hcomp i)
        (htrims sub (List.mem_cons_self _ _)) hfind hm tr1 d1 e1 hs

/-- C6: for a subscription that passes the type filters and the static
prune: without `OPER_MERGE` the removal of the present data under the
subscription XPath is the first event of its iteration (hence precedes
every provider merge), and with `OPER_MERGE` no removal happens; when
the subscription XPath has a data-parent XPath and the current data
have no matching parent instance, the provider is not invoked; a
provider timeout or callback failure is the only error source when the
libyang oracles succeed, so any error the iteration, the subscription
loop or the whole composer returns is `CALLBACK_FAILED`, and an
iteration error stops the loop with no events from later
subscriptions. -/
theorem C6_oper_composer (env : OperEnv) (request : Option (List Char))
    (opts : OperOpts) (i : Nat) (sub : OperSub) (data : Option Nat)
    (htype1 : ¬(sub.subType = OperSubType.config ∧ opts.noConfig = true))
    (htype2 : ¬(sub.subType = OperSubType.state ∧ opts.noState = true))
    (hreq : sr_xpath_oper_data_required request sub.xpath = true)
    (hcomp : ∀ k, env.complementOk k = true)
    (hfind : ∀ d p, env.findOk d p = true)
    (hm : ∀ a b, env.mergeOk a b = true) :
    (sub.merge = false →
      ∃ tl, (operSubStep env request opts i sub data).1 = OperEv.removed i :: tl) ∧
    (sub.merge = true →
      ∀ k, OperEv.removed k ∉ (operSubStep env request opts i sub data).1) ∧
    (∀ pxp, sr_xpath_trim_last_node sub.xpath = some (some pxp) →
      ((if sub.merge = true then data else env.complementAt data sub.xpath) = none ∨
        ∀ dd, (if sub.merge = true then data else env.complementAt data sub.xpath) =
          some dd → env.findCount dd pxp = 0) →
      ∀ j, OperEv.invoked i j ∉ (operSubStep env request opts i sub data).1) ∧
    (sr_xpath_trim_last_node sub.xpath ≠ none →
      ∀ tr d e, operSubStep env request opts i sub data = (tr, d, some e) →
        e = sr_error_t.callbackFailed) ∧
    (∀ rest tr1 d1 e, operSubStep env request opts i sub data = (tr1, d1, some e) →
      operSubsLoop env request opts i (sub :: rest) data = (tr1, d1, some e)) ∧
    (∀ subs, (opts.noStored = true ∨ (env.storedDiffOk = true ∧ env.applyOk = true)) →
      (∀ s ∈ subs, sr_xpath_trim_last_node s.xpath ≠ none) →
      ∀ e, (sr_module_oper_data_update env request subs opts data).2.2 = some e →
        e = sr_error_t.callbackFailed) := by
  have hreq2 : ¬(sr_xpath_oper_data_required request sub.xpath = false) := by
    simp [hreq]
  refine ⟨?_, ?_, ?_, ?_, ?_, ?_⟩
  · intro hmg
    rw [operSubStep, if_neg htype1, if_neg htype2, if_neg hreq2,
      if_neg (by simp [hmg]), if_pos (hcomp i)]
    obtain ⟨tl, htl⟩ := operSubTail_starts env request i sub.xpath [OperEv.removed i]
      (env.complementAt data sub.xpath)
    exact ⟨tl, by simp [htl]⟩
  · intro hmg k
    rw [operSubStep, if_neg htype1, if_neg htype2, if_neg hreq2, if_pos hmg]
    intro hcon
    have := operSubTail_no_removed env request i sub.xpath [] data k hcon
    simp at this
  · intro pxp htr hsk j
    rcases hmg : sub.merge with _ | _
    · rw [operSubStep, if_neg htype1, if_neg htype2, if_neg hreq2,
        if_neg (by simp [hmg]), if_pos (hcomp i),
        operSubTail_skip env request i sub.xpath [OperEv.removed i]
          (env.complementAt data sub.xpath) pxp htr (by simpa [hmg] using hsk) hfind]
      simp
    · rw [operSubStep, if_neg htype1, if_neg htype2, if_neg hreq2, if_pos hmg,
        operSubTail_skip env request i sub.xpath [] data pxp htr
          (by simpa [hmg] using hsk) hfind]
      simp
  · intro htrim tr d e h
    exact operSubStep_err env request opts i sub data (hcomp i) htrim hfind hm tr d e h
  · intro rest tr1 d1 e h
    rw [operSubsLoop, h]
  · intro subs hstored htrims e h
    rw [sr_module_oper_data_update] at h
    have hsc : (if opts.noStored then some ([], data)
        else if ¬ env.storedDiffOk then none
        else if ¬ env.applyOk then none
        else some ([OperEv.applyStored], env.applyData data)) ≠ none := by
      rcases hstored with hs | ⟨hs1, hs2⟩
      · simp [hs]
      · by_cases hns : opts.noStored = true
        · simp [hns]
        · simp [hns, hs1, hs2]
    rcases hsc2 : (if opts.noStored then some ([], data)
        else if ¬ env.storedDiffOk then none
        else if ¬ env.applyOk then none
        else some ([OperEv.applyStored], env.applyData data)) with _ | ⟨tr0, data1⟩
    · exact absurd hsc2 hsc
    · rw [hsc2] at h
      dsimp only at h
      split at h
      · simp at h
      · rcases hl : operSubsLoop env request opts 0 subs data1 with ⟨tr2, d2, err2⟩
        rw [hl] at h
        rcases err2 with _ | e2
        · simp at h
        · simp only [Option.some.injEq] at h
          rw [← h]
          exact operSubsLoop_err env request opts hcomp hfind hm subs 0 data1 htrims
            tr2 d2 e2 hl

/-- Witness for C6: the concrete environment `envC6` whose provider for
subscription 0 fails: the iteration on `/a` starts with the removal
event, and the whole composer run ends in `CALLBACK_FAILED`. -/
theorem C6_oper_composer_witness :
    (∃ tl, (operSubStep envC6 none operOpts0 0 operSub0 (some 3)).1 =
      OperEv.removed 0 :: tl) ∧
    (∀ e, (sr_module_oper_data_update envC6 none [operSub0] operOpts0 (some 3)).2.2 =
      some e → e = sr_error_t.callbackFailed) ∧
    (sr_module_oper_data_update envC6 none [operSub0] operOpts0 (some 3)).2.2 =
      some sr_error_t.callbackFailed ∧
    (sr_module_oper_data_update envC6 none [operSub0] operOpts0 (some 3)).1 =
      [OperEv.removed 0, OperEv.invoked 0 0] :=
  have h := C6_oper_composer envC6 none operOpts0 0 operSub0 (some 3)
    (by decide) (by decide) rfl (fun _ => rfl) (fun _ _ => rfl) (fun _ _ => rfl)
  ⟨h.1 rfl, h.2.2.2.2.2 [operSub0] (Or.inl rfl)
      (by intro s hs; simp only [List.mem_cons, List.not_mem_nil, or_false] at hs;
          subst hs; decide),
    by decide, by decide⟩


lemma notifEditLoop_filterMap (env : NotifEnv) (hnew : env.newOk = true)
    (hpath : env.pathOk = true) :
    ∀ ops : List edit_op, notifEditLoop env ops = some (ops.filterMap editEntryOf) := by
  intro ops
  induction ops with
  | nil => simp [notifEditLoop]
  | cons op rest ih =>
    rw [notifEditLoop]
    rcases hc : changeOperOf op with _ | cop
    · dsimp only
      rw [ih, List.filterMap_cons]
      simp [editEntryOf, hc]
    · dsimp only
      rw [if_pos (by simp [hnew, hpath]), ih]
      dsimp only
      rw [List.filterMap_cons]
      simp [editEntryOf, hc]

/-- C8: the generator emits nothing when the diff has no node with an
effective operation, emits nothing on the candidate or operational
datastore, and otherwise (oracles succeeding, gate passing) builds
the notification with exactly one edit entry per changed node in DFS
order, each operation drawn from {create, replace, delete, merge}
with CREATED mapped to create, MODIFIED to replace, DELETED to
delete and MOVED folded to merge. -/
theorem C8_config_change_notif (env : NotifEnv) (ds : Ds) (diff : List DiffTree) :
    (forestChanges diff = false →
      sr_modinfo_generate_config_change_notif env ds diff = ([], none)) ∧
    (ds = Ds.candidate ∨ ds = Ds.operational →
      sr_modinfo_generate_config_change_notif env ds diff = ([], none)) ∧
    (∀ n, forestChanges diff = true → ¬(ds = Ds.candidate ∨ ds = Ds.operational) →
      env.findSubs = some n → env.modFound = true →
      (env.replaySupport = true ∨ n ≠ 0) →
      env.newOk = true → env.pathOk = true → env.replayOk = true →
      env.notifyOk = true →
      sr_modinfo_generate_config_change_notif env ds diff =
        ((NotifEv.built :: (forestOps diff).filterMap editEntryOf ++
            [NotifEv.replayStored]) ++
          (if n ≠ 0 then [NotifEv.delivered] else []), none)) ∧
    (opEnumOf sr_change_oper_t.created = NcOp.create ∧
      opEnumOf sr_change_oper_t.modified = NcOp.replace ∧
      opEnumOf sr_change_oper_t.deleted = NcOp.delete ∧
      opEnumOf sr_change_oper_t.moved = NcOp.merge) := by
  refine ⟨?_, ?_, ?_, rfl, rfl, rfl, rfl⟩
  · intro hch
    rw [sr_modinfo_generate_config_change_notif, if_pos hch]
  · intro hds
    rw [sr_modinfo_generate_config_change_notif]
    by_cases hch : forestChanges diff = false
    · rw [if_pos hch]
    · rw [if_neg hch, if_pos hds]
  · intro n hch hds hsubs hmf hgate hnew hpath hreplay hnotify
    rw [sr_modinfo_generate_config_change_notif, if_neg (by simp [hch]), if_neg hds,
      hsubs]
    dsimp only
    rw [if_neg (by simp [hmf]),
      if_neg (by rcases hgate with hg | hg <;> simp [hg]),
      if_neg (by simp [hnew]),
      notifEditLoop_filterMap env hnew hpath (forestOps diff)]
    dsimp only
    rw [if_pos hreplay, if_neg (by simp [hnotify]), hreplay]
    by_cases hn : n ≠ 0
    · rw [if_pos hn, if_pos hn]
      simp
    · rw [if_neg hn, if_neg hn]
      simp

/-- Witness for C8: a concrete three-node diff on running produces
exactly the edit entries create, replace, delete in DFS order between
building and replay storage, and delivery to the two subscribers. -/
theorem C8_config_change_notif_witness :
    sr_modinfo_generate_config_change_notif
        ⟨some 2, true, true, true, true, true, true⟩ Ds.running
        [DiffTree.mk edit_op.none_
          [DiffTree.mk edit_op.create [], DiffTree.mk edit_op.replace []],
         DiffTree.mk edit_op.delete []] =
      ([NotifEv.built, NotifEv.editAdded NcOp.create,
        NotifEv.editAdded NcOp.replace, NotifEv.editAdded NcOp.delete,
        NotifEv.replayStored, NotifEv.delivered], none) := by
  rw [(C8_config_change_notif ⟨some 2, true, true, true, true, true, true⟩ Ds.running
    [DiffTree.mk edit_op.none_
      [DiffTree.mk edit_op.create [], DiffTree.mk edit_op.replace []],
     DiffTree.mk edit_op.delete []]).2.2.1 2
    (by decide) (by decide) rfl rfl (Or.inr (by decide)) rfl rfl rfl rfl]
  decide

/-- C10: with effective changes on a conventional datastore, replay
support disabled and zero notification subscribers, the generator
returns success with an empty event trace: no notification is built,
no replay copy is stored, nothing is delivered. -/
theorem C10_no_replay_no_subs (env : NotifEnv) (ds : Ds) (diff : List DiffTree)
    (hch : forestChanges diff = true)
    (hds : ¬(ds = Ds.candidate ∨ ds = Ds.operational))
    (hsubs : env.findSubs = some 0)
    (hmf : env.modFound = true)
    (hrp : env.replaySupport = false) :
    sr_modinfo_generate_config_change_notif env ds diff = ([], none) := by
  rw [sr_modinfo_generate_config_change_notif, if_neg (by simp [hch]), if_neg hds,
    hsubs]
  dsimp only
  rw [if_neg (by simp [hmf]), if_pos ⟨hrp, rfl⟩]

/-- Witness for C10: a concrete changed diff on startup with replay
support off and zero subscribers. -/
theorem C10_no_replay_no_subs_witness :
    sr_modinfo_generate_config_change_notif
        ⟨some 0, true, false, true, true, true, true⟩ Ds.startup
        [DiffTree.mk edit_op.create []] = ([], none) :=
  C10_no_replay_no_subs ⟨some 0, true, false, true, true, true, true⟩ Ds.startup
    [DiffTree.mk edit_op.create []] (by decide) (by decide) rfl rfl rfl


end Sysrepo
